import Mathlib

/-!
# fptrace: a shallow embedding of the tracing supervisor (`main.go`)

The development follows `src/main.go`: the record filter of `main` (`onExit`),
the path resolver `absAt`, the syscall interpreter (`sysenter`, `sysexit`),
`terminate` and the supervisor loop `mainLoop`.

Conventions of the embedding.

* Go `uint64` registers are natural numbers; the conversions `int(..)` and
  `int32(..)` are the functions `toInt64` and `toInt32` (two's complement,
  explicit reduction modulo `2^64` and `2^32`).
* A Go map is an association list with at most one entry per key (`GoMap`);
  `m[k]` on a missing key gives the zero value, `v, ok := m[k]` is `GoMap.get?`.
* Pointers (`*ProcState`, `*IOs`, `*Cmd`, map values) are indices into a `Heap`;
  `sysenter`, `sysexit` and `absAt` work on the dereferenced view `ProcState`.
* What the supervisor obtains from the kernel or from the tracee (registers,
  tracee memory, `lstat`, event messages) is read from an `Env`.
* `e.Exit(err)` with an error, `panic` and a nil dereference end the supervisor:
  they are the values `fatal`, `panicked` and `nilDeref` of `Fault`.
* The refcount discipline of the IOSets is `RefInv`; `wellFormed` says what it
  expects of an event.
* Of the trace log printed with `fmt.Println`, the lines of `mainLoop` and
  `terminate` are modelled (`LogLine`); the lines of the interpreter are not.
-/

namespace Fptrace

/-! ## Machine integers -/

/-- Go `int(x)` for a `uint64` x: reinterpretation as a signed 64-bit integer. -/
def toInt64 (x : Nat) : Int :=
  if x % 2 ^ 64 < 2 ^ 63 then ((x % 2 ^ 64 : Nat) : Int) else ((x % 2 ^ 64 : Nat) : Int) - 2 ^ 64

/-- Go `int32(x)` for an integer x: the low 32 bits, read as signed. -/
def toInt32 (x : Int) : Int :=
  if x % 2 ^ 32 < 2 ^ 31 then x % 2 ^ 32 else x % 2 ^ 32 - 2 ^ 32

/-- Go `int32(x)` for a `uint64` register x. -/
def regInt32 (x : Nat) : Int := toInt32 (x : Int)

/-! ## Constants of `syscall` and `unix` (linux/amd64) -/

def SYS_READ : Int := 0
def SYS_WRITE : Int := 1
def SYS_OPEN : Int := 2
def SYS_CLOSE : Int := 3
def SYS_PREAD64 : Int := 17
def SYS_PWRITE64 : Int := 18
def SYS_READV : Int := 19
def SYS_WRITEV : Int := 20
def SYS_ACCESS : Int := 21
def SYS_PIPE : Int := 22
def SYS_DUP : Int := 32
def SYS_DUP2 : Int := 33
def SYS_EXECVE : Int := 59
def SYS_FCNTL : Int := 72
def SYS_CHDIR : Int := 80
def SYS_FCHDIR : Int := 81
def SYS_RENAME : Int := 82
def SYS_RMDIR : Int := 84
def SYS_LINK : Int := 86
def SYS_UNLINK : Int := 87
def SYS_OPENAT : Int := 257
def SYS_UNLINKAT : Int := 263
def SYS_RENAMEAT : Int := 264
def SYS_LINKAT : Int := 265
def SYS_FACCESSAT : Int := 269
def SYS_DUP3 : Int := 292
def SYS_PIPE2 : Int := 293
def SYS_PREADV : Int := 295
def SYS_PWRITEV : Int := 296
def SYS_RENAMEAT2 : Int := 316
def SYS_EXECVEAT : Int := 322
def SYS_PREADV2 : Int := 327
def SYS_PWRITEV2 : Int := 328

def AT_FDCWD : Int := -100
def O_WRONLY : Nat := 1
def O_RDWR : Nat := 2
def O_CLOEXEC : Nat := 0x80000
def O_TMPFILE : Nat := 0x410000
def F_DUPFD : Nat := 0
def F_SETFD : Nat := 2
def F_DUPFD_CLOEXEC : Nat := 1030
def FD_CLOEXEC : Nat := 1
def F_OK : Nat := 0
def CLONE_FILES : Nat := 0x400

def PTRACE_EVENT_FORK : Int := 1
def PTRACE_EVENT_VFORK : Int := 2
def PTRACE_EVENT_CLONE : Int := 3
def PTRACE_EVENT_EXEC : Int := 4
def PTRACE_EVENT_VFORK_DONE : Int := 5
def PTRACE_EVENT_SECCOMP : Int := 7

/-- Index of the read set in `IOs.Map` (`const R = 0`). -/
def R : Nat := 0

/-- Index of the write set in `IOs.Map` (`const W = 1`). -/
def W : Nat := 1

/-! ## Go maps -/

/-- Association list standing for a Go map. -/
abbrev GoMap (κ : Type) (ν : Type) := List (κ × ν)

namespace GoMap

variable {κ ν : Type} [DecidableEq κ]

/-- The comma-ok lookup `v, ok := m[k]`. -/
def get? : GoMap κ ν → κ → Option ν
  | [], _ => none
  | (k', v) :: m, k => if k' = k then some v else get? m k

/-- The builtin `delete(m, k)`. -/
def del : GoMap κ ν → κ → GoMap κ ν
  | [], _ => []
  | (k', v) :: m, k => if k' = k then del m k else (k', v) :: del m k

/-- The assignment `m[k] = v`. -/
def set (m : GoMap κ ν) (k : κ) (v : ν) : GoMap κ ν := (k, v) :: del m k

/-- Plain indexing `m[k]`: the zero value when the key is missing. -/
def getD (m : GoMap κ ν) (k : κ) (zero : ν) : ν := (get? m k).getD zero

end GoMap

/-- Set of integers `IntSet` (a `Has map[int]bool` with an `Add` method):
the list of its members, without repetition. -/
abbrev IntSet := List Nat

/-- Membership test `s.Has[i]`. -/
def IntSet.Has (s : IntSet) (i : Nat) : Bool := decide (i ∈ s)

/-- Insertion `s.Add(i)`. -/
def IntSet.Add (s : IntSet) (i : Nat) : IntSet := if i ∈ s then s else s ++ [i]

/-! ## Strings (`strings`, `strconv`, `fmt`, `path/filepath`) -/

/-- Go `strings.HasPrefix(s, pre)`. -/
def startsWith (s pre : String) : Bool := pre.data.isPrefixOf s.data

/-- Go slice `s[n:]` for a prefix of n one-byte characters. -/
def dropChars (s : String) (n : Nat) : String := String.mk (s.data.drop n)

/-- Decimal digits of a natural number, most significant first. -/
def natDigits (n : Nat) : List Char := Nat.toDigits 10 n

/-- Go `strconv.Itoa`. -/
def itoa (z : Int) : String :=
  if z < 0 then String.mk ('-' :: natDigits z.natAbs) else String.mk (natDigits z.natAbs)

/-- First-occurrence replacement on character lists. -/
def replaceFirstChars (old new : List Char) : List Char → List Char
  | [] => if old = [] then new else []
  | c :: cs =>
    if old.isPrefixOf (c :: cs) then new ++ (c :: cs).drop old.length
    else c :: replaceFirstChars old new cs

/-- Go `strings.Replace(s, old, new, 1)`. -/
def replaceFirst (s old new : String) : String :=
  String.mk (replaceFirstChars old.data new.data s.data)

/-- The white space of `fmt` scanning (`isSpace` of `fmt/scan.go`). -/
def isSpaceRune (c : Char) : Bool :=
  let n := c.toNat
  (0x09 ≤ n && n ≤ 0x0d) || n == 0x20 || n == 0x85 || n == 0xa0 || n == 0x1680 ||
  (0x2000 ≤ n && n ≤ 0x200a) || n == 0x2028 || n == 0x2029 || n == 0x202f ||
  n == 0x205f || n == 0x3000

/-- The method `SkipSpace` of the `fmt` scanner as used by `Sscanf` (a newline is
an error there): the rest of the input, or none on error. -/
def skipSpace : List Char → Option (List Char)
  | [] => some []
  | c :: cs =>
    if c = '\n' then none
    else if isSpaceRune c then skipSpace cs
    else some (c :: cs)

/-- Value of a string of decimal digits. -/
def digitsValue (ds : List Char) : Nat :=
  ds.foldl (fun acc c => acc * 10 + (c.toNat - '0'.toNat)) 0

/-- The verb `%d` of `fmt` scanning into an `int32`: white space is skipped, one
optional sign is accepted, at least one decimal digit is required, and the
value has to fit 32 bits. Input after the digits is left unread. -/
def scanInt32 (input : List Char) : Option Int :=
  match skipSpace input with
  | none => none
  | some rest =>
    let neg := rest.head? = some '-'
    let body := if rest.head? = some '-' ∨ rest.head? = some '+' then rest.tail else rest
    let tok := body.takeWhile Char.isDigit
    if tok = [] then none
    else
      let v : Int := if neg then -(digitsValue tok : Int) else (digitsValue tok : Int)
      if -(2 : Int) ^ 31 ≤ v ∧ v < (2 : Int) ^ 31 then some v else none

/-- Go `fmt.Sscanf(path, "/proc/self/fd/%d", &fd)`: the literal text has to match
the beginning of the input, then `%d` is scanned. The result is the scanned
fd when `err == nil`. -/
def sscanfProcSelfFd (path : String) : Option Int :=
  if startsWith path "/proc/self/fd/" then scanInt32 (path.data.drop 14) else none

/-- Go `filepath.Base`. -/
def filepathBase (path : String) : String :=
  if path = "" then "."
  else
    let stripped := (path.data.reverse.dropWhile (fun c => c = '/')).reverse
    let last := (stripped.reverse.takeWhile (fun c => c ≠ '/')).reverse
    if last = [] then "/" else String.mk last

/-! ## Registers and the platform -/

/-- The register snapshot `syscall.PtraceRegs` (amd64). -/
structure Regs where
  R15 : Nat
  R14 : Nat
  R13 : Nat
  R12 : Nat
  Rbp : Nat
  Rbx : Nat
  R11 : Nat
  R10 : Nat
  R9 : Nat
  R8 : Nat
  Rax : Nat
  Rcx : Nat
  Rdx : Nat
  Rsi : Nat
  Rdi : Nat
  Orig_rax : Nat
  Rip : Nat
  Cs : Nat
  Eflags : Nat
  Rsp : Nat
  Ss : Nat
  Fs_base : Nat
  Gs_base : Nat
  Ds : Nat
  Es : Nat
  Fs : Nat
  Gs : Nat
deriving DecidableEq, Repr

/-- The three ways in which the supervisor stops abruptly, and the value that the
model gives when one of its recursion bounds is used up. -/
inductive Fault where
  | fatal      -- e.Exit(err) with a non-nil error
  | panicked   -- an explicit panic(...)
  | nilDeref   -- dereference of a nil pointer
  | outOfFuel  -- no behaviour of the supervisor: a bound of the model was used up
deriving DecidableEq, Repr

/-- What the supervisor reads from the kernel, the tracee and the file system
while it handles one stop, together with the package variables read by the
interpreter and the loop, and the missing method `ProcState.AbsAt`. -/
structure Env where
  /-- Result of `getRegs(pid)`: none when the tracee has vanished. -/
  getRegs : Int → Option Regs
  /-- Result of `syscall.PtraceSetRegs(pid, &regs)`: true when it succeeds. -/
  setRegs : Int → Regs → Bool
  /-- Result of `readString(pid, addr)`. -/
  readString : Int → Nat → String
  /-- Result of `readStrings(pid, addr)`. -/
  readStrings : Int → Nat → List String
  /-- Result of `syscall.PtracePeekData(pid, addr, buf[:])` on the 8-byte buffer:
  the bytes read, none on error. -/
  peekData : Int → Nat → Option (List Nat)
  /-- Result of `os.Lstat(path)`: whether the entry is a directory, none on error. -/
  lstat : String → Option Bool
  /-- Result of `syscall.PtraceGetEventMsg(pid)`, none on error. -/
  eventMsg : Int → Option Nat
  /-- The method `ProcState.AbsAt(dir, p)`: lexical normalisation of p against dir. -/
  absAt : String → String → String
  /-- Flag `-e`. -/
  flEnv : Bool
  /-- Flag `-u`. -/
  flUndelete : Bool
  /-- The package variable `oldSeccomp`: kernel release below 4.8. -/
  oldSeccomp : Bool

/-- Go `binary.LittleEndian.Uint32` on four bytes of a buffer, from offset off. -/
def leUint32 (buf : List Nat) (off : Nat) : Nat :=
  buf.getD off 0 % 256 + buf.getD (off + 1) 0 % 256 * 2 ^ 8 +
    buf.getD (off + 2) 0 % 256 * 2 ^ 16 + buf.getD (off + 3) 0 % 256 * 2 ^ 24

/-! ## The registries `FS` and `Proc` -/

/-- Modelled from the spec: the path/inode registry `FS` (its source file is not
part of `src/`). Section 4.1: a bidirectional mapping between absolute path
strings and monotonic positive integer inodes. `seq` is the last inode handed
out, `pipe` counts the synthetic pipe paths. -/
structure FS where
  seq : Nat
  inodes : GoMap String Nat
  paths : GoMap Nat String
  pipe : Nat
deriving DecidableEq, Repr

/-- Modelled from the spec: `inode(path)` returns the inode assigned to the path,
allocating a fresh one the first time; it never returns zero. -/
def FS.Inode (fs : FS) (path : String) : FS × Nat :=
  match fs.inodes.get? path with
  | some i => (fs, i)
  | none =>
    ({ fs with seq := fs.seq + 1, inodes := fs.inodes.set path (fs.seq + 1),
               paths := fs.paths.set (fs.seq + 1) path }, fs.seq + 1)

/-- Modelled from the spec: `path(inode)` is the inverse of `inode`. The spec leaves
the result undefined for an inode that was never allocated; the model gives
the empty string there (the zero value of a Go map lookup). -/
def FS.Path (fs : FS) (inode : Nat) : String := fs.paths.getD inode ""

/-- Modelled from the spec: `rename(old, new)`. If old has an inode, the mapping
for new becomes that inode and the mapping of the old name is removed (a
prior binding of new is lost); if old has no inode the call does nothing. -/
def FS.Rename (fs : FS) (oldpath newpath : String) : FS :=
  match fs.inodes.get? oldpath with
  | some i =>
    { fs with inodes := (fs.inodes.del oldpath).set newpath i,
              paths := fs.paths.set i newpath }
  | none => fs

/-- Modelled from the spec: `pipe()` allocates a fresh inode bound to a fresh
synthetic path `/dev/fptrace/pipe/<n>`. -/
def FS.Pipe (fs : FS) : FS × Nat :=
  let path := "/dev/fptrace/pipe/" ++ itoa (fs.pipe : Int)
  ({ seq := fs.seq + 1, inodes := fs.inodes.set path (fs.seq + 1),
     paths := fs.paths.set (fs.seq + 1) path, pipe := fs.pipe + 1 }, fs.seq + 1)

/-- Modelled from the spec: the process-identity registry `Proc` of section 4.2,
a source of monotonic identifiers. -/
structure Proc where
  lastID : Int
deriving DecidableEq, Repr

/-- Modelled from the spec: `next_id()` hands out the next identifier. -/
def Proc.NextID (p : Proc) : Proc × Int := ({ lastID := p.lastID + 1 }, p.lastID + 1)

/-- The pair of registries `SysState` handed to the interpreter (`sys.FS`,
`sys.Proc`). -/
structure SysState where
  FS : FS
  Proc : Proc
deriving DecidableEq, Repr

/-! ## Commands, I/O sets and process states -/

/-- Modelled from the spec: the command `Cmd` of section 3. -/
structure Cmd where
  ID : Int
  Exec : Int
  Path : String
  Args : List String
  Dir : String
  Env : List String
  Exit : Int
deriving DecidableEq, Repr

/-- The zero value `Cmd{}`. -/
def Cmd.zero : Cmd :=
  { ID := 0, Exec := 0, Path := "", Args := [], Dir := "", Env := [], Exit := 0 }

/-- The reference-counted pair of inode sets `IOs`: `Cnt` and `Map[R]`, `Map[W]`
(the fields are named in `main.go`; the type is declared outside `src/`). -/
structure IOs where
  Cnt : Int
  MapR : IntSet
  MapW : IntSet
deriving DecidableEq, Repr

/-- The element `io.Map[k]` for k in 0, 1. -/
def IOs.Map (io : IOs) (k : Nat) : IntSet := if k = W then io.MapW else io.MapR

/-- The update `io.Map[k].Add(inode)` for k in 0, 1. -/
def IOs.MapAdd (io : IOs) (k : Nat) (inode : Nat) : IOs :=
  if k = W then { io with MapW := io.MapW.Add inode } else { io with MapR := io.MapR.Add inode }

/-- Modelled from the spec: `NewIOs`, a fresh empty IOSet with refcount 1. -/
def NewIOs : IOs := { Cnt := 1, MapR := [], MapW := [] }

/-- The per-process state `ProcState`, dereferenced: the fd table, the cloexec
map and the IOSet are given by value, `CurCmd` is none for a nil pointer
(the fields are named in `main.go`; the type is declared outside `src/`). -/
structure ProcState where
  SysEnter : Bool
  Syscall : Int
  CurDir : String
  CurCmd : Option Cmd
  NextCmd : Cmd
  FDs : GoMap Int Nat
  FDCX : GoMap Int Bool
  IOs : IOs
deriving DecidableEq, Repr

/-- Modelled from the spec: `abs(path)` normalises against `cur_dir`. -/
def ProcState.Abs (env : Env) (ps : ProcState) (p : String) : String := env.absAt ps.CurDir p

/-! ## The path resolver -/

/-- The function `absAt` of `main.go`. -/
def absAt (env : Env) (dirfd : Int) (path : String) (pid : Int) (pstate : ProcState)
    (sys : SysState) : String :=
  let path :=
    if dirfd = AT_FDCWD then pstate.Abs env path
    else if path = "" then sys.FS.Path (pstate.FDs.getD dirfd 0)
    else env.absAt (sys.FS.Path (pstate.FDs.getD dirfd 0)) path
  let path := if startsWith path "/dev/fd/" then "/proc/self/fd/" ++ dropChars path 8 else path
  if startsWith path "/proc/self/" then
    match sscanfProcSelfFd path with
    | some fd =>
      match pstate.FDs.get? fd with
      | some inode => sys.FS.Path inode
      | none => replaceFirst path "self" (itoa pid)
    | none => replaceFirst path "self" (itoa pid)
  else path

/-- The inodes that `absAt` hands to `FS.Path`, in call order (instrumentation of
`absAt`: same branches, the arguments of the calls instead of the result). -/
def absAtPathArgs (env : Env) (dirfd : Int) (path : String) (pstate : ProcState)
    (sys : SysState) : List Nat :=
  let first := if dirfd = AT_FDCWD then [] else [pstate.FDs.getD dirfd 0]
  let path :=
    if dirfd = AT_FDCWD then pstate.Abs env path
    else if path = "" then sys.FS.Path (pstate.FDs.getD dirfd 0)
    else env.absAt (sys.FS.Path (pstate.FDs.getD dirfd 0)) path
  let path := if startsWith path "/dev/fd/" then "/proc/self/fd/" ++ dropChars path 8 else path
  if startsWith path "/proc/self/" then
    match sscanfProcSelfFd path with
    | some fd =>
      match pstate.FDs.get? fd with
      | some inode => first ++ [inode]
      | none => first
    | none => first
  else first

/-! ## The syscall interpreter: exit -/

/-- The remapping of `fcntl` at the head of `sysexit`: the remembered syscall
number and the local copy of the registers after it. -/
def sysexitFcntl (pstate : ProcState) (regs : Regs) : ProcState × Regs :=
  if pstate.Syscall = SYS_FCNTL then
    if regs.Rsi = F_DUPFD then ({ pstate with Syscall := SYS_DUP }, regs)
    else if regs.Rsi = F_DUPFD_CLOEXEC then
      ({ pstate with Syscall := SYS_DUP3 }, { regs with Rdx := O_CLOEXEC })
    else if regs.Rsi = F_SETFD then
      ({ pstate with
          FDCX := pstate.FDCX.set (regInt32 regs.Rdi) (decide (regs.Rdx &&& FD_CLOEXEC ≠ 0)) },
        regs)
    else (pstate, regs)
  else (pstate, regs)

/-- The flags argument of `open` (Rsi) or `openat` (Rdx). -/
def openFlags (pstate : ProcState) (regs : Regs) : Nat :=
  if pstate.Syscall = SYS_OPENAT then regs.Rdx else regs.Rsi

/-- The path opened by `open` or `openat`: the `/proc/<pid>/fd/<retfd>` form for
`O_TMPFILE`, else the name read from the tracee and resolved by `absAt`
(against `AT_FDCWD` for `open`, against the dirfd in Rdi for `openat`). -/
def openPath (env : Env) (pid : Int) (pstate : ProcState) (sys : SysState) (regs : Regs)
    (ret32 : Int) : String :=
  if openFlags pstate regs &&& O_TMPFILE = O_TMPFILE then
    "/proc/" ++ itoa pid ++ "/fd/" ++ itoa ret32
  else if pstate.Syscall = SYS_OPENAT then
    absAt env (regInt32 regs.Rdi) (env.readString pid regs.Rsi) pid pstate sys
  else absAt env AT_FDCWD (env.readString pid regs.Rdi) pid pstate sys

/-- The index `write` of the set an open is recorded in: W when the flags have
`O_WRONLY` or `O_RDWR`, else R. -/
def openWrite (flags : Nat) : Nat := if flags &&& (O_WRONLY ||| O_RDWR) ≠ 0 then W else R

/-- The fd bookkeeping of an open: `FDs[ret32] = inode`, and `FDCX[ret32] = true`
with `O_CLOEXEC`. -/
def openInstall (pstate : ProcState) (flags : Nat) (ret32 : Int) (inode : Nat) : ProcState :=
  { pstate with
      FDs := pstate.FDs.set ret32 inode,
      FDCX := if flags &&& O_CLOEXEC ≠ 0 then pstate.FDCX.set ret32 true else pstate.FDCX }

/-- The I/O recording of an open, after the fd bookkeeping: nothing for an inode
already written, nothing for a directory (probed with `Lstat` unless the
path is under the pipe prefix), else the inode joins `Map[write]`. -/
def openRecordIO (env : Env) (pstate : ProcState) (path : String) (write inode : Nat) :
    Except Fault ProcState :=
  if pstate.IOs.MapW.Has inode then .ok pstate
  else if !startsWith path "/dev/fptrace/pipe/" then
    match env.lstat path with
    | none => .error Fault.fatal
    | some true => .ok pstate
    | some false => .ok { pstate with IOs := pstate.IOs.MapAdd write inode }
  else .ok { pstate with IOs := pstate.IOs.MapAdd write inode }

/-- Case `SYS_OPEN, SYS_OPENAT` of `sysexit`. -/
def sysexitOpen (env : Env) (pid : Int) (pstate : ProcState) (sys : SysState) (regs : Regs)
    (ret32 : Int) : Except Fault (ProcState × SysState) :=
  match openRecordIO env
      (openInstall pstate (openFlags pstate regs) ret32
        (sys.FS.Inode (openPath env pid pstate sys regs ret32)).2)
      (openPath env pid pstate sys regs ret32) (openWrite (openFlags pstate regs))
      (sys.FS.Inode (openPath env pid pstate sys regs ret32)).2 with
  | .error f => .error f
  | .ok p => .ok (p, { sys with FS := (sys.FS.Inode (openPath env pid pstate sys regs ret32)).1 })

/-- The common body of the cases `SYS_LINK` and `SYS_LINKAT` of `sysexit`, once the
two paths are resolved. -/
def sysexitLinkPaths (pstate : ProcState) (sys : SysState) (oldpath newpath : String) :
    ProcState × SysState :=
  let fo := sys.FS.Inode oldpath
  let oldnode := fo.2
  let io1 : IOs :=
    if !pstate.IOs.MapW.Has oldnode then pstate.IOs.MapAdd R oldnode else pstate.IOs
  let fn := fo.1.Inode newpath
  ({ pstate with IOs := io1.MapAdd W fn.2 }, { sys with FS := fn.1 })

/-- Case `SYS_DUP, SYS_DUP2, SYS_DUP3` of `sysexit`. -/
def sysexitDup (pstate : ProcState) (regs : Regs) (ret32 : Int) : ProcState :=
  { pstate with
      FDs := pstate.FDs.set ret32 (pstate.FDs.getD (regInt32 regs.Rdi) 0),
      FDCX :=
        if pstate.Syscall = SYS_DUP3 ∧ regs.Rdx &&& O_CLOEXEC ≠ 0 then pstate.FDCX.set ret32 true
        else pstate.FDCX }

/-- Case of the read family of `sysexit`. -/
def sysexitRead (pstate : ProcState) (regs : Regs) : ProcState :=
  let inode := pstate.FDs.getD (regInt32 regs.Rdi) 0
  if inode ≠ 0 ∧ !pstate.IOs.MapW.Has inode then
    { pstate with IOs := pstate.IOs.MapAdd R inode }
  else pstate

/-- Case of the write family of `sysexit`. -/
def sysexitWrite (pstate : ProcState) (regs : Regs) : ProcState :=
  let inode := pstate.FDs.getD (regInt32 regs.Rdi) 0
  if inode ≠ 0 then { pstate with IOs := pstate.IOs.MapAdd W inode } else pstate

/-- Case `SYS_CLOSE` of `sysexit`. -/
def sysexitClose (pstate : ProcState) (regs : Regs) : ProcState :=
  { pstate with FDs := pstate.FDs.set (regInt32 regs.Rdi) 0,
                FDCX := pstate.FDCX.del (regInt32 regs.Rdi) }

/-- Case `SYS_PIPE` of `sysexit`. -/
def sysexitPipe (env : Env) (pid : Int) (pstate : ProcState) (sys : SysState) (regs : Regs) :
    Except Fault (ProcState × SysState) :=
  match env.peekData pid regs.Rdi with
  | none => .error Fault.fatal
  | some buf =>
    let readfd := regInt32 (leUint32 buf 0)
    let writefd := regInt32 (leUint32 buf 4)
    let inode := sys.FS.Pipe.2
    .ok ({ pstate with
            FDs := (pstate.FDs.set readfd inode).set writefd inode,
            FDCX :=
              if regs.Rsi &&& O_CLOEXEC ≠ 0 then (pstate.FDCX.set readfd true).set writefd true
              else pstate.FDCX },
         { sys with FS := sys.FS.Pipe.1 })

/-- The cases of the `switch pstate.Syscall` of `sysexit`. -/
inductive ExitCase where
  | openCase | chdir | fchdir | link | linkat | rename | renameat | dup | read | write
  | close | pipe | other
deriving DecidableEq, Repr

/-- The case of the `switch pstate.Syscall` of `sysexit` that a syscall number
selects (`other` when no case lists it). -/
def exitCase (n : Int) : ExitCase :=
  if n = SYS_OPEN ∨ n = SYS_OPENAT then ExitCase.openCase
  else if n = SYS_CHDIR then ExitCase.chdir
  else if n = SYS_FCHDIR then ExitCase.fchdir
  else if n = SYS_LINK then ExitCase.link
  else if n = SYS_LINKAT then ExitCase.linkat
  else if n = SYS_RENAME then ExitCase.rename
  else if n = SYS_RENAMEAT ∨ n = SYS_RENAMEAT2 then ExitCase.renameat
  else if n = SYS_DUP ∨ n = SYS_DUP2 ∨ n = SYS_DUP3 then ExitCase.dup
  else if n = SYS_READ ∨ n = SYS_PREAD64 ∨ n = SYS_READV ∨ n = SYS_PREADV ∨ n = SYS_PREADV2 then
    ExitCase.read
  else if n = SYS_WRITE ∨ n = SYS_PWRITE64 ∨ n = SYS_WRITEV ∨ n = SYS_PWRITEV ∨
      n = SYS_PWRITEV2 then
    ExitCase.write
  else if n = SYS_CLOSE then ExitCase.close
  else if n = SYS_PIPE then ExitCase.pipe
  else ExitCase.other

/-- The `switch pstate.Syscall` of `sysexit`. -/
def sysexitSwitch (env : Env) (pid : Int) (pstate : ProcState) (sys : SysState) (regs : Regs)
    (ret32 : Int) : Except Fault (ProcState × SysState) :=
  match exitCase pstate.Syscall with
  | ExitCase.openCase => sysexitOpen env pid pstate sys regs ret32
  | ExitCase.chdir =>
    .ok ({ pstate with CurDir := pstate.Abs env (env.readString pid regs.Rdi) }, sys)
  | ExitCase.fchdir =>
    .ok ({ pstate with CurDir := sys.FS.Path (pstate.FDs.getD (regInt32 regs.Rdi) 0) }, sys)
  | ExitCase.link =>
    .ok (sysexitLinkPaths pstate sys (pstate.Abs env (env.readString pid regs.Rdi))
          (pstate.Abs env (env.readString pid regs.Rsi)))
  | ExitCase.linkat =>
    .ok (sysexitLinkPaths pstate sys
          (absAt env (regInt32 regs.Rdi) (env.readString pid regs.Rsi) pid pstate sys)
          (absAt env (regInt32 regs.Rdx) (env.readString pid regs.R10) pid pstate sys))
  | ExitCase.rename =>
    .ok (pstate, SysState.mk
          (sys.FS.Rename (pstate.Abs env (env.readString pid regs.Rdi))
            (pstate.Abs env (env.readString pid regs.Rsi)))
          sys.Proc)
  | ExitCase.renameat =>
    .ok (pstate, SysState.mk
          (sys.FS.Rename
            (absAt env (regInt32 regs.Rdi) (env.readString pid regs.Rsi) pid pstate sys)
            (absAt env (regInt32 regs.Rdx) (env.readString pid regs.R10) pid pstate sys))
          sys.Proc)
  | ExitCase.dup => .ok (sysexitDup pstate regs ret32, sys)
  | ExitCase.read => .ok (sysexitRead pstate regs, sys)
  | ExitCase.write => .ok (sysexitWrite pstate regs, sys)
  | ExitCase.close => .ok (sysexitClose pstate regs, sys)
  | ExitCase.pipe => sysexitPipe env pid pstate sys regs
  | ExitCase.other => .ok (pstate, sys)

/-- The function `sysexit` of `main.go`: the returned flag (false when the tracee
has vanished), the process state and the registries after the call. -/
def sysexit (env : Env) (pid : Int) (pstate : ProcState) (sys : SysState) :
    Except Fault (Bool × ProcState × SysState) :=
  match env.getRegs pid with
  | none => .ok (false, pstate, sys)
  | some regs =>
    if toInt64 regs.Rax < 0 then .ok (true, pstate, sys)
    else
      match sysexitSwitch env pid (sysexitFcntl pstate regs).1 sys (sysexitFcntl pstate regs).2
          (toInt32 (toInt64 regs.Rax)) with
      | .error f => .error f
      | .ok (p, s) => .ok (true, p, s)

/-! ## The syscall interpreter: entry -/

/-- The function `sysenter` of `main.go`: the returned flag, the process state
after the call, and the registers written back with `PtraceSetRegs`, if any. -/
def sysenter (env : Env) (pid : Int) (pstate : ProcState) (sys : SysState) :
    Except Fault (Bool × ProcState × Option Regs) :=
  match env.getRegs pid with
  | none => .ok (false, pstate, none)
  | some regs =>
    let p0 : ProcState := { pstate with Syscall := toInt64 regs.Orig_rax }
    if p0.Syscall = SYS_EXECVE then
      let cmd : Cmd :=
        { Cmd.zero with Path := p0.Abs env (env.readString pid regs.Rdi),
                        Args := env.readStrings pid regs.Rsi, Dir := p0.CurDir }
      let cmd := if env.flEnv then { cmd with Env := env.readStrings pid regs.Rdx } else cmd
      .ok (true, { p0 with NextCmd := cmd }, none)
    else if p0.Syscall = SYS_EXECVEAT then
      let cmd : Cmd :=
        { Cmd.zero with
            Path := absAt env (regInt32 regs.Rdi) (env.readString pid regs.Rsi) pid p0 sys,
            Args := env.readStrings pid regs.Rdx, Dir := p0.CurDir }
      let cmd := if env.flEnv then { cmd with Env := env.readStrings pid regs.R10 } else cmd
      .ok (true, { p0 with NextCmd := cmd }, none)
    else if p0.Syscall = SYS_UNLINK ∨ p0.Syscall = SYS_RMDIR then
      if env.flUndelete then
        let regs1 : Regs := { regs with Orig_rax := SYS_ACCESS.toNat, Rsi := F_OK }
        if env.setRegs pid regs1 then .ok (true, p0, some regs1) else .error Fault.fatal
      else .ok (true, p0, none)
    else if p0.Syscall = SYS_UNLINKAT then
      if env.flUndelete then
        let regs1 : Regs :=
          { regs with Orig_rax := SYS_FACCESSAT.toNat, R10 := regs.Rdx, Rdx := F_OK }
        if env.setRegs pid regs1 then .ok (true, p0, some regs1) else .error Fault.fatal
      else .ok (true, p0, none)
    else .ok (true, p0, none)

/-- The inodes that `sysexit` hands to `FS.Path`, in call order (instrumentation of
`sysexit`: the calls are the one of case `SYS_FCHDIR` and those made by `absAt`
for `open`, `openat`, `linkat`, `renameat` and `renameat2`). -/
def sysexitPathArgs (env : Env) (pid : Int) (pstate : ProcState) (sys : SysState) : List Nat :=
  match env.getRegs pid with
  | none => []
  | some regs0 =>
    if toInt64 regs0.Rax < 0 then []
    else
      let p := (sysexitFcntl pstate regs0).1
      let regs := (sysexitFcntl pstate regs0).2
      match exitCase p.Syscall with
      | ExitCase.openCase =>
        if openFlags p regs &&& O_TMPFILE = O_TMPFILE then []
        else if p.Syscall = SYS_OPENAT then
          absAtPathArgs env (regInt32 regs.Rdi) (env.readString pid regs.Rsi) p sys
        else absAtPathArgs env AT_FDCWD (env.readString pid regs.Rdi) p sys
      | ExitCase.fchdir => [p.FDs.getD (regInt32 regs.Rdi) 0]
      | ExitCase.linkat =>
        absAtPathArgs env (regInt32 regs.Rdi) (env.readString pid regs.Rsi) p sys ++
          absAtPathArgs env (regInt32 regs.Rdx) (env.readString pid regs.R10) p sys
      | ExitCase.renameat =>
        absAtPathArgs env (regInt32 regs.Rdi) (env.readString pid regs.Rsi) p sys ++
          absAtPathArgs env (regInt32 regs.Rdx) (env.readString pid regs.R10) p sys
      | _ => []

/-- The inodes that `sysenter` hands to `FS.Path` (instrumentation of `sysenter`:
the calls are those made by `absAt` for `execveat`). -/
def sysenterPathArgs (env : Env) (pid : Int) (pstate : ProcState) (sys : SysState) : List Nat :=
  match env.getRegs pid with
  | none => []
  | some regs =>
    if toInt64 regs.Orig_rax = SYS_EXECVEAT then
      absAtPathArgs env (regInt32 regs.Rdi) (env.readString pid regs.Rsi)
        { pstate with Syscall := toInt64 regs.Orig_rax } sys
    else []

/-! ## Runs of the interpreter on one process -/

/-- One stop of a traced process as the interpreter sees it: a syscall entry or a
syscall exit, with what the platform answers during the stop. -/
inductive Stop where
  | enter (env : Env)
  | exit (env : Env)

/-- The interpreter on one stop: `sysenter` on an entry, `sysexit` on an exit. -/
def interpStep (pid : Int) (st : ProcState × SysState) : Stop →
    Except Fault (ProcState × SysState)
  | Stop.enter env =>
    match sysenter env pid st.1 st.2 with
    | .error f => .error f
    | .ok r => .ok (r.2.1, st.2)
  | Stop.exit env =>
    match sysexit env pid st.1 st.2 with
    | .error f => .error f
    | .ok r => .ok r.2

/-- The interpreter on a sequence of stops of one process. -/
def interpRun (pid : Int) : List Stop → ProcState × SysState → Except Fault (ProcState × SysState)
  | [], st => .ok st
  | stop :: rest, st =>
    match interpStep pid st stop with
    | .error f => .error f
    | .ok st1 => interpRun pid rest st1

/-- Shadowing of reads by writes between two IOSets: every inode written in the
first is written in the second, and is read in the second only if it was
read in the first. -/
def IOs.Shadowed (a b : IOs) : Prop :=
  ∀ i, i ∈ a.MapW → i ∈ b.MapW ∧ (i ∈ b.MapR → i ∈ a.MapR)

/-! ## Initial state and sample platforms -/

/-- Modelled from the spec: `NewProcState` (not part of `src/`), a state with empty
tables, no command and a fresh IOSet. -/
def NewProcState : ProcState :=
  { SysEnter := false, Syscall := 0, CurDir := "", CurCmd := none, NextCmd := Cmd.zero,
    FDs := [], FDCX := [], IOs := NewIOs }

/-- Modelled from the spec: `NewSysState` (not part of `src/`), empty registries. -/
def NewSysState : SysState :=
  { FS := { seq := 0, inodes := [], paths := [], pipe := 0 }, Proc := { lastID := 0 } }

/-- The registries after the three `sys.FS.Inode` calls at the head of `mainLoop`. -/
def initSys (sys : SysState) : SysState :=
  { sys with FS := (((sys.FS.Inode "/dev/stdin").1.Inode "/dev/stdout").1.Inode "/dev/stderr").1 }

/-- The state of the main process built at the head of `mainLoop`: the working
directory of the supervisor and the fds 0, 1, 2. -/
def initProcState (sys : SysState) (cwd : String) : ProcState :=
  { NewProcState with
      CurDir := cwd,
      FDs := (((NewProcState.FDs.set 0 (sys.FS.Inode "/dev/stdin").2).set 1
                ((sys.FS.Inode "/dev/stdin").1.Inode "/dev/stdout").2).set 2
                (((sys.FS.Inode "/dev/stdin").1.Inode "/dev/stdout").1.Inode "/dev/stderr").2) }

/-- Path components of a character list, split at the slashes. -/
def splitSlash : List Char → List (List Char)
  | [] => [[]]
  | c :: cs =>
    if c = '/' then [] :: splitSlash cs
    else
      match splitSlash cs with
      | [] => [[c]]
      | x :: xs => (c :: x) :: xs

/-- Lexical resolution of the components of a path: empty and `.` components are
dropped, `..` removes the component before it. The stack is kept reversed. -/
def cleanStack (stack : List (List Char)) : List (List Char) → List (List Char)
  | [] => stack
  | comp :: rest =>
    if comp = [] ∨ comp = ['.'] then cleanStack stack rest
    else if comp = ['.', '.'] then cleanStack stack.tail rest
    else cleanStack (comp :: stack) rest

/-- Modelled from the spec: `abs_at(base, path)` normalises path against base
(section 4.3), resolving `.` and `..` lexically (section 3). Used as the
`absAt` field of the sample platforms. -/
def lexAbsAt (dir p : String) : String :=
  let full := if startsWith p "/" then p.data else dir.data ++ '/' :: p.data
  let comps := (cleanStack [] (splitSlash full)).reverse
  if comps = [] then "/" else String.mk (comps.foldr (fun c acc => '/' :: c ++ acc) [])

/-- A register snapshot with every register zero. -/
def zeroRegs : Regs :=
  { R15 := 0, R14 := 0, R13 := 0, R12 := 0, Rbp := 0, Rbx := 0, R11 := 0, R10 := 0, R9 := 0,
    R8 := 0, Rax := 0, Rcx := 0, Rdx := 0, Rsi := 0, Rdi := 0, Orig_rax := 0, Rip := 0, Cs := 0,
    Eflags := 0, Rsp := 0, Ss := 0, Fs_base := 0, Gs_base := 0, Ds := 0, Es := 0, Fs := 0,
    Gs := 0 }

/-- A sample platform: the register fetch gives regs, every string read from the
tracee is the one stored at the address in mem, peeked bytes are buf, no path
is a directory, no flag is set. -/
def sampleEnv (regs : Option Regs) (mem : GoMap Nat String) (buf : List Nat) : Env :=
  { getRegs := fun _ => regs,
    setRegs := fun _ _ => true,
    readString := fun _ addr => mem.getD addr "",
    readStrings := fun _ _ => [],
    peekData := fun _ _ => some buf,
    lstat := fun _ => some false,
    eventMsg := fun _ => none,
    absAt := lexAbsAt,
    flEnv := false,
    flUndelete := false,
    oldSeccomp := false }

/-- Registers at the exit of a syscall: return value ret, arguments a1, a2, a3. -/
def exitRegs (ret a1 a2 a3 : Nat) : Regs :=
  { zeroRegs with Rax := ret, Rdi := a1, Rsi := a2, Rdx := a3 }

/-- Registers at the entry of syscall number nr with arguments a1, a2, a3. -/
def entryRegs (nr a1 a2 a3 : Nat) : Regs :=
  { zeroRegs with Orig_rax := nr, Rax := 2 ^ 64 - 38, Rdi := a1, Rsi := a2, Rdx := a3 }

/-! ## The record filter of `main` -/

/-- Modelled from the spec: the execution record `Record` of section 6
(`cmd`, `inputs`, `outputs`, optional `fds`). -/
structure Record where
  Cmd : Cmd
  Inputs : List String
  Outputs : List String
  FDs : Option (GoMap Int String)
deriving DecidableEq, Repr

/-- Insertion of a string into a sorted list (for `sort.Strings`). -/
def insertSorted (s : String) : List String → List String
  | [] => [s]
  | t :: ts => if s < t then s :: t :: ts else t :: insertSorted s ts

/-- The sorted paths of a set of inodes. -/
def sortedPaths (fs : FS) (inodes : IntSet) : List String :=
  (inodes.map fs.Path).foldr insertSorted []

/-- Modelled from the spec: `record(sys)` produces the command, the sorted paths of
`io.R` as inputs and the sorted paths of `io.W` as outputs, resolved through
FS at record time. It dereferences `cur_cmd`. The `fds` component is the
snapshot taken at exec time, which `onExit` fills in. -/
def ProcState.Record (p : ProcState) (sys : SysState) : Except Fault Record :=
  match p.CurCmd with
  | none => .error Fault.nilDeref
  | some c =>
    .ok { Cmd := c, Inputs := sortedPaths sys.FS p.IOs.MapR,
          Outputs := sortedPaths sys.FS p.IOs.MapW, FDs := none }

/-- The variables of `main` that the callbacks capture and update. -/
structure MainState where
  cmdFDs : GoMap Int (GoMap Int String)
  records : List Record
deriving DecidableEq, Repr

/-- The body of the closure `onExit` of `main` after `r := p.Record(sys)`: r is
the record and curID is `p.CurCmd.ID`. The flag `needOutput` is `-do` and
`execs` is the set given with `-dn`. -/
def onExitRecord (needOutput : Bool) (execs : GoMap String Bool) (m : MainState) (r : Record)
    (curID : Int) : MainState :=
  let n := r.Outputs.length
  let needExec := decide (execs.length > 0)
  if (needOutput || needExec) &&
      (!needOutput || n == 0 || (n == 1 && r.Outputs.getD 0 "" == "/dev/tty")) &&
      (!needExec ||
        (!execs.getD r.Cmd.Path false && !execs.getD (filepathBase r.Cmd.Path) false)) then
    m
  else
    { cmdFDs := m.cmdFDs.del curID,
      records := m.records ++ [{ r with FDs := m.cmdFDs.get? curID }] }

/-- The closure `onExit` of `main`. -/
def onExit (needOutput : Bool) (execs : GoMap String Bool) (m : MainState) (p : ProcState)
    (sys : SysState) : Except Fault MainState :=
  match p.Record sys, p.CurCmd with
  | .ok r, some c => .ok (onExitRecord needOutput execs m r c.ID)
  | _, _ => .error Fault.nilDeref

/-- Whether `onExit` appends the record (with its fd snapshot) to `records`. -/
def emits (needOutput : Bool) (execs : GoMap String Bool) (m : MainState) (r : Record)
    (curID : Int) : Bool :=
  decide ((onExitRecord needOutput execs m r curID).records =
    m.records ++ [{ r with FDs := m.cmdFDs.get? curID }])

/-! ## Sample inputs -/

/-- A record without outputs, of the command `/bin/cc`. -/
def recNoOutput : Record :=
  { Cmd := { Cmd.zero with ID := 1, Path := "/bin/cc" }, Inputs := ["/tmp/a.c"], Outputs := [],
    FDs := none }

/-- A record of the command `/bin/cc` with the output `/tmp/a.o`. -/
def recWithOutput : Record := { recNoOutput with Outputs := ["/tmp/a.o"] }

/-- The variables of `main` before any record is emitted. -/
def mainState0 : MainState := { cmdFDs := [], records := [] }

/-- Stops of a process that opens `/tmp/b` read-only (fd 3) and then opens the same
file write-only (fd 4). -/
def readThenWrite : List Stop :=
  [Stop.enter (sampleEnv (some (entryRegs 2 100 0 0)) [(100, "/tmp/b")] []),
   Stop.exit (sampleEnv (some (exitRegs 3 100 0 0)) [(100, "/tmp/b")] []),
   Stop.enter (sampleEnv (some (entryRegs 2 100 1 0)) [(100, "/tmp/b")] []),
   Stop.exit (sampleEnv (some (exitRegs 4 100 1 0)) [(100, "/tmp/b")] [])]

/-- Stops of a process that opens `/tmp/b` write-only (fd 3). -/
def writeOpen : List Stop :=
  [Stop.enter (sampleEnv (some (entryRegs 2 100 1 0)) [(100, "/tmp/b")] []),
   Stop.exit (sampleEnv (some (exitRegs 3 100 1 0)) [(100, "/tmp/b")] [])]

/-- Stops of a process that opens `/tmp/b` read-only (fd 4). -/
def readOpen : List Stop :=
  [Stop.enter (sampleEnv (some (entryRegs 2 100 0 0)) [(100, "/tmp/b")] []),
   Stop.exit (sampleEnv (some (exitRegs 4 100 0 0)) [(100, "/tmp/b")] [])]

/-- The main process and the registries at the head of `mainLoop`, in the working
directory `/w`. -/
def state0 : ProcState × SysState := (initProcState NewSysState "/w", initSys NewSysState)

/-- The state of the main process after it opened `/tmp/b` write-only as fd 3:
inode 4 is in W. -/
def stateWritten : ProcState × SysState :=
  ({ state0.1 with Syscall := 2, FDs := state0.1.FDs.set 3 4,
                   IOs := { Cnt := 1, MapR := [], MapW := [4] } },
   { state0.2 with FS := (state0.2.FS.Inode "/tmp/b").1 })

/-- The state of the main process after it opened `/tmp/b` write-only as fd 3, at the
exit of a `read` on fd 3. -/
def stateReading : ProcState := { stateWritten.1 with Syscall := SYS_READ }

/-- Platform answers at the successful exit of a syscall with first argument 3. -/
def envExitFd3 : Env := sampleEnv (some (exitRegs 5 3 0 0)) [] []

/-- Platform answers at the exit of a failed `fcntl(3, F_DUPFD, 0)` (return -9). -/
def envFailedFcntl : Env := sampleEnv (some (exitRegs (2 ^ 64 - 9) 3 F_DUPFD 0)) [] []

/-- Platform answers at the successful exit of a pipe syscall whose argument points
to the two descriptors 3 and 4 in tracee memory. -/
def envPipeExit : Env := sampleEnv (some (exitRegs 0 200 0 0)) [] [3, 0, 0, 0, 4, 0, 0, 0]

/-- Platform answers at the successful exit of `fchdir(7)`. -/
def envFchdir7 : Env := sampleEnv (some (exitRegs 0 7 0 0)) [] []

/-- Stops of a process that closes its fd 0. -/
def closeFd0 : List Stop :=
  [Stop.enter (sampleEnv (some (entryRegs 3 0 0 0)) [] []),
   Stop.exit (sampleEnv (some (exitRegs 0 0 0 0)) [] [])]

/-- Platform answers at the entry of `execveat(AT_FDCWD, "/proc/self/fd/0", ..)`. -/
def envExecveatFd0 : Env :=
  sampleEnv (some (entryRegs 322 (2 ^ 64 - 100) 100 0)) [(100, "/proc/self/fd/0")] []

/-- A platform without register fetch, for calls of `absAt` alone. -/
def envResolve : Env := sampleEnv none [] []

/-! ## The heap of the supervisor -/

/-- A `ProcState` object as the supervisor holds it behind a `*ProcState`: the scalar
fields by value; the current command, the fd table, the cloexec table and the
IOSet by reference (index into the heap), so that clones can share them. A
nil `CurCmd` is none. -/
structure ProcObj where
  SysEnter : Bool
  Syscall : Int
  CurDir : String
  CurCmd : Option Nat
  NextCmd : Cmd
  FDs : Nat
  FDCX : Nat
  IOs : Nat
deriving DecidableEq, Repr

/-- The zero value of `ProcObj` (read at an index that was never allocated, which
no reference of the model ever is). -/
def ProcObj.zero : ProcObj :=
  { SysEnter := false, Syscall := 0, CurDir := "", CurCmd := none, NextCmd := Cmd.zero,
    FDs := 0, FDCX := 0, IOs := 0 }

/-- The objects allocated by the supervisor; a reference is an index into the
list of its kind, allocation appends. -/
structure Heap where
  procs : List ProcObj
  fdTabs : List (GoMap Int Nat)
  cxTabs : List (GoMap Int Bool)
  ios : List IOs
  cmds : List Cmd
deriving DecidableEq, Repr

/-- The object behind a `*ProcState`. -/
def Heap.proc (h : Heap) (ref : Nat) : ProcObj := h.procs.getD ref ProcObj.zero

/-- The IOSet `pstate.IOs` of the object behind a `*ProcState`. -/
def Heap.procIOs (h : Heap) (ref : Nat) : IOs := h.ios.getD (h.proc ref).IOs NewIOs

/-- The dereferenced view of the object behind a `*ProcState`. -/
def Heap.load (h : Heap) (ref : Nat) : ProcState :=
  { SysEnter := (h.proc ref).SysEnter,
    Syscall := (h.proc ref).Syscall,
    CurDir := (h.proc ref).CurDir,
    CurCmd := (h.proc ref).CurCmd.map (fun c => h.cmds.getD c Cmd.zero),
    NextCmd := (h.proc ref).NextCmd,
    FDs := h.fdTabs.getD (h.proc ref).FDs [],
    FDCX := h.cxTabs.getD (h.proc ref).FDCX [],
    IOs := h.procIOs ref }

/-- Writes a view back to the object behind a `*ProcState`: the scalar fields into
the object, the tables and the IOSet into the cells the object refers to.
The current command is left alone (the interpreter never assigns it). -/
def Heap.store (h : Heap) (ref : Nat) (v : ProcState) : Heap :=
  { procs := h.procs.set ref
      { h.proc ref with SysEnter := v.SysEnter, Syscall := v.Syscall, CurDir := v.CurDir,
                        NextCmd := v.NextCmd },
    fdTabs := h.fdTabs.set (h.proc ref).FDs v.FDs,
    cxTabs := h.cxTabs.set (h.proc ref).FDCX v.FDCX,
    ios := h.ios.set (h.proc ref).IOs v.IOs,
    cmds := h.cmds }

/-- Modelled from the spec: `clone(share_fds)` of section 4.3 (the method is not
part of `src/`). The new state has `sys_enter` true and copies `cur_dir` and
the `cur_cmd` pointer. With `share_fds` it shares the fd table, the cloexec
table and the IOSet, whose refcount is incremented; otherwise the tables are
copied and a fresh IOSet with refcount 1 is installed. The result is the new
heap and the reference of the new state. -/
def Heap.Clone (h : Heap) (ref : Nat) (shareFds : Bool) : Heap × Nat :=
  if shareFds then
    ({ h with
        procs := h.procs ++
          [{ SysEnter := true, Syscall := 0, CurDir := (h.proc ref).CurDir,
             CurCmd := (h.proc ref).CurCmd, NextCmd := Cmd.zero, FDs := (h.proc ref).FDs,
             FDCX := (h.proc ref).FDCX, IOs := (h.proc ref).IOs }],
        ios := h.ios.set (h.proc ref).IOs
          { h.procIOs ref with Cnt := (h.procIOs ref).Cnt + 1 } },
     h.procs.length)
  else
    ({ procs := h.procs ++
          [{ SysEnter := true, Syscall := 0, CurDir := (h.proc ref).CurDir,
             CurCmd := (h.proc ref).CurCmd, NextCmd := Cmd.zero, FDs := h.fdTabs.length,
             FDCX := h.cxTabs.length, IOs := h.ios.length }],
       fdTabs := h.fdTabs ++ [h.fdTabs.getD (h.proc ref).FDs []],
       cxTabs := h.cxTabs ++ [h.cxTabs.getD (h.proc ref).FDCX []],
       ios := h.ios ++ [NewIOs],
       cmds := h.cmds },
     h.procs.length)

/-- Modelled from the spec: `reset_ios()` of section 4.3 (the method is not part of
`src/`): the refcount of the current IOSet is decremented and a fresh IOSet
is installed in the state. The call in `terminate` passes no information on
whether the process remains alive, so the fresh IOSet is always installed. -/
def Heap.ResetIOs (h : Heap) (ref : Nat) : Heap :=
  { h with
      procs := h.procs.set ref { h.proc ref with IOs := h.ios.length },
      ios := h.ios.set (h.proc ref).IOs { h.procIOs ref with Cnt := (h.procIOs ref).Cnt - 1 } ++
        [NewIOs] }

/-- Modelled from the spec: `exec(p)` of section 4.2 (`sys.Proc.Exec`, not part of
`src/`): `next_cmd` is installed as `cur_cmd` with a fresh id and `next_cmd`
is cleared. The new command is a new object; the old one keeps its
contents. -/
def execProc (sys : SysState) (h : Heap) (ref : Nat) : SysState × Heap :=
  ({ sys with Proc := sys.Proc.NextID.1 },
   { h with
       procs := h.procs.set ref
         { h.proc ref with CurCmd := some h.cmds.length, NextCmd := Cmd.zero },
       cmds := h.cmds ++ [{ (h.proc ref).NextCmd with ID := sys.Proc.NextID.2 }] })

/-! ## The supervisor loop -/

/-- The two callbacks handed to `mainLoop`, as functions on the state u that they
capture: they receive the dereferenced process state and the registries. -/
structure Callbacks (σ : Type) where
  onExec : σ → ProcState → SysState → Except Fault σ
  onExit : σ → ProcState → SysState → Except Fault σ

/-- The closure `onExec` of `main` without a scripts directory: the paths of the
fds with a non-zero inode are stored under the id of the current command. -/
def onExec (m : MainState) (p : ProcState) (sys : SysState) : Except Fault MainState :=
  match p.CurCmd with
  | none => .error Fault.nilDeref
  | some c =>
    .ok { m with
            cmdFDs := m.cmdFDs.set c.ID
              (p.FDs.filterMap
                (fun e => if e.2 ≠ 0 then some (e.1, sys.FS.Path e.2) else none)) }

/-- The callbacks that `main` hands to `mainLoop`. -/
def mainCallbacks (needOutput : Bool) (execs : GoMap String Bool) : Callbacks MainState :=
  { onExec := onExec, onExit := onExit needOutput execs }

/-- A line that `mainLoop` or `terminate` prints to the trace log: the creation
line `pid fork|vfork|vforke|clone newpid` (with the trap cause for the tag),
and the lines `pid _suspend`, `pid _resume`, `oldpid _exec pid`, `pid _vanish`
and `pid record cmd` (the command is left out). -/
inductive LogLine where
  | created (pid : Int) (trapCause : Int) (newpid : Int)
  | suspend (pid : Int)
  | resume (pid : Int)
  | exec (oldpid : Int) (pid : Int)
  | vanish (pid : Int)
  | record (pid : Int)
deriving DecidableEq, Repr

/-- The local variables of `mainLoop` together with the registries, the heap, the
state captured by the callbacks, the calls `resume(pid, 0, flag)` and
`PtraceSetRegs(pid, regs)` made so far, and the lines of the trace log
printed so far by `mainLoop` and `terminate` (latest last). -/
structure LoopState (σ : Type) where
  sys : SysState
  heap : Heap
  pstates : GoMap Int Nat
  suspended : GoMap Int Int
  terminated : GoMap Int Bool
  running : GoMap Int Bool
  pidcmds : GoMap Int (Option Nat)
  mainPID : Int
  mainRC : Int
  user : σ
  resumed : List (Int × Bool)
  regsSet : List (Int × Regs)
  log : List LogLine
deriving DecidableEq, Repr

/-- One result of `waitForSyscall()`, with what the platform answers while the
event is handled. -/
structure Event where
  pid : Int
  trapCause : Int
  ok : Bool
  env : Env

/-- The function `terminate` of `main.go`; pstate is none for a nil pointer. -/
def terminate {σ : Type} (cbs : Callbacks σ) (st : LoopState σ) (pid : Int)
    (pstate : Option Nat) : Except Fault (LoopState σ) :=
  match pstate with
  | none => .error Fault.nilDeref
  | some ref =>
    if (st.heap.procIOs ref).Cnt = 1 ∧ (st.heap.proc ref).CurCmd ≠ none then
      match cbs.onExit st.user (st.heap.load ref) st.sys with
      | .error f => .error f
      | .ok u =>
        .ok { st with user := u, log := st.log ++ [LogLine.record pid],
                      heap := st.heap.ResetIOs ref }
    else .ok { st with heap := st.heap.ResetIOs ref }

/-- The closure `term` of `mainLoop`. -/
def term {σ : Type} (cbs : Callbacks σ) (st : LoopState σ) (pid : Int) :
    Except Fault (LoopState σ) :=
  if st.terminated.getD pid false then .ok st
  else
    match terminate cbs st pid (st.pstates.get? pid) with
    | .error f => .error f
    | .ok st1 =>
      .ok { st1 with terminated := st1.terminated.set pid true, running := st1.running.del pid }

/-- The call `resume(pid, 0, pstate.SysEnter)` that ends the handling of a stop. -/
def resumeTracee {σ : Type} (st : LoopState σ) (pid : Int) (pstate : Nat) : LoopState σ :=
  { st with resumed := st.resumed ++ [(pid, (st.heap.proc pstate).SysEnter)] }

/-- The assignment `cmd.Exec = sys.Proc.NextID()` for a non-nil `pidcmds[pid]`, at
the head of the exec case. -/
def bumpExec {σ : Type} (st : LoopState σ) (pid : Int) : LoopState σ :=
  match st.pidcmds.getD pid none with
  | none => st
  | some c =>
    { st with
        sys := { st.sys with Proc := st.sys.Proc.NextID.1 },
        heap := { st.heap with
          cmds := st.heap.cmds.set c
            { st.heap.cmds.getD c Cmd.zero with Exec := st.sys.Proc.NextID.2 } } }

/-- The end of the exec case of `mainLoop`, from `sys.Proc.Exec(pstate)` on, for the
state pstate found under the old pid (none: nil, dereferenced by the call). -/
def execInstall {σ : Type} (cbs : Callbacks σ) (st : LoopState σ) (oldpid pid : Int)
    (pstate : Option Nat) : Except Fault (LoopState σ) :=
  match pstate with
  | none => .error Fault.nilDeref
  | some ref =>
    match cbs.onExec st.user ((execProc st.sys st.heap ref).2.load ref)
        (execProc st.sys st.heap ref).1 with
    | .error f => .error f
    | .ok u =>
      .ok (resumeTracee
        { st with
            sys := (execProc st.sys st.heap ref).1,
            heap :=
              { (execProc st.sys st.heap ref).2 with
                  procs := (execProc st.sys st.heap ref).2.procs.set ref
                    { (execProc st.sys st.heap ref).2.proc ref with SysEnter := true } },
            pidcmds := st.pidcmds.set pid ((execProc st.sys st.heap ref).2.proc ref).CurCmd,
            user := u,
            pstates := st.pstates.set pid ref,
            running := st.running.set pid true,
            log := st.log ++ [LogLine.exec oldpid pid] }
        pid ref)

/-- Case `PTRACE_EVENT_EXEC` of `mainLoop`. -/
def execEvent {σ : Type} (cbs : Callbacks σ) (env : Env) (st : LoopState σ) (pid : Int)
    (pstate : Nat) : Except Fault (LoopState σ) :=
  match term cbs (bumpExec st pid) pid with
  | .error f => .error f
  | .ok st1 =>
    match env.eventMsg pid with
    | none => .error Fault.fatal
    | some uoldpid =>
      if toInt64 uoldpid ≠ pid ∧ (st1.heap.procIOs pstate).Cnt ≠ 1 then .error Fault.panicked
      else
        match term cbs st1 (toInt64 uoldpid) with
        | .error f => .error f
        | .ok st2 =>
          execInstall cbs { st2 with terminated := st2.terminated.del pid } (toInt64 uoldpid)
            pid (st1.pstates.get? (toInt64 uoldpid))

/-- The handling of a vanished tracee in case 0 of `mainLoop`: `term(pid)`, the line
`pid _vanish`, and `continue` (no resume). -/
def vanished {σ : Type} (cbs : Callbacks σ) (st : LoopState σ) (pid : Int) :
    Except Fault (LoopState σ) :=
  match term cbs st pid with
  | .error f => .error f
  | .ok st1 => .ok { st1 with log := st1.log ++ [LogLine.vanish pid] }

/-- Case 0 of `mainLoop` for a state whose `SysEnter` is false: the edge is toggled
to true and `sysenter` is called; the tracee is resumed, or terminated when it
has vanished. -/
def entryStop {σ : Type} (cbs : Callbacks σ) (env : Env) (st : LoopState σ) (pid : Int)
    (pstate : Nat) : Except Fault (LoopState σ) :=
  match sysenter env pid { st.heap.load pstate with SysEnter := true } st.sys with
  | .error f => .error f
  | .ok r =>
    if r.1 then
      .ok (resumeTracee
        { st with heap := st.heap.store pstate r.2.1,
                  regsSet := st.regsSet ++ (r.2.2.map (fun regs => (pid, regs))).toList }
        pid pstate)
    else
      vanished cbs
        { st with heap := st.heap.store pstate r.2.1,
                  regsSet := st.regsSet ++ (r.2.2.map (fun regs => (pid, regs))).toList }
        pid

/-- Case 0 of `mainLoop` for a state whose `SysEnter` is true: the edge is toggled to
false and `sysexit` is called; the tracee is resumed, or terminated when it has
vanished. -/
def exitStop {σ : Type} (cbs : Callbacks σ) (env : Env) (st : LoopState σ) (pid : Int)
    (pstate : Nat) : Except Fault (LoopState σ) :=
  match sysexit env pid { st.heap.load pstate with SysEnter := false } st.sys with
  | .error f => .error f
  | .ok r =>
    if r.1 then
      .ok (resumeTracee { st with heap := st.heap.store pstate r.2.1, sys := r.2.2 } pid pstate)
    else vanished cbs { st with heap := st.heap.store pstate r.2.1, sys := r.2.2 } pid

/-- Case 0 of `mainLoop` (also reached from the seccomp case): the edge is toggled and
`sysenter` or `sysexit` is called; a vanished tracee is terminated without
being resumed. -/
def syscallStop {σ : Type} (cbs : Callbacks σ) (env : Env) (st : LoopState σ) (pid : Int)
    (pstate : Nat) : Except Fault (LoopState σ) :=
  if (st.heap.proc pstate).SysEnter = false then entryStop cbs env st pid pstate
  else exitStop cbs env st pid pstate

/-- The flag `cloneFiles` of the creation case of `mainLoop`. -/
def cloneFilesFlag (env : Env) (pid trapCause : Int) : Bool :=
  if trapCause = PTRACE_EVENT_CLONE then
    match env.getRegs pid with
    | none => false
    | some regs => decide (regs.Rdx &&& CLONE_FILES ≠ 0)
  else false

/-- The creation case of `mainLoop` up to the test of `suspended[newpid]`: the clone
of pstate is installed under newpid, which is marked running and removed from
the terminated set; the creation line is printed. -/
def createProc {σ : Type} (env : Env) (st : LoopState σ) (pid trapCause : Int) (pstate : Nat)
    (newpid : Int) : LoopState σ :=
  { st with
      heap := (st.heap.Clone pstate (cloneFilesFlag env pid trapCause)).1,
      pstates := st.pstates.set newpid (st.heap.Clone pstate (cloneFilesFlag env pid trapCause)).2,
      running := st.running.set newpid true,
      terminated := st.terminated.del newpid,
      log := st.log ++ [LogLine.created pid trapCause newpid] }

/-- The `switch trapCause` of `mainLoop`, with the jump back to its label
`wstatusSwitch` and the final `resume`. Each jump removes an entry of
`suspended`; the first argument bounds the number of jumps and is never
exhausted when it exceeds the length of `suspended` (see `mainLoopStep`). -/
def dispatch {σ : Type} (cbs : Callbacks σ) (env : Env) :
    Nat → LoopState σ → Int → Int → Nat → Except Fault (LoopState σ)
  | 0, _, _, _, _ => .error Fault.outOfFuel
  | fuel + 1, st, pid, trapCause, pstate =>
    if trapCause = PTRACE_EVENT_FORK ∨ trapCause = PTRACE_EVENT_VFORK ∨
        trapCause = PTRACE_EVENT_VFORK_DONE ∨ trapCause = PTRACE_EVENT_CLONE then
      match env.eventMsg pid with
      | none => .error Fault.fatal
      | some unewpid =>
        match (createProc env st pid trapCause pstate (toInt64 unewpid)).suspended.get?
            (toInt64 unewpid) with
        | none => .ok (resumeTracee (createProc env st pid trapCause pstate (toInt64 unewpid))
            pid pstate)
        | some newstatus =>
          dispatch cbs env fuel
            { resumeTracee (createProc env st pid trapCause pstate (toInt64 unewpid)) pid pstate
                with suspended := st.suspended.del (toInt64 unewpid),
                     log := st.log ++ [LogLine.created pid trapCause (toInt64 unewpid),
                       LogLine.resume (toInt64 unewpid)] }
            (toInt64 unewpid) newstatus (st.heap.Clone pstate (cloneFilesFlag env pid trapCause)).2
    else if trapCause = PTRACE_EVENT_EXEC then execEvent cbs env st pid pstate
    else if trapCause = PTRACE_EVENT_SECCOMP then
      if (st.heap.proc pstate).SysEnter then .error Fault.panicked
      else if env.oldSeccomp then .ok { st with resumed := st.resumed ++ [(pid, true)] }
      else syscallStop cbs env st pid pstate
    else if trapCause = 0 then syscallStop cbs env st pid pstate
    else .error Fault.panicked

/-- What one iteration of the `for` loop of `mainLoop` ends with: the next
iteration, or the `return mainRC`. -/
inductive StepResult (σ : Type) where
  | next (st : LoopState σ)
  | done (rc : Int) (st : LoopState σ)
deriving DecidableEq, Repr

/-- The assignment `cmd.Exit = trapCause` for a non-nil `pidcmds[pid]`. -/
def setExit {σ : Type} (st : LoopState σ) (pid trapCause : Int) : LoopState σ :=
  match st.pidcmds.getD pid none with
  | none => st
  | some c =>
    { st with
        heap := { st.heap with
          cmds := st.heap.cmds.set c { st.heap.cmds.getD c Cmd.zero with Exit := trapCause } } }

/-- The assignment `mainPID, mainRC = 0, trapCause` made when `mainPID == pid`. -/
def preserveStatus {σ : Type} (st : LoopState σ) (pid trapCause : Int) : LoopState σ :=
  if st.mainPID = pid then { st with mainPID := 0, mainRC := trapCause } else st

/-- The end of the termination branch of `mainLoop`, after `term(pid)`. -/
def afterExit {σ : Type} (st : LoopState σ) (pid trapCause : Int) : StepResult σ :=
  if (preserveStatus { st with pidcmds := st.pidcmds.del pid } pid trapCause).running.length = 0
  then
    StepResult.done (preserveStatus { st with pidcmds := st.pidcmds.del pid } pid trapCause).mainRC
      (preserveStatus { st with pidcmds := st.pidcmds.del pid } pid trapCause)
  else StepResult.next (preserveStatus { st with pidcmds := st.pidcmds.del pid } pid trapCause)

/-- One iteration of the `for` loop of `mainLoop` on the event returned by
`waitForSyscall()`. -/
def mainLoopStep {σ : Type} (cbs : Callbacks σ) (st : LoopState σ) (ev : Event) :
    Except Fault (StepResult σ) :=
  if ev.ok = false then
    match term cbs (setExit st ev.pid ev.trapCause) ev.pid with
    | .error f => .error f
    | .ok st1 => .ok (afterExit st1 ev.pid ev.trapCause)
  else
    match st.pstates.get? ev.pid with
    | none =>
      .ok (StepResult.next
        { st with suspended := st.suspended.set ev.pid ev.trapCause,
                  log := st.log ++ [LogLine.suspend ev.pid] })
    | some pstate =>
      match dispatch cbs ev.env (st.suspended.length + 1) st ev.pid ev.trapCause pstate with
      | .error f => .error f
      | .ok st1 => .ok (StepResult.next st1)

/-- How a run of `mainLoop` on a finite sequence of events ends: it returned a
status, the supervisor stopped abruptly, or it is blocked in
`waitForSyscall()` because the sequence is used up. -/
inductive Outcome (σ : Type) where
  | returned (rc : Int) (st : LoopState σ)
  | faulted (f : Fault)
  | waiting (st : LoopState σ)
deriving DecidableEq, Repr

/-- The `for` loop of `mainLoop` from a given state, on the events that
`waitForSyscall()` returns in turn. -/
def mainLoopFrom {σ : Type} (cbs : Callbacks σ) : LoopState σ → List Event → Outcome σ
  | st, [] => Outcome.waiting st
  | st, ev :: evs =>
    match mainLoopStep cbs st ev with
    | .error f => Outcome.faulted f
    | .ok (StepResult.done rc st1) => Outcome.returned rc st1
    | .ok (StepResult.next st1) => mainLoopFrom cbs st1 evs

/-- The state of `mainLoop` when it enters its `for` loop: the main process with the
working directory cwd and the fds 0, 1, 2, alone in `pstates` and `running`. -/
def initLoopState {σ : Type} (sys : SysState) (mainPID : Int) (cwd : String) (user : σ) :
    LoopState σ :=
  { sys := initSys sys,
    heap :=
      { procs := [{ ProcObj.zero with CurDir := cwd }],
        fdTabs := [(initProcState sys cwd).FDs],
        cxTabs := [[]],
        ios := [NewIOs],
        cmds := [] },
    pstates := [(mainPID, 0)],
    suspended := [],
    terminated := [],
    running := [(mainPID, true)],
    pidcmds := [],
    mainPID := mainPID,
    mainRC := 0,
    user := user,
    resumed := [],
    regsSet := [],
    log := [] }

/-- The function `mainLoop` of `main.go`; cwd is the result of `os.Getwd()`, none
for an error. -/
def mainLoop {σ : Type} (cbs : Callbacks σ) (sys : SysState) (mainPID : Int)
    (cwd : Option String) (user : σ) (events : List Event) : Outcome σ :=
  match cwd with
  | none => Outcome.faulted Fault.fatal
  | some dir => mainLoopFrom cbs (initLoopState sys mainPID dir user) events

/-- The exit code that `main` passes to `os.Exit` for the status rc returned by
`mainLoop`. -/
def exitCode (rc : Int) : Int := if rc < 0 then 128 - rc else rc

/-- The state that an iteration of the loop ends with. -/
def StepResult.state {σ : Type} : StepResult σ → LoopState σ
  | StepResult.next st => st
  | StepResult.done _ st => st

/-- The event `waitForSyscall()` returns when pid has terminated with the given
status (negative for death by signal). -/
def exitEvent (pid status : Int) (env : Env) : Event :=
  { pid := pid, trapCause := status, ok := false, env := env }

/-- A fork event of pid whose event message is the new pid. -/
def forkEvent (pid : Int) (newpid : Nat) : Event :=
  { pid := pid, trapCause := PTRACE_EVENT_FORK, ok := true,
    env := { sampleEnv (some zeroRegs) [] [] with eventMsg := fun _ => some newpid } }

/-- A syscall stop of pid at which the register fetch fails: the tracee has
vanished. -/
def vanishEvent (pid : Int) : Event :=
  { pid := pid, trapCause := 0, ok := true, env := sampleEnv none [] [] }

/-- The status that a finished run returned, if it returned. -/
def Outcome.status {σ : Type} : Outcome σ → Option Int
  | Outcome.returned rc _ => some rc
  | _ => none

/-- The fault that ended a run, if one did. -/
def Outcome.fault {σ : Type} : Outcome σ → Option Fault
  | Outcome.faulted f => some f
  | _ => none

/-- The state in which a run is blocked in `waitForSyscall()`; the given state
when the run is not blocked. -/
def Outcome.stateOr {σ : Type} (o : Outcome σ) (dflt : LoopState σ) : LoopState σ :=
  match o with
  | Outcome.waiting st => st
  | _ => dflt

/-- A platform on which the tracee has vanished (no register fetch). -/
def envGone : Env := sampleEnv none [] []

/-- The supervisor of `main` without filters, tracing the main PID 1 from the
working directory `/w`, on a sequence of events. -/
def superviseSample (events : List Event) : Outcome MainState :=
  mainLoop (mainCallbacks false []) NewSysState 1 (some "/w") mainState0 events

/-- Platform answers at the successful exit (return value 5) of `fcntl(1, F_DUPFD, 0)`. -/
def envFcntlDupfd : Env := sampleEnv (some (exitRegs 5 1 F_DUPFD 0)) [] []

/-- Platform answers at the successful exit (return value 5) of `dup(1)`. -/
def envDup : Env := sampleEnv (some (exitRegs 5 1 0 0)) [] []

/-- Platform answers at the successful exit (return value 5) of
`fcntl(1, F_DUPFD_CLOEXEC, 0)`. -/
def envFcntlDupfdCloexec : Env := sampleEnv (some (exitRegs 5 1 F_DUPFD_CLOEXEC 0)) [] []

/-- Platform answers at the successful exit (return value 5) of
`dup3(1, 5, O_CLOEXEC)`. -/
def envDup3Cloexec : Env := sampleEnv (some (exitRegs 5 1 5 O_CLOEXEC)) [] []

/-- A platform in undelete mode (flag `-u`) at the entry of syscall number nr with
arguments a1, a2, a3. -/
def envUndelete (nr a1 a2 a3 : Nat) : Env :=
  { sampleEnv (some (entryRegs nr a1 a2 a3)) [] [] with flUndelete := true }

/-- Platform answers at the successful exit (return value 3) of a read-only
`open("/tmp/gone")` when `os.Lstat` of the path fails. -/
def envOpenLstatFails : Env :=
  { sampleEnv (some (exitRegs 3 100 0 0)) [(100, "/tmp/gone")] [] with lstat := fun _ => none }

/-- Platform answers at the successful exit (return value 3) of
`open("/tmp/b", O_WRONLY)`. -/
def envOpenWrite : Env := sampleEnv (some (exitRegs 3 100 1 0)) [(100, "/tmp/b")] []

/-- A clone event of pid whose event message is the new pid, with the registers of
the tracee at the event. -/
def cloneEvent (pid : Int) (newpid : Nat) (regs : Regs) : Event :=
  { pid := pid, trapCause := PTRACE_EVENT_CLONE, ok := true,
    env := { sampleEnv (some regs) [] [] with eventMsg := fun _ => some newpid } }

/-- Registers of a raw `clone` syscall (number 56) as `pthread_create` issues it: the
flags in Rdi contain `CLONE_FILES` (0x3d0f00), Rsi is the stack and Rdx the
`parent_tid` pointer, here an address without the bit 0x400. -/
def regsCloneThread : Regs := entryRegs 56 0x3d0f00 0x7f1234560000 0x7f1234567910

/-- Registers of a raw `clone` syscall (number 56) with the flags
`CLONE_PARENT_SETTID | SIGCHLD` (0x100011, no `CLONE_FILES`) in Rdi and a
`parent_tid` pointer in Rdx whose address has the bit 0x400. -/
def regsCloneProcess : Regs := entryRegs 56 0x100011 0 0x7f1234567d10

/-- An exec event of pid whose event message is the old pid. -/
def execEventOf (pid : Int) (oldpid : Nat) : Event :=
  { pid := pid, trapCause := PTRACE_EVENT_EXEC, ok := true,
    env := { sampleEnv (some zeroRegs) [] [] with eventMsg := fun _ => some oldpid } }

/-- A stop of pid with the given cause, on the platform env. -/
def stopEvent (pid cause : Int) (env : Env) : Event :=
  { pid := pid, trapCause := cause, ok := true, env := env }

/-- The state in which `superviseSample` is blocked after the events (the initial
state when it is not blocked). -/
def sampleStateAfter (events : List Event) : LoopState MainState :=
  (superviseSample events).stateOr (initLoopState NewSysState 1 "/w" mainState0)

/-- A platform with a kernel release below 4.8 (`oldSeccomp` true) at the entry of
syscall number nr with arguments a1, a2, a3. -/
def envOldKernel (nr a1 a2 a3 : Nat) : Env :=
  { sampleEnv (some (entryRegs nr a1 a2 a3)) [] [] with oldSeccomp := true }

/-- The state of `superviseSample` when it enters the loop. -/
def sampleState0 : LoopState MainState := initLoopState NewSysState 1 "/w" mainState0

/-- The two stops of `open("/tmp/b", O_WRONLY)` made by the main process: the entry
(syscall number 2) and the exit returning fd 3. -/
def openStops : List Event :=
  [stopEvent 1 0 (sampleEnv (some (entryRegs 2 100 1 0)) [(100, "/tmp/b")] []),
   stopEvent 1 0 envOpenWrite]

/-! ## Reading the trace log -/

/-- Whether a line of the trace log re-activates the PID p: a creation line that names
p as the new PID, or an exec line on p. -/
def LogLine.reactivates (p : Int) : LogLine → Bool
  | LogLine.created _ _ newpid => decide (newpid = p)
  | LogLine.exec _ pid => decide (pid = p)
  | _ => false

/-- One step of the scan of the trace log for the PID p. The state tells whether a
record of p was printed since the last line that re-activates p; it is none
once a second record of p was printed without a re-activation in between. -/
def recordStep (p : Int) : Option Bool → LogLine → Option Bool
  | none, _ => none
  | some seen, l =>
    if l.reactivates p then some false
    else if l = LogLine.record p then (if seen then none else some true)
    else some seen

/-- The scan of a trace log (oldest line first) for the PID p. -/
def recordState (p : Int) (log : List LogLine) : Option Bool :=
  log.foldl (recordStep p) (some false)

/-- The guard of `term` seen from the trace log: for every PID the log has no two
records without a re-activation in between, and a PID with a record after its
last re-activation is in the terminated set. -/
def LogInv (log : List LogLine) (terminated : GoMap Int Bool) : Prop :=
  ∀ p, ∃ b, recordState p log = some b ∧ (b = true → terminated.getD p false = true)

/-- The run of the sample supervisor in which the main process executes a command
(entry of `execve("/bin/true")`, exec event), vanishes at its next stop, and is
then reported as exited with status 0. -/
def execVanishExit : List Event :=
  [stopEvent 1 0 (sampleEnv (some (entryRegs 59 100 0 0)) [(100, "/bin/true")] []),
   execEventOf 1 1, vanishEvent 1, exitEvent 1 0 envGone]

/-- The state in which a run ended, blocked or returned; the given state when the
supervisor stopped abruptly. -/
def Outcome.finalState {σ : Type} (o : Outcome σ) (dflt : LoopState σ) : LoopState σ :=
  match o with
  | Outcome.waiting st => st
  | Outcome.returned _ st => st
  | Outcome.faulted _ => dflt

/-! ## The refcount discipline -/

/-- The IOSet (its reference) that the state of the PID p holds; none for a PID without
process state. -/
def LoopState.iosOf {σ : Type} (st : LoopState σ) (p : Int) : Option Nat :=
  (st.pstates.get? p).map (fun r => (st.heap.proc r).IOs)

/-- The refcount `Cnt` of the IOSet behind the reference x. -/
def LoopState.cntOf {σ : Type} (st : LoopState σ) (x : Nat) : Int :=
  (st.heap.ios.getD x NewIOs).Cnt

/-- The running PIDs whose process state holds the IOSet x. -/
def LoopState.sharers {σ : Type} (st : LoopState σ) (x : Nat) : Finset Int :=
  ((st.running.map Prod.fst).toFinset).filter (fun p => st.iosOf p = some x)

/-- Whether a trap cause is one of the four creation events of `mainLoop`. -/
def isCreation (c : Int) : Bool :=
  decide (c = PTRACE_EVENT_FORK ∨ c = PTRACE_EVENT_VFORK ∨ c = PTRACE_EVENT_VFORK_DONE ∨
    c = PTRACE_EVENT_CLONE)

/-- The refcount discipline of `mainLoop`: the references in `pstates` are allocated,
a running PID has a process state and is not in the terminated set, a PID with
a state that is not in the terminated set is running, two running PIDs have
different states, a saved stop of a suspended PID is neither a creation nor an
exec event, and the refcount of the IOSet of every running PID is the number
of running PIDs whose state holds this IOSet. -/
structure RefInv {σ : Type} (st : LoopState σ) : Prop where
  valid : ∀ p r, st.pstates.get? p = some r → r < st.heap.procs.length
  inRange : ∀ r, r < st.heap.procs.length → (st.heap.proc r).IOs < st.heap.ios.length
  hasState : ∀ p, st.running.get? p ≠ none → st.pstates.get? p ≠ none
  notTerm : ∀ p, st.running.get? p ≠ none → st.terminated.getD p false = false
  alive : ∀ p, st.pstates.get? p ≠ none → st.terminated.getD p false = false →
    st.running.get? p ≠ none
  noAlias : ∀ p q r, st.running.get? p ≠ none → st.running.get? q ≠ none →
    st.pstates.get? p = some r → st.pstates.get? q = some r → p = q
  susp : ∀ q c, st.suspended.get? q = some c → isCreation c = false ∧ c ≠ PTRACE_EVENT_EXEC
  count : ∀ p x, st.running.get? p ≠ none → st.iosOf p = some x →
    st.cntOf x = ((st.sharers x).card : Int)

/-- Whether the PID p holds an IOSet of refcount 1 in the state st. -/
def LoopState.unshared {σ : Type} (st : LoopState σ) (p : Int) : Bool :=
  match st.iosOf p with
  | none => false
  | some x => decide (st.cntOf x = 1)

/-- What the refcount discipline expects of the event that `waitForSyscall()` returns
in the state st. A creation event comes from a running PID; the PID that it
names is not running, or it is another PID than the stopped one whose IOSet
has refcount 1 (as when a vfork-done event names the child of the vfork event
again). An exec event names a running PID as the old PID. The first stop of a
PID without process state is neither a creation nor an exec event. Nothing is
expected of a termination event or of a syscall or seccomp stop of a PID with
a state. -/
def wellFormed {σ : Type} (st : LoopState σ) (ev : Event) : Bool :=
  if ev.ok = false then true
  else
    match st.pstates.get? ev.pid with
    | none => !isCreation ev.trapCause && decide (ev.trapCause ≠ PTRACE_EVENT_EXEC)
    | some _ =>
      if isCreation ev.trapCause then
        (st.running.get? ev.pid).isSome &&
          match ev.env.eventMsg ev.pid with
          | none => true
          | some n =>
            (st.running.get? (toInt64 n)).isNone ||
              (decide (toInt64 n ≠ ev.pid) && st.unshared (toInt64 n))
      else if ev.trapCause = PTRACE_EVENT_EXEC then
        match ev.env.eventMsg ev.pid with
        | none => true
        | some n => (st.running.get? (toInt64 n)).isSome
      else true

/-- Whether every event of a run is as `wellFormed` expects in the state in which
`mainLoop` handles it. -/
def wellFormedRun {σ : Type} (cbs : Callbacks σ) : LoopState σ → List Event → Bool
  | _, [] => true
  | st, ev :: evs =>
    wellFormed st ev &&
      match mainLoopStep cbs st ev with
      | .ok (StepResult.next st1) => wellFormedRun cbs st1 evs
      | _ => true

/-- Registers of a raw `clone` syscall (number 56) whose flags in Rdi contain
`CLONE_FILES` (0x3d0f00) and whose `parent_tid` pointer in Rdx has the bit 0x400
as well, so that the test of `mainLoop` sees the flag. -/
def regsCloneShared : Regs := entryRegs 56 0x3d0f00 0x7f1234560000 0x7f1234567d10

/-- A vfork event of pid whose event message is the new pid. -/
def vforkEvent (pid : Int) (newpid : Nat) : Event :=
  { pid := pid, trapCause := PTRACE_EVENT_VFORK, ok := true,
    env := { sampleEnv (some zeroRegs) [] [] with eventMsg := fun _ => some newpid } }

/-- A vfork-done event of pid, reported when the child of its vfork has released it,
whose event message is the pid of that child. -/
def vforkDoneEvent (pid : Int) (newpid : Nat) : Event :=
  { pid := pid, trapCause := PTRACE_EVENT_VFORK_DONE, ok := true,
    env := { sampleEnv (some zeroRegs) [] [] with eventMsg := fun _ => some newpid } }

/-- The vfork of PID 2 by the main process and the vfork-done event that follows it. -/
def vforkPair : List Event := [vforkEvent 1 2, vforkDoneEvent 1 2]

/-- The main process vforks PID 2; before PID 2 releases its parent it creates PID 3
with `CLONE_FILES`; the vfork-done event of the main process is reported
before the exec or exit of PID 2 that released it. -/
def vforkSharing : List Event :=
  [vforkEvent 1 2, cloneEvent 2 3 regsCloneShared, vforkDoneEvent 1 2]

/-- The run `vforkSharing` made after the main process has executed a command, followed
by the termination events of PID 2 and PID 3. -/
def vforkSharingExits : List Event :=
  execVanishExit.take 2 ++ vforkSharing ++ [exitEvent 2 0 envGone, exitEvent 3 0 envGone]

/-- The run `vforkSharingExits` without its vfork-done event. -/
def sharingExits : List Event :=
  execVanishExit.take 2 ++ vforkSharing.take 2 ++
    [exitEvent 2 0 envGone, exitEvent 3 0 envGone]

/-- A run in which the main process forks PID 2, PID 2 creates the thread 3 with
`CLONE_FILES`, the thread exits and PID 2 executes a command. -/
def sharingRun : List Event :=
  [forkEvent 1 2, cloneEvent 2 3 regsCloneShared, exitEvent 3 0 envGone,
   stopEvent 2 0 (sampleEnv (some (entryRegs 59 100 0 0)) [(100, "/bin/true")] []),
   execEventOf 2 2]

/-! # Lemmas and theorems -/

theorem IntSet.mem_Add (s : IntSet) (i j : Nat) : i ∈ s.Add j ↔ i = j ∨ i ∈ s := by
  unfold IntSet.Add
  split
  · constructor
    · intro h; exact Or.inr h
    · rintro (rfl | h)
      · assumption
      · exact h
  · simp [List.mem_append, or_comm]

theorem IntSet.Has_iff (s : IntSet) (i : Nat) : s.Has i = true ↔ i ∈ s := by
  simp [IntSet.Has]

theorem GoMap.get?_del {κ ν : Type} [DecidableEq κ] (m : GoMap κ ν) (k k' : κ) :
    (GoMap.del m k).get? k' = if k = k' then none else m.get? k' := by
  induction m with
  | nil => simp [GoMap.del, GoMap.get?]
  | cons a m ih =>
    rcases a with ⟨a, v⟩
    simp only [GoMap.del]
    by_cases h : a = k
    · subst h
      simp only [if_true, ih, GoMap.get?]
      by_cases h2 : a = k' <;> simp [h2]
    · simp only [h, if_false, GoMap.get?, ih]
      by_cases h2 : a = k'
      · subst h2
        simp [Ne.symm h]
      · simp [h2]

theorem GoMap.get?_set {κ ν : Type} [DecidableEq κ] (m : GoMap κ ν) (k k' : κ) (v : ν) :
    (GoMap.set m k v).get? k' = if k = k' then some v else m.get? k' := by
  simp only [GoMap.set, GoMap.get?, GoMap.get?_del]
  by_cases h : k = k' <;> simp [h]

/-- The remapping of fcntl leaves the IOSet alone. -/
theorem sysexitFcntl_IOs (p : ProcState) (regs : Regs) : (sysexitFcntl p regs).1.IOs = p.IOs := by
  unfold sysexitFcntl
  split_ifs <;> rfl

theorem IOs.Shadowed.refl (a : IOs) : a.Shadowed a := fun _ h => ⟨h, id⟩

theorem IOs.Shadowed.trans {a b c : IOs} (h1 : a.Shadowed b) (h2 : b.Shadowed c) :
    a.Shadowed c := by
  intro i hi
  have hb := h1 i hi
  have hc := h2 i hb.1
  exact ⟨hc.1, fun h => hb.2 (hc.2 h)⟩

theorem IOs.shadowed_MapAdd (io : IOs) (k i : Nat) (h : k = W ∨ i ∉ io.MapW) :
    io.Shadowed (io.MapAdd k i) := by
  intro j hj
  unfold IOs.MapAdd
  split
  · exact ⟨(IntSet.mem_Add _ _ _).2 (Or.inr hj), id⟩
  · rename_i hk
    refine ⟨hj, ?_⟩
    intro hm
    rcases (IntSet.mem_Add _ _ _).1 hm with rfl | hm
    · rcases h with h | h
      · exact absurd h hk
      · exact absurd hj h
    · exact hm

theorem openRecordIO_shadowed (env : Env) (p : ProcState) (path : String) (write inode : Nat)
    (p' : ProcState) (h : openRecordIO env p path write inode = .ok p') :
    p.IOs.Shadowed p'.IOs := by
  unfold openRecordIO at h
  split at h
  · cases h; exact IOs.Shadowed.refl _
  · rename_i hW
    have hW' : inode ∉ p.IOs.MapW := by simpa [IntSet.Has] using hW
    have hadd := IOs.shadowed_MapAdd p.IOs write inode (Or.inr hW')
    split at h
    · split at h
      · cases h
      · cases h; exact IOs.Shadowed.refl _
      · cases h; exact hadd
    · cases h; exact hadd

theorem sysexitOpen_shadowed (env : Env) (pid : Int) (p : ProcState) (sys : SysState)
    (regs : Regs) (ret32 : Int) (p' : ProcState) (s' : SysState)
    (h : sysexitOpen env pid p sys regs ret32 = .ok (p', s')) : p.IOs.Shadowed p'.IOs := by
  unfold sysexitOpen at h
  split at h
  · cases h
  · rename_i q hq
    cases h
    exact openRecordIO_shadowed env (openInstall p _ _ _) _ _ _ _ hq

theorem sysexitLinkPaths_shadowed (p : ProcState) (sys : SysState) (o n : String) :
    p.IOs.Shadowed (sysexitLinkPaths p sys o n).1.IOs := by
  unfold sysexitLinkPaths
  simp only
  refine IOs.Shadowed.trans ?_ (IOs.shadowed_MapAdd _ W _ (Or.inl rfl))
  split
  · rename_i hW
    exact IOs.shadowed_MapAdd _ R _ (Or.inr (by simpa [IntSet.Has] using hW))
  · exact IOs.Shadowed.refl _

theorem sysexitRead_shadowed (p : ProcState) (regs : Regs) :
    p.IOs.Shadowed (sysexitRead p regs).IOs := by
  unfold sysexitRead
  simp only
  split
  · rename_i h
    exact IOs.shadowed_MapAdd _ R _ (Or.inr (by simpa [IntSet.Has] using h.2))
  · exact IOs.Shadowed.refl _

theorem sysexitWrite_shadowed (p : ProcState) (regs : Regs) :
    p.IOs.Shadowed (sysexitWrite p regs).IOs := by
  unfold sysexitWrite
  simp only
  split
  · exact IOs.shadowed_MapAdd _ W _ (Or.inl rfl)
  · exact IOs.Shadowed.refl _

theorem sysexitSwitch_shadowed (env : Env) (pid : Int) (p : ProcState) (sys : SysState)
    (regs : Regs) (ret32 : Int) (p' : ProcState) (s' : SysState)
    (h : sysexitSwitch env pid p sys regs ret32 = .ok (p', s')) : p.IOs.Shadowed p'.IOs := by
  unfold sysexitSwitch at h
  split at h
  · exact sysexitOpen_shadowed _ _ _ _ _ _ _ _ h
  · cases h; exact IOs.Shadowed.refl _
  · cases h; exact IOs.Shadowed.refl _
  · cases h; exact sysexitLinkPaths_shadowed _ _ _ _
  · cases h; exact sysexitLinkPaths_shadowed _ _ _ _
  · cases h; exact IOs.Shadowed.refl _
  · cases h; exact IOs.Shadowed.refl _
  · cases h; exact IOs.Shadowed.refl _
  · cases h; exact sysexitRead_shadowed _ _
  · cases h; exact sysexitWrite_shadowed _ _
  · cases h; exact IOs.Shadowed.refl _
  · unfold sysexitPipe at h
    split at h
    · cases h
    · cases h; exact IOs.Shadowed.refl _
  · cases h; exact IOs.Shadowed.refl _

theorem sysexit_shadowed (env : Env) (pid : Int) (p : ProcState) (sys : SysState)
    (b : Bool) (p' : ProcState) (s' : SysState)
    (h : sysexit env pid p sys = .ok (b, p', s')) : p.IOs.Shadowed p'.IOs := by
  unfold sysexit at h
  split at h
  · cases h; exact IOs.Shadowed.refl _
  · split at h
    · cases h; exact IOs.Shadowed.refl _
    · split at h
      · cases h
      · rename_i q s hq
        cases h
        have := sysexitSwitch_shadowed _ _ _ _ _ _ _ _ hq
        rwa [sysexitFcntl_IOs] at this

theorem List.append_singleton_ne_self {α : Type} (l : List α) (a : α) : l ++ [a] ≠ l := by
  intro h
  have := congrArg List.length h
  simp at this

theorem onExitRecord_cases (needOutput : Bool) (execs : GoMap String Bool) (m : MainState)
    (r : Record) (curID : Int) :
    onExitRecord needOutput execs m r curID =
      if (needOutput = true ∨ execs ≠ []) ∧
          (needOutput = true → r.Outputs = [] ∨ r.Outputs = ["/dev/tty"]) ∧
          (execs ≠ [] → execs.getD r.Cmd.Path false = false ∧
            execs.getD (filepathBase r.Cmd.Path) false = false) then m
      else { cmdFDs := m.cmdFDs.del curID,
             records := m.records ++ [{ r with FDs := m.cmdFDs.get? curID }] } := by
  rcases r with ⟨c, i, o, f⟩
  have hlen : (decide (execs.length > 0)) = decide (execs ≠ []) := by
    cases execs <;> simp
  have hout : (o.length == 0 || (o.length == 1 && o.getD 0 "" == "/dev/tty")) =
      decide (o = [] ∨ o = ["/dev/tty"]) := by
    rcases o with _ | ⟨a, _ | ⟨b, t⟩⟩
    · simp
    · simp; rfl
    · simp
  unfold onExitRecord
  simp only [hlen, Bool.or_assoc, hout]
  cases needOutput <;> by_cases he : execs = [] <;> simp [he]

theorem emits_iff (needOutput : Bool) (execs : GoMap String Bool) (m : MainState)
    (r : Record) (curID : Int) :
    emits needOutput execs m r curID = true ↔
      ¬ ((needOutput = true ∨ execs ≠ []) ∧
          (needOutput = true → r.Outputs = [] ∨ r.Outputs = ["/dev/tty"]) ∧
          (execs ≠ [] → execs.getD r.Cmd.Path false = false ∧
            execs.getD (filepathBase r.Cmd.Path) false = false)) := by
  unfold emits
  rw [onExitRecord_cases]
  split
  · rename_i h
    simp only [decide_eq_true_eq]
    constructor
    · intro h2; exact absurd h2.symm (List.append_singleton_ne_self _ _)
    · intro h2; exact absurd h h2
  · rename_i h
    simp [h]

/-- C1 (as stated, refuted): with only the deps-with-output filter, a record whose
output list is empty is not appended by `onExit`. -/
theorem depsWithOutput_drops_record_without_outputs :
    ¬ (emits true [] mainState0 recNoOutput 1 = true ↔
        (recNoOutput.Outputs = [] ∨ recNoOutput.Outputs = ["/dev/tty"])) := by
  decide

/-- C1 (amended): with only the deps-with-output filter enabled (`needOutput` true,
empty command set), `onExit` leaves the emitted records and the fd snapshots
unchanged when the output list of the record is empty or exactly `["/dev/tty"]`,
and appends the record (with its fd snapshot) in every other case. -/
theorem onExit_depsWithOutput (m : MainState) (r : Record) (curID : Int) :
    (onExitRecord true [] m r curID =
      if r.Outputs = [] ∨ r.Outputs = ["/dev/tty"] then m
      else { cmdFDs := m.cmdFDs.del curID,
             records := m.records ++ [{ r with FDs := m.cmdFDs.get? curID }] }) ∧
    (emits true [] m r curID = true ↔ ¬ (r.Outputs = [] ∨ r.Outputs = ["/dev/tty"])) := by
  constructor
  · rw [onExitRecord_cases]; simp
  · rw [emits_iff]; simp

/-- C2 (as stated, refuted): with both filters enabled, a record with a real output
of a command outside the set is emitted, although the deps-of-command filter
alone drops it. -/
theorem both_filters_not_conjunction :
    ¬ (emits true [("ld", true)] mainState0 recWithOutput 1 = true ↔
        (emits true [] mainState0 recWithOutput 1 = true ∧
          emits false [("ld", true)] mainState0 recWithOutput 1 = true)) := by
  decide

/-- C2 (amended): with both filters enabled (deps-with-output and a non-empty
deps-of-command set), `onExit` emits a record if and only if the
deps-with-output filter alone would emit it OR the deps-of-command filter
alone would emit it; the latter emits exactly the records whose command
path, or the base name of that path, is in the set. -/
theorem onExit_both_filters (execs : GoMap String Bool) (m : MainState) (r : Record)
    (curID : Int) (hne : execs ≠ []) :
    (emits true execs m r curID = true ↔
      (emits true [] m r curID = true ∨ emits false execs m r curID = true)) ∧
    (emits false execs m r curID = true ↔
      (execs.getD r.Cmd.Path false = true ∨
        execs.getD (filepathBase r.Cmd.Path) false = true)) := by
  simp only [emits_iff]
  constructor
  · simp [hne]
    tauto
  · simp [hne]
    cases execs.getD r.Cmd.Path false <;> simp

/-- Instance of C2 (amended) for the record of `/bin/cc` with the output `/tmp/a.o` and
the command set `ld`. -/
theorem onExit_both_filters_witness :
    (emits true [("ld", true)] mainState0 recWithOutput 1 = true ↔
      (emits true [] mainState0 recWithOutput 1 = true ∨
        emits false [("ld", true)] mainState0 recWithOutput 1 = true)) ∧
    (emits false [("ld", true)] mainState0 recWithOutput 1 = true ↔
      (GoMap.getD [("ld", true)] recWithOutput.Cmd.Path false = true ∨
        GoMap.getD [("ld", true)] (filepathBase recWithOutput.Cmd.Path) false = true)) :=
  onExit_both_filters [("ld", true)] mainState0 recWithOutput 1 (by decide)

theorem sysenter_IOs (env : Env) (pid : Int) (p : ProcState) (sys : SysState) (b : Bool)
    (p' : ProcState) (w : Option Regs) (h : sysenter env pid p sys = .ok (b, p', w)) :
    p'.IOs = p.IOs := by
  unfold sysenter at h
  split at h
  · cases h; rfl
  · dsimp only at h
    split at h
    · cases h; rfl
    split at h
    · cases h; rfl
    split at h
    · split at h
      · split at h
        · cases h; rfl
        · cases h
      · cases h; rfl
    split at h
    · split at h
      · split at h
        · cases h; rfl
        · cases h
      · cases h; rfl
    · cases h; rfl

theorem interpStep_shadowed (pid : Int) (st st' : ProcState × SysState) (stop : Stop)
    (h : interpStep pid st stop = .ok st') : st.1.IOs.Shadowed st'.1.IOs := by
  cases stop with
  | enter env =>
    simp only [interpStep] at h
    split at h
    · cases h
    · rename_i r hr
      cases h
      rcases r with ⟨b, p', w⟩
      have hio := sysenter_IOs _ _ _ _ _ _ _ hr
      show st.1.IOs.Shadowed p'.IOs
      rw [hio]
      exact IOs.Shadowed.refl _
  | exit env =>
    simp only [interpStep] at h
    split at h
    · cases h
    · rename_i r hr
      cases h
      rcases r with ⟨b, p', s'⟩
      exact sysexit_shadowed _ _ _ _ _ _ _ hr

theorem interpRun_shadowed (pid : Int) (stops : List Stop) (st st' : ProcState × SysState)
    (h : interpRun pid stops st = .ok st') : st.1.IOs.Shadowed st'.1.IOs := by
  induction stops generalizing st with
  | nil => simp only [interpRun] at h; cases h; exact IOs.Shadowed.refl _
  | cons stop rest ih =>
    simp only [interpRun] at h
    split at h
    · cases h
    · rename_i st1 h1
      exact IOs.Shadowed.trans (interpStep_shadowed _ _ _ _ h1) (ih _ h)

/-- C3 (as stated, refuted): from the initial state, whose IOSet is empty, a read-only
open of `/tmp/b` followed by a write-mode open of the same file leaves its
inode 4 both in the read set R and in the write set W. -/
theorem read_then_write_open_is_in_both_sets :
    state0.1.IOs.MapR = [] ∧ state0.1.IOs.MapW = [] ∧
    (interpRun 10 readThenWrite state0).toOption.map
      (fun st => (st.1.IOs.MapR, st.1.IOs.MapW, (st.2.FS.Inode "/tmp/b").2)) =
      some ([4], [4], 4) := by
  decide

/-- C3 (amended): for every process state and every finite sequence of interpreter
stops (syscall entries and exits) that the supervisor survives, an inode that
is in the write set W and not in the read set R before the sequence is in W
and not in R after it: a file written before it is read is an output only. -/
theorem written_inode_stays_out_of_reads (pid : Int) (stops : List Stop)
    (st fin : ProcState × SysState) (i : Nat)
    (hrun : interpRun pid stops st = .ok fin)
    (hW : i ∈ st.1.IOs.MapW) (hR : i ∉ st.1.IOs.MapR) :
    i ∈ fin.1.IOs.MapW ∧ i ∉ fin.1.IOs.MapR := by
  have h := interpRun_shadowed pid stops st fin hrun i hW
  exact ⟨h.1, fun hm => hR (h.2 hm)⟩

/-- Instance of C3 (amended): the state after a write-mode open of `/tmp/b` is reached
from the initial state, and a later read-only open of the same file leaves
its inode 4 in W and out of R. -/
theorem written_inode_stays_out_of_reads_witness :
    (interpRun 10 writeOpen state0 = .ok stateWritten) ∧
    (4 ∈ stateWritten.1.IOs.MapW ∧ 4 ∉ stateWritten.1.IOs.MapR) ∧
    (∀ fin, interpRun 10 readOpen stateWritten = .ok fin →
      4 ∈ fin.1.IOs.MapW ∧ 4 ∉ fin.1.IOs.MapR) ∧
    (interpRun 10 readOpen stateWritten).toOption.map
      (fun st => (st.1.IOs.MapR, st.1.IOs.MapW, st.1.FDs.get? 4)) = some ([], [4], some 4) :=
  ⟨by rfl, by decide,
    fun fin h => written_inode_stays_out_of_reads 10 readOpen stateWritten fin 4 h
      (by decide) (by decide),
    by decide⟩

/-- C4: for every process state, registries and platform answers, a `sysexit` step that
the supervisor survives never adds to the read set R an inode that is
already in the write set W (an inode of W is in R afterwards only if it was
in R before), and W never loses an element. -/
theorem sysexit_never_reads_written_inode (env : Env) (pid : Int) (pstate : ProcState)
    (sys : SysState) (ok : Bool) (pstate' : ProcState) (sys' : SysState) (i : Nat)
    (hstep : sysexit env pid pstate sys = .ok (ok, pstate', sys'))
    (hW : i ∈ pstate.IOs.MapW) :
    i ∈ pstate'.IOs.MapW ∧ (i ∈ pstate'.IOs.MapR → i ∈ pstate.IOs.MapR) :=
  sysexit_shadowed env pid pstate sys ok pstate' sys' hstep i hW

/-- Instance of C4: the exit of a `read` on fd 3, whose inode 4 is in W. -/
theorem sysexit_never_reads_written_inode_witness :
    sysexit envExitFd3 10 stateReading stateWritten.2 = .ok (true, stateReading, stateWritten.2) ∧
    4 ∈ stateReading.IOs.MapW ∧
    (4 ∈ stateReading.IOs.MapW ∧ (4 ∈ stateReading.IOs.MapR → 4 ∈ stateReading.IOs.MapR)) :=
  ⟨by rfl, by decide,
    sysexit_never_reads_written_inode envExitFd3 10 stateReading stateWritten.2 true stateReading
      stateWritten.2 4 (by rfl) (by decide)⟩

/-- C5 (code evaluated at the failing input): at the successful exit of a pipe syscall
that returned the descriptors 3 and 4, `sysexit` binds both to the fresh inode
4 when the remembered syscall is `pipe`, and changes nothing at all when it
is `pipe2`: the fd table has no entry for 3 and 4. -/
theorem pipe2_exit_leaves_fd_table_unchanged :
    (sysexit envPipeExit 10 { state0.1 with Syscall := SYS_PIPE } state0.2).toOption.map
      (fun r => (r.2.1.FDs.get? 3, r.2.1.FDs.get? 4, r.2.2.FS.seq)) =
      some (some 4, some 4, 4) ∧
    state0.2.FS.seq = 3 ∧
    sysexit envPipeExit 10 { state0.1 with Syscall := SYS_PIPE2 } state0.2 =
      .ok (true, { state0.1 with Syscall := SYS_PIPE2 }, state0.2) ∧
    state0.1.FDs.get? 3 = none ∧ state0.1.FDs.get? 4 = none := by
  refine ⟨by decide, by decide, by rfl, by decide, by decide⟩

/-- C7: for every process state, registries, remembered syscall number and register
snapshot whose return register Rax is negative as a signed 64-bit integer,
`sysexit` returns true and leaves the whole process state and the registries
unchanged (whatever the remembered syscall is, `fcntl` included). -/
theorem sysexit_failed_syscall_changes_nothing (env : Env) (pid : Int) (pstate : ProcState)
    (sys : SysState) (regs : Regs) (hregs : env.getRegs pid = some regs)
    (hneg : toInt64 regs.Rax < 0) :
    sysexit env pid pstate sys = .ok (true, pstate, sys) := by
  unfold sysexit
  rw [hregs]
  simp only [hneg, if_true]

/-- Instance of C7: a failed `fcntl(3, F_DUPFD, 0)` (return value -9). -/
theorem sysexit_failed_syscall_changes_nothing_witness :
    sysexit envFailedFcntl 10 { state0.1 with Syscall := SYS_FCNTL } state0.2 =
      .ok (true, { state0.1 with Syscall := SYS_FCNTL }, state0.2) :=
  sysexit_failed_syscall_changes_nothing envFailedFcntl 10 { state0.1 with Syscall := SYS_FCNTL }
    state0.2 (exitRegs (2 ^ 64 - 9) 3 F_DUPFD 0) (by rfl) (by decide)

/-- C8 (code evaluated at the failing inputs): the interpreter hands inode 0 to
`FS.Path` at the exit of a successful `fchdir(7)` of the initial state, where
fd 7 was never tracked, and, after the process closed fd 0, at the entry of
`execveat(AT_FDCWD, "/proc/self/fd/0", ..)`. -/
theorem interpreter_calls_Path_with_inode_zero :
    state0.1.FDs.get? 7 = none ∧
    sysexitPathArgs envFchdir7 10 { state0.1 with Syscall := SYS_FCHDIR } state0.2 = [0] ∧
    (interpRun 10 closeFd0 state0).toOption.map
      (fun st => (st.1.FDs.get? 0, sysenterPathArgs envExecveatFd0 10 st.1 st.2)) =
      some (some 0, [0]) := by
  refine ⟨by decide, by decide, by decide⟩

/-- C10 (code evaluated at the failing input): for the initial state, where fd 2 is
tracked and bound to `/dev/stderr`, `absAt` resolves `/proc/self/fd/2/rest` to
`/dev/stderr`: the rest of the path is lost and self is not replaced by the
pid. A path with an untracked fd keeps its rest. -/
theorem absAt_drops_rest_after_tracked_fd :
    absAt envResolve AT_FDCWD "/proc/self/fd/2/rest" 10 state0.1 state0.2 = "/dev/stderr" ∧
    "/proc/" ++ itoa 10 ++ "/fd/2/rest" = "/proc/10/fd/2/rest" ∧
    absAt envResolve AT_FDCWD "/proc/self/fd/7/rest" 10 state0.1 state0.2 =
      "/proc/10/fd/7/rest" ∧
    absAt envResolve AT_FDCWD "/proc/self/exe" 10 state0.1 state0.2 = "/proc/10/exe" := by
  refine ⟨by decide, by decide, by decide, by decide⟩

theorem digitChar_isDigit (k : Nat) (hk : k < 10) : (Nat.digitChar k).isDigit = true := by
  interval_cases k <;> decide

theorem digitChar_value (k : Nat) (hk : k < 10) : (Nat.digitChar k).toNat - '0'.toNat = k := by
  interval_cases k <;> decide

theorem toDigitsCore_all_digits (fuel n : Nat) (ds : List Char)
    (hds : ∀ c ∈ ds, c.isDigit = true) :
    ∀ c ∈ Nat.toDigitsCore 10 fuel n ds, c.isDigit = true := by
  induction fuel generalizing n ds with
  | zero => simpa [Nat.toDigitsCore] using hds
  | succ fuel ih =>
    have hd : ∀ c ∈ Nat.digitChar (n % 10) :: ds, c.isDigit = true := by
      intro c hc
      rcases List.mem_cons.1 hc with rfl | hc
      · exact digitChar_isDigit _ (Nat.mod_lt _ (by norm_num))
      · exact hds c hc
    simp only [Nat.toDigitsCore]
    split
    · exact hd
    · exact ih _ _ hd

theorem toDigitsCore_ne_nil (fuel n : Nat) (ds : List Char) :
    Nat.toDigitsCore 10 (fuel + 1) n ds ≠ [] := by
  induction fuel generalizing n ds with
  | zero => simp [Nat.toDigitsCore]
  | succ fuel ih =>
    rw [Nat.toDigitsCore]
    split
    · simp
    · exact ih _ _

theorem toDigitsCore_value (fuel n : Nat) (ds : List Char) (hfuel : n < fuel) :
    (Nat.toDigitsCore 10 fuel n ds).foldl (fun acc c => acc * 10 + (c.toNat - '0'.toNat)) 0 =
      ds.foldl (fun acc c => acc * 10 + (c.toNat - '0'.toNat)) n := by
  induction fuel generalizing n ds with
  | zero => omega
  | succ fuel ih =>
    simp only [Nat.toDigitsCore]
    split
    · rename_i h0
      have hn : n % 10 = n := by omega
      rw [List.foldl_cons, Nat.zero_mul, Nat.zero_add,
        digitChar_value _ (Nat.mod_lt n (by norm_num)), hn]
    · rename_i h0
      rw [ih _ _ (by omega)]
      simp only [List.foldl_cons, digitChar_value _ (Nat.mod_lt n (by norm_num))]
      congr 1
      omega

theorem natDigits_all (n : Nat) : ∀ c ∈ natDigits n, c.isDigit = true :=
  toDigitsCore_all_digits _ _ _ (by simp)

theorem natDigits_ne_nil (n : Nat) : natDigits n ≠ [] := toDigitsCore_ne_nil _ _ _

theorem natDigits_value (n : Nat) : digitsValue (natDigits n) = n := by
  unfold digitsValue natDigits Nat.toDigits
  rw [toDigitsCore_value _ _ _ (by omega)]
  rfl

theorem isDigit_not_space (c : Char) (h : c.isDigit = true) :
    c ≠ '\n' ∧ isSpaceRune c = false ∧ c ≠ '-' ∧ c ≠ '+' := by
  have hv : 48 ≤ c.toNat ∧ c.toNat ≤ 57 := by
    simp only [Char.isDigit, Bool.and_eq_true, decide_eq_true_eq] at h
    have h1 := h.1
    have h2 := h.2
    simp only [UInt32.le_def, Fin.le_def] at h1 h2
    exact ⟨h1, h2⟩
  refine ⟨?_, ?_, ?_, ?_⟩
  · rintro rfl; revert hv; decide
  · simp only [isSpaceRune]
    simp
    omega
  · rintro rfl; revert hv; decide
  · rintro rfl; revert hv; decide




theorem skipSpace_digits (l : List Char) (hall : ∀ c ∈ l, c.isDigit = true) :
    skipSpace l = some l := by
  cases l with
  | nil => rfl
  | cons c cs =>
    have h := isDigit_not_space c (hall c (List.mem_cons_self _ _))
    simp [skipSpace, h.1, h.2.1]

theorem scanInt32_digits (l : List Char) (hall : ∀ c ∈ l, c.isDigit = true) (hne : l ≠ [])
    (hrange : digitsValue l < 2 ^ 31) : scanInt32 l = some (digitsValue l : Int) := by
  unfold scanInt32
  rw [skipSpace_digits l hall]
  cases l with
  | nil => exact absurd rfl hne
  | cons c cs =>
    have h := isDigit_not_space c (hall c (List.mem_cons_self _ _))
    have htw : List.takeWhile Char.isDigit (c :: cs) = c :: cs :=
      List.takeWhile_eq_self_iff.2 hall
    have h1 : ¬ (some c = some '-') := by simpa using h.2.2.1
    have h2 : ¬ (some c = some '+') := by simpa using h.2.2.2
    simp only [List.head?_cons, h1, h2, or_self, if_false, htw, decide_False]
    have hr : (-(2 : Int) ^ 31 ≤ (digitsValue (c :: cs) : Int)) ∧
        ((digitsValue (c :: cs) : Int) < (2 : Int) ^ 31) := by
      constructor
      · have : (0 : Int) ≤ (digitsValue (c :: cs) : Int) := Int.natCast_nonneg _
        omega
      · exact_mod_cast hrange
    rw [if_neg (by simp), if_pos hr]

theorem itoa_natCast (n : Nat) : itoa (n : Int) = String.mk (natDigits n) := by
  unfold itoa
  have : ¬ ((n : Int) < 0) := by omega
  simp [this]

theorem sscanf_fd_itoa (n : Nat) (hn : n < 2 ^ 31) :
    sscanfProcSelfFd ("/proc/self/fd/" ++ itoa (n : Int)) = some (n : Int) := by
  rw [itoa_natCast]
  unfold sscanfProcSelfFd startsWith
  have hd : ("/proc/self/fd/" ++ String.mk (natDigits n)).data =
      "/proc/self/fd/".data ++ natDigits n := by
    simp [String.data_append]
  rw [hd]
  have hp : ("/proc/self/fd/".data).isPrefixOf ("/proc/self/fd/".data ++ natDigits n) = true := by
    simp
  have hdrop : ("/proc/self/fd/".data ++ natDigits n).drop 14 = natDigits n := by
    have : "/proc/self/fd/".data.length = 14 := by decide
    rw [← this, List.drop_left]
  rw [hp, hdrop]
  simp only [if_true]
  have := scanInt32_digits (natDigits n) (natDigits_all n) (natDigits_ne_nil n)
    (by rw [natDigits_value]; exact hn)
  rw [this, natDigits_value]

theorem startsWith_dev_fd (s : String) : startsWith ("/dev/fd/" ++ s) "/dev/fd/" = true := by
  unfold startsWith
  simp [String.data_append]

theorem dropChars_dev_fd (s : String) : dropChars ("/dev/fd/" ++ s) 8 = s := by
  unfold dropChars
  have : "/dev/fd/".data.length = 8 := by decide
  rw [String.data_append, ← this, List.drop_left]

theorem startsWith_proc_self_fd (s : String) :
    startsWith ("/proc/self/fd/" ++ s) "/dev/fd/" = false ∧
    startsWith ("/proc/self/fd/" ++ s) "/proc/self/" = true := by
  unfold startsWith
  constructor
  · rw [String.data_append]
    have : "/proc/self/fd/".data = ['/', 'p', 'r', 'o', 'c', '/', 's', 'e', 'l', 'f', '/', 'f', 'd', '/'] := by decide
    rw [this]
    have : "/dev/fd/".data = ['/', 'd', 'e', 'v', '/', 'f', 'd', '/'] := by decide
    rw [this]
    simp [List.isPrefixOf]
  · rw [String.data_append]
    have : "/proc/self/fd/".data = "/proc/self/".data ++ ['f', 'd', '/'] := by decide
    rw [this]
    simp

theorem replaceFirst_proc_self_fd (s new : String) :
    replaceFirst ("/proc/self/fd/" ++ s) "self" new = "/proc/" ++ new ++ "/fd/" ++ s := by
  unfold replaceFirst
  have h1 : "/proc/self/fd/".data = ['/', 'p', 'r', 'o', 'c', '/', 's', 'e', 'l', 'f', '/', 'f', 'd', '/'] := by decide
  have h2 : "self".data = ['s', 'e', 'l', 'f'] := by decide
  have h3 : "/proc/".data = ['/', 'p', 'r', 'o', 'c', '/'] := by decide
  have h4 : "/fd/".data = ['/', 'f', 'd', '/'] := by decide
  apply String.ext
  simp only [String.data_append, h1, h2, h3, h4]
  simp [replaceFirstChars, List.isPrefixOf]

theorem absAt_proc_self_fd (env : Env) (pid : Int) (pstate : ProcState) (sys : SysState)
    (n : Nat) (hn : n < 2 ^ 31) (path : String)
    (habs : pstate.Abs env path = "/proc/self/fd/" ++ itoa (n : Int) ∨
      pstate.Abs env path = "/dev/fd/" ++ itoa (n : Int)) :
    absAt env AT_FDCWD path pid pstate sys =
      match pstate.FDs.get? (n : Int) with
      | some inode => sys.FS.Path inode
      | none => "/proc/" ++ itoa pid ++ "/fd/" ++ itoa (n : Int) := by
  unfold absAt
  simp only [if_true]
  rcases habs with habs | habs
  · rw [habs]
    simp only [(startsWith_proc_self_fd _).1, (startsWith_proc_self_fd _).2, if_true,
      sscanf_fd_itoa n hn, replaceFirst_proc_self_fd, Bool.false_eq_true, if_false]
  · rw [habs]
    simp only [startsWith_dev_fd, dropChars_dev_fd, (startsWith_proc_self_fd _).2, if_true,
      sscanf_fd_itoa n hn, replaceFirst_proc_self_fd]

/-- C9: for every pid, process state and decimal fd number N in int32 range, with
dirfd = `AT_FDCWD` and an `Abs` that leaves the two already normalised absolute
paths unchanged: `absAt` gives the same result on `/dev/fd/N` and on
`/proc/self/fd/N`, and this result is `FS.Path(fds[N])` when N is in the fd
table and `/proc/<pid>/fd/N` when it is not. -/
theorem absAt_dev_fd_eq_proc_self_fd (env : Env) (pid : Int) (pstate : ProcState)
    (sys : SysState) (n : Nat) (hn : n < 2 ^ 31)
    (hdev : pstate.Abs env ("/dev/fd/" ++ itoa (n : Int)) = "/dev/fd/" ++ itoa (n : Int))
    (hproc : pstate.Abs env ("/proc/self/fd/" ++ itoa (n : Int)) =
      "/proc/self/fd/" ++ itoa (n : Int)) :
    absAt env AT_FDCWD ("/dev/fd/" ++ itoa (n : Int)) pid pstate sys =
      absAt env AT_FDCWD ("/proc/self/fd/" ++ itoa (n : Int)) pid pstate sys ∧
    absAt env AT_FDCWD ("/proc/self/fd/" ++ itoa (n : Int)) pid pstate sys =
      (match pstate.FDs.get? (n : Int) with
       | some inode => sys.FS.Path inode
       | none => "/proc/" ++ itoa pid ++ "/fd/" ++ itoa (n : Int)) := by
  have h1 := absAt_proc_self_fd env pid pstate sys n hn _ (Or.inr hdev)
  have h2 := absAt_proc_self_fd env pid pstate sys n hn _ (Or.inl hproc)
  exact ⟨h1.trans h2.symm, h2⟩

/-- Instance of C9 for N = 2 in the initial state (fd 2 is `/dev/stderr`), with the
results for the tracked fd 2 and the untracked fd 7. -/
theorem absAt_dev_fd_eq_proc_self_fd_witness :
    (absAt envResolve AT_FDCWD ("/dev/fd/" ++ itoa (2 : Nat)) 10 state0.1 state0.2 =
      absAt envResolve AT_FDCWD ("/proc/self/fd/" ++ itoa (2 : Nat)) 10 state0.1 state0.2 ∧
    absAt envResolve AT_FDCWD ("/proc/self/fd/" ++ itoa (2 : Nat)) 10 state0.1 state0.2 =
      (match state0.1.FDs.get? ((2 : Nat) : Int) with
       | some inode => state0.2.FS.Path inode
       | none => "/proc/" ++ itoa 10 ++ "/fd/" ++ itoa (2 : Nat))) ∧
    absAt envResolve AT_FDCWD "/dev/fd/2" 10 state0.1 state0.2 = "/dev/stderr" ∧
    absAt envResolve AT_FDCWD "/dev/fd/7" 10 state0.1 state0.2 = "/proc/10/fd/7" :=
  ⟨absAt_dev_fd_eq_proc_self_fd envResolve 10 state0.1 state0.2 2 (by decide) (by decide)
    (by decide), by decide, by decide⟩

theorem terminate_status {σ : Type} (cbs : Callbacks σ) (st st' : LoopState σ) (pid : Int)
    (ps : Option Nat) (h : terminate cbs st pid ps = .ok st') :
    st'.mainPID = st.mainPID ∧ st'.mainRC = st.mainRC := by
  unfold terminate at h
  split at h
  · cases h
  · split at h
    · split at h
      · cases h
      · cases h; exact ⟨rfl, rfl⟩
    · cases h; exact ⟨rfl, rfl⟩

theorem term_status {σ : Type} (cbs : Callbacks σ) (st st' : LoopState σ) (pid : Int)
    (h : term cbs st pid = .ok st') :
    st'.mainPID = st.mainPID ∧ st'.mainRC = st.mainRC := by
  unfold term at h
  split at h
  · cases h; exact ⟨rfl, rfl⟩
  · split at h
    · cases h
    · rename_i st1 h1
      cases h
      exact terminate_status cbs st st1 pid _ h1

theorem bumpExec_status {σ : Type} (st : LoopState σ) (pid : Int) :
    (bumpExec st pid).mainPID = st.mainPID ∧ (bumpExec st pid).mainRC = st.mainRC := by
  unfold bumpExec
  split <;> exact ⟨rfl, rfl⟩

theorem setExit_status {σ : Type} (st : LoopState σ) (pid tc : Int) :
    (setExit st pid tc).mainPID = st.mainPID ∧ (setExit st pid tc).mainRC = st.mainRC := by
  unfold setExit
  split <;> exact ⟨rfl, rfl⟩

theorem execInstall_status {σ : Type} (cbs : Callbacks σ) (st st' : LoopState σ)
    (oldpid pid : Int) (ps : Option Nat) (h : execInstall cbs st oldpid pid ps = .ok st') :
    st'.mainPID = st.mainPID ∧ st'.mainRC = st.mainRC := by
  unfold execInstall at h
  split at h
  · cases h
  · split at h
    · cases h
    · cases h; exact ⟨rfl, rfl⟩

theorem execEvent_status {σ : Type} (cbs : Callbacks σ) (env : Env) (st st' : LoopState σ)
    (pid : Int) (ps : Nat) (h : execEvent cbs env st pid ps = .ok st') :
    st'.mainPID = st.mainPID ∧ st'.mainRC = st.mainRC := by
  unfold execEvent at h
  split at h
  · cases h
  · rename_i st1 h1
    have e1 := term_status _ _ _ _ h1
    have e0 := bumpExec_status st pid
    split at h
    · cases h
    · split at h
      · cases h
      · split at h
        · cases h
        · rename_i st2 h2
          have e2 := term_status _ _ _ _ h2
          have e3 := execInstall_status _ _ _ _ _ _ h
          simp only at e3
          exact ⟨by rw [e3.1, e2.1, e1.1, e0.1], by rw [e3.2, e2.2, e1.2, e0.2]⟩

theorem vanished_status {σ : Type} (cbs : Callbacks σ) (st st' : LoopState σ) (pid : Int)
    (h : vanished cbs st pid = .ok st') :
    st'.mainPID = st.mainPID ∧ st'.mainRC = st.mainRC := by
  unfold vanished at h
  split at h
  · cases h
  · rename_i st1 h1
    cases h
    exact term_status cbs st st1 pid h1

theorem syscallStop_status {σ : Type} (cbs : Callbacks σ) (env : Env) (st st' : LoopState σ)
    (pid : Int) (ps : Nat) (h : syscallStop cbs env st pid ps = .ok st') :
    st'.mainPID = st.mainPID ∧ st'.mainRC = st.mainRC := by
  unfold syscallStop entryStop exitStop at h
  split at h
  · split at h
    · cases h
    · split at h
      · cases h; exact ⟨rfl, rfl⟩
      · have e := vanished_status _ _ _ _ h; exact e
  · split at h
    · cases h
    · split at h
      · cases h; exact ⟨rfl, rfl⟩
      · have e := vanished_status _ _ _ _ h; exact e

theorem dispatch_status {σ : Type} (cbs : Callbacks σ) (env : Env) (fuel : Nat)
    (st st' : LoopState σ) (pid tc : Int) (ps : Nat)
    (h : dispatch cbs env fuel st pid tc ps = .ok st') :
    st'.mainPID = st.mainPID ∧ st'.mainRC = st.mainRC := by
  induction fuel generalizing st pid tc ps with
  | zero => simp [dispatch] at h
  | succ fuel ih =>
    rw [dispatch] at h
    split at h
    · split at h
      · cases h
      · split at h
        · cases h; exact ⟨rfl, rfl⟩
        · have e := ih _ _ _ _ h; exact e
    · split at h
      · exact execEvent_status _ _ _ _ _ _ h
      · split at h
        · split at h
          · cases h
          · split at h
            · cases h; exact ⟨rfl, rfl⟩
            · exact syscallStop_status _ _ _ _ _ _ h
        · split at h
          · exact syscallStop_status _ _ _ _ _ _ h
          · cases h

theorem afterExit_state {σ : Type} (st : LoopState σ) (pid tc : Int) :
    (afterExit st pid tc).state = preserveStatus { st with pidcmds := st.pidcmds.del pid } pid tc ∧
    (∀ rc fin, afterExit st pid tc = StepResult.done rc fin → rc = fin.mainRC) := by
  unfold afterExit
  split
  · refine ⟨rfl, ?_⟩
    intro rc fin h
    cases h
    rfl
  · refine ⟨rfl, ?_⟩
    intro rc fin h
    cases h

theorem preserveStatus_status {σ : Type} (st : LoopState σ) (pid tc : Int) :
    ((preserveStatus st pid tc).mainPID = if st.mainPID = pid then 0 else st.mainPID) ∧
    ((preserveStatus st pid tc).mainRC = if st.mainPID = pid then tc else st.mainRC) := by
  unfold preserveStatus
  split <;> exact ⟨rfl, rfl⟩

/-- How one iteration of the loop treats `mainPID` and `mainRC`: they change only at
a termination event of `mainPID`, and a return gives `mainRC`. -/
theorem mainLoopStep_status {σ : Type} (cbs : Callbacks σ) (st : LoopState σ) (ev : Event)
    (r : StepResult σ) (h : mainLoopStep cbs st ev = .ok r) :
    (r.state.mainPID = if ev.ok = false ∧ st.mainPID = ev.pid then 0 else st.mainPID) ∧
    (r.state.mainRC = if ev.ok = false ∧ st.mainPID = ev.pid then ev.trapCause else st.mainRC) ∧
    (∀ rc fin, r = StepResult.done rc fin → rc = fin.mainRC) := by
  unfold mainLoopStep at h
  split at h
  · rename_i hok
    split at h
    · cases h
    · rename_i st1 h1
      cases h
      have e1 := term_status _ _ _ _ h1
      have e0 := setExit_status st ev.pid ev.trapCause
      have ha := afterExit_state st1 ev.pid ev.trapCause
      have hp := preserveStatus_status { st1 with pidcmds := st1.pidcmds.del ev.pid } ev.pid
        ev.trapCause
      simp only at hp
      refine ⟨?_, ?_, ha.2⟩
      · rw [ha.1, hp.1, e1.1, e0.1]
        simp only [hok, true_and]
      · rw [ha.1, hp.2, e1.1, e1.2, e0.1, e0.2]
        simp only [hok, true_and]
  · rename_i hok
    have hok' : ¬ (ev.ok = false ∧ st.mainPID = ev.pid) := fun hh => hok hh.1
    simp only [hok', if_false]
    split at h
    · cases h
      exact ⟨rfl, rfl, fun rc fin hh => by cases hh⟩
    · split at h
      · cases h
      · rename_i st1 h1
        cases h
        have e := dispatch_status _ _ _ _ _ _ _ _ h1
        exact ⟨e.1, e.2, fun rc fin hh => by cases hh⟩

theorem mainLoopFrom_append {σ : Type} (cbs : Callbacks σ) (pre rest : List Event)
    (st : LoopState σ) :
    mainLoopFrom cbs st (pre ++ rest) =
      match mainLoopFrom cbs st pre with
      | Outcome.waiting st1 => mainLoopFrom cbs st1 rest
      | o => o := by
  induction pre generalizing st with
  | nil => simp [mainLoopFrom]
  | cons ev evs ih =>
    simp only [List.cons_append, mainLoopFrom]
    split
    · rfl
    · rfl
    · exact ih _

/-- Once the termination of the main PID has been handled (`mainPID` is 0), every
return of the loop gives the preserved status. -/
theorem mainLoopFrom_after_main {σ : Type} (cbs : Callbacks σ) (evs : List Event)
    (st : LoopState σ) (hmain : st.mainPID = 0) (hpid : ∀ e ∈ evs, e.pid ≠ 0) :
    ∀ rc fin, mainLoopFrom cbs st evs = Outcome.returned rc fin → rc = st.mainRC := by
  induction evs generalizing st with
  | nil => intro rc fin h; simp [mainLoopFrom] at h
  | cons ev evs ih =>
    intro rc fin h
    simp only [mainLoopFrom] at h
    have hev : ¬ (ev.ok = false ∧ st.mainPID = ev.pid) := by
      rintro ⟨-, h2⟩
      exact hpid ev (List.mem_cons_self _ _) (by rw [← h2, hmain])
    split at h
    · cases h
    · rename_i rc1 st1 h1
      cases h
      have hs := mainLoopStep_status cbs st ev _ h1
      simp only [hev, if_false] at hs
      rw [hs.2.2 rc fin rfl]
      exact hs.2.1
    · rename_i st1 h1
      have hs := mainLoopStep_status cbs st ev _ h1
      simp only [hev, if_false] at hs
      have := ih st1 (hs.1.trans hmain) (fun e he => hpid e (List.mem_cons_of_mem _ he)) rc fin h
      rw [this]
      exact hs.2.1

/-- Before the termination of the main PID is handled, the loop keeps `mainPID` and
`mainRC`, and a return gives the initial `mainRC`. -/
theorem mainLoopFrom_before_main {σ : Type} (cbs : Callbacks σ) (pre : List Event)
    (st : LoopState σ) (hpre : ∀ e ∈ pre, ¬ (e.ok = false ∧ e.pid = st.mainPID)) :
    (∀ rc fin, mainLoopFrom cbs st pre = Outcome.returned rc fin → rc = st.mainRC) ∧
    (∀ st1, mainLoopFrom cbs st pre = Outcome.waiting st1 →
      st1.mainPID = st.mainPID ∧ st1.mainRC = st.mainRC) := by
  induction pre generalizing st with
  | nil =>
    constructor
    · intro rc fin h; simp [mainLoopFrom] at h
    · intro st1 h
      simp only [mainLoopFrom, Outcome.waiting.injEq] at h
      subst h
      exact ⟨rfl, rfl⟩
  | cons ev evs ih =>
    have hev : ¬ (ev.ok = false ∧ st.mainPID = ev.pid) := by
      rintro ⟨h1, h2⟩
      exact hpre ev (List.mem_cons_self _ _) ⟨h1, h2.symm⟩
    simp only [mainLoopFrom]
    split
    · constructor
      · intro rc fin h; cases h
      · intro st1 h; cases h
    · rename_i rc1 st1 h1
      have hs := mainLoopStep_status cbs st ev _ h1
      simp only [hev, if_false] at hs
      constructor
      · intro rc fin h
        cases h
        rw [hs.2.2 rc1 st1 rfl]
        exact hs.2.1
      · intro st2 h; cases h
    · rename_i st1 h1
      have hs := mainLoopStep_status cbs st ev _ h1
      simp only [hev, if_false] at hs
      have hih := ih st1 (fun e he => by
        rw [show st1.mainPID = st.mainPID from hs.1]
        exact hpre e (List.mem_cons_of_mem _ he))
      constructor
      · intro rc fin h
        rw [hih.1 rc fin h]
        exact hs.2.1
      · intro st2 h
        have := hih.2 st2 h
        exact ⟨this.1.trans hs.1, this.2.trans hs.2.1⟩

theorem setExit_fields {σ : Type} (st : LoopState σ) (pid tc : Int) :
    (setExit st pid tc).terminated = st.terminated ∧ (setExit st pid tc).pstates = st.pstates ∧
    (setExit st pid tc).running = st.running ∧ (setExit st pid tc).mainPID = st.mainPID := by
  unfold setExit
  split <;> exact ⟨rfl, rfl, rfl, rfl⟩

theorem onExit_ok (needOutput : Bool) (execs : GoMap String Bool) (m : MainState)
    (p : ProcState) (sys : SysState) (h : p.CurCmd ≠ none) :
    ∃ m1, onExit needOutput execs m p sys = .ok m1 := by
  unfold onExit ProcState.Record
  cases hc : p.CurCmd with
  | none => exact absurd hc h
  | some c => exact ⟨_, rfl⟩

theorem terminate_mainCallbacks_ok (needOutput : Bool) (execs : GoMap String Bool)
    (st : LoopState MainState) (pid : Int) (ref : Nat) :
    ∃ st1, terminate (mainCallbacks needOutput execs) st pid (some ref) = .ok st1 ∧
      st1.running = st.running ∧ st1.mainPID = st.mainPID := by
  unfold terminate
  simp only
  split
  · rename_i hc
    have hcur : (st.heap.load ref).CurCmd ≠ none := by
      simp only [Heap.load, ne_eq, Option.map_eq_none']
      exact hc.2
    obtain ⟨m1, hm1⟩ := onExit_ok needOutput execs st.user (st.heap.load ref) st.sys hcur
    simp only [mainCallbacks, hm1]
    exact ⟨_, rfl, rfl, rfl⟩
  · exact ⟨_, rfl, rfl, rfl⟩

/-- The termination event of the main PID, handled when no other PID is running,
makes the loop return its status. -/
theorem mainLoopStep_main_exit (needOutput : Bool) (execs : GoMap String Bool)
    (st : LoopState MainState) (s : Int) (env : Env) (ref : Nat)
    (hnt : st.terminated.getD st.mainPID false = false)
    (hps : st.pstates.get? st.mainPID = some ref)
    (hrun : st.running.del st.mainPID = []) :
    ∃ fin, mainLoopStep (mainCallbacks needOutput execs) st (exitEvent st.mainPID s env) =
      .ok (StepResult.done s fin) := by
  have hf := setExit_fields st st.mainPID s
  obtain ⟨st1, ht, hr, hm⟩ := terminate_mainCallbacks_ok needOutput execs
    (setExit st st.mainPID s) st.mainPID ref
  have hterm : term (mainCallbacks needOutput execs) (setExit st st.mainPID s) st.mainPID =
      .ok { st1 with terminated := st1.terminated.set st.mainPID true,
                     running := st1.running.del st.mainPID } := by
    unfold term
    rw [hf.1, hnt, hf.2.1, hps, ht]
    simp
  unfold mainLoopStep
  simp only [exitEvent, if_true, hterm]
  unfold afterExit preserveStatus
  simp only [hm, hf.2.2.2, if_true, hr, hf.2.2.1, hrun, List.length_nil]
  exact ⟨_, rfl⟩

/-- C6 (as stated, refuted): the supervisor of main PID 1 returns 0, not 7, when
PID 1 vanishes at a syscall stop and its child 2 terminates before the
termination event of PID 1 (status 7) is waited for; and it returns nothing
at all (nil dereference in `terminate`) when, after the termination of PID 1
with status 5, a PID without process state is reported as terminated. -/
theorem mainLoop_does_not_always_return_main_status :
    (superviseSample
      [forkEvent 1 2, vanishEvent 1, exitEvent 2 0 envGone, exitEvent 1 7 envGone]).status =
      some 0 ∧
    (superviseSample [forkEvent 1 2, exitEvent 1 5 envGone, exitEvent 99 0 envGone]).status =
      none ∧
    (superviseSample [forkEvent 1 2, exitEvent 1 5 envGone, exitEvent 99 0 envGone]).fault =
      some Fault.nilDeref := by
  refine ⟨by decide, by decide, by decide⟩

/-- C6 (amended): for the supervisor of `main` and every sequence of wait events in
which the first termination event of the original main PID carries status s
and the later events have non-zero PIDs: whenever `mainLoop` returns, it
returns s, whatever the statuses and the order of termination of the other
PIDs, unless it had already returned before that event was handled, in which
case it returned 0; it does return s at that event when the main PID is in
the process table, not yet terminated, and no other PID is running. The exit
code computed from s is s when s >= 0 and 128 + n when s = -n < 0. -/
theorem mainLoop_returns_main_status (needOutput : Bool) (execs : GoMap String Bool)
    (sys : SysState) (mainPID : Int) (cwd : String) (user : MainState)
    (pre post : List Event) (s : Int) (env : Env)
    (hpre : ∀ e ∈ pre, ¬ (e.ok = false ∧ e.pid = mainPID))
    (hpost : ∀ e ∈ post, e.pid ≠ 0) :
    (∀ rc fin,
      mainLoop (mainCallbacks needOutput execs) sys mainPID (some cwd) user
        (pre ++ exitEvent mainPID s env :: post) = Outcome.returned rc fin →
      rc = s ∨
        (rc = 0 ∧ mainLoop (mainCallbacks needOutput execs) sys mainPID (some cwd) user pre =
          Outcome.returned 0 fin)) ∧
    (∀ st ref,
      mainLoop (mainCallbacks needOutput execs) sys mainPID (some cwd) user pre =
        Outcome.waiting st →
      st.terminated.getD mainPID false = false → st.pstates.get? mainPID = some ref →
      st.running.del mainPID = [] →
      (mainLoop (mainCallbacks needOutput execs) sys mainPID (some cwd) user
        (pre ++ exitEvent mainPID s env :: post)).status = some s) ∧
    (0 ≤ s → exitCode s = s) ∧ (∀ n : Int, 0 < n → s = -n → exitCode s = 128 + n) := by
  have hinit := mainLoopFrom_before_main (mainCallbacks needOutput execs) pre
    (initLoopState sys mainPID cwd user) hpre
  refine ⟨?_, ?_, ?_, ?_⟩
  · intro rc fin h
    simp only [mainLoop] at h ⊢
    rw [mainLoopFrom_append] at h
    split at h
    · rename_i st1 hw
      have hst := hinit.2 st1 hw
      simp only [mainLoopFrom] at h
      split at h
      · cases h
      · rename_i rc1 fin1 h1
        cases h
        have hs := mainLoopStep_status _ _ _ _ h1
        have hc : (exitEvent mainPID s env).ok = false ∧
            st1.mainPID = (exitEvent mainPID s env).pid := ⟨rfl, hst.1⟩
        simp only [hc, and_self, if_true] at hs
        left
        rw [hs.2.2 rc fin rfl]
        exact hs.2.1
      · rename_i st2 h1
        have hs := mainLoopStep_status _ _ _ _ h1
        have hc : (exitEvent mainPID s env).ok = false ∧
            st1.mainPID = (exitEvent mainPID s env).pid := ⟨rfl, hst.1⟩
        simp only [hc, and_self, if_true] at hs
        left
        rw [mainLoopFrom_after_main _ post st2 hs.1 hpost rc fin h]
        exact hs.2.1
    · rename_i o hne
      have h0 := hinit.1 rc fin h
      right
      exact ⟨h0, by rw [h, h0]; rfl⟩
  · intro st ref hw hnt hps hrun
    simp only [mainLoop] at hw ⊢
    rw [mainLoopFrom_append, hw]
    have hst := hinit.2 st hw
    have hmp : st.mainPID = mainPID := hst.1
    obtain ⟨fin, hfin⟩ := mainLoopStep_main_exit needOutput execs st s env ref
      (by rw [hmp]; exact hnt) (by rw [hmp]; exact hps) (by rw [hmp]; exact hrun)
    rw [hmp] at hfin
    simp only [mainLoopFrom, hfin, Outcome.status]
  · intro h
    unfold exitCode
    rw [if_neg (by omega)]
  · intro n hn hs
    unfold exitCode
    rw [if_pos (by omega)]
    omega




/-- Instance of C6 (amended): main PID 1 forks PID 2, PID 2 exits, PID 1 is killed by
signal 9; the supervisor returns -9 and exits with 137. -/
theorem mainLoop_returns_main_status_witness :
    (superviseSample [forkEvent 1 2, exitEvent 2 0 envGone] =
      Outcome.waiting ((superviseSample [forkEvent 1 2, exitEvent 2 0 envGone]).stateOr
        (initLoopState NewSysState 1 "/w" mainState0))) ∧
    (superviseSample ([forkEvent 1 2, exitEvent 2 0 envGone] ++
      exitEvent 1 (-9) envGone :: [exitEvent 3 0 envGone])).status = some (-9) ∧
    exitCode (-9) = 128 + 9 :=
  ⟨by rfl,
   (mainLoop_returns_main_status false [] NewSysState 1 "/w" mainState0
      [forkEvent 1 2, exitEvent 2 0 envGone] [exitEvent 3 0 envGone] (-9) envGone
      (by decide) (by decide)).2.1
      ((superviseSample [forkEvent 1 2, exitEvent 2 0 envGone]).stateOr
        (initLoopState NewSysState 1 "/w" mainState0)) 0
      (by rfl) (by decide) (by decide) (by decide),
   (mainLoop_returns_main_status false [] NewSysState 1 "/w" mainState0
      [forkEvent 1 2, exitEvent 2 0 envGone] [exitEvent 3 0 envGone] (-9) envGone
      (by decide) (by decide)).2.2.2 9 (by decide) (by decide)⟩

theorem GoMap.length_del_le {κ ν : Type} [DecidableEq κ] (m : GoMap κ ν) (k : κ) :
    (GoMap.del m k).length ≤ m.length := by
  induction m with
  | nil => simp [GoMap.del]
  | cons a m ih =>
    rcases a with ⟨a, v⟩
    simp only [GoMap.del]
    split
    · simp only [List.length_cons]; omega
    · simp only [List.length_cons]; omega

theorem GoMap.length_del_lt {κ ν : Type} [DecidableEq κ] (m : GoMap κ ν) (k : κ) (v : ν)
    (h : m.get? k = some v) : (GoMap.del m k).length < m.length := by
  induction m with
  | nil => simp [GoMap.get?] at h
  | cons a m ih =>
    rcases a with ⟨a, w⟩
    simp only [GoMap.get?] at h
    simp only [GoMap.del]
    split at h
    · rename_i hk
      simp only [hk, if_true, List.length_cons]
      have := GoMap.length_del_le m k
      omega
    · rename_i hk
      simp only [hk, if_false, List.length_cons]
      have := ih h
      omega

theorem sysenter_fault (env : Env) (pid : Int) (p : ProcState) (sys : SysState) (f : Fault)
    (h : sysenter env pid p sys = .error f) : f = Fault.fatal := by
  unfold sysenter at h
  split at h
  · cases h
  · dsimp only at h
    split at h
    · cases h
    split at h
    · cases h
    split at h
    · split at h
      · split at h
        · cases h
        · cases h; rfl
      · cases h
    split at h
    · split at h
      · split at h
        · cases h
        · cases h; rfl
      · cases h
    · cases h

theorem sysexitSwitch_fault (env : Env) (pid : Int) (p : ProcState) (sys : SysState)
    (regs : Regs) (ret32 : Int) (f : Fault)
    (h : sysexitSwitch env pid p sys regs ret32 = .error f) : f = Fault.fatal := by
  unfold sysexitSwitch at h
  split at h
  · unfold sysexitOpen at h
    split at h
    · rename_i f1 h1
      cases h
      unfold openRecordIO at h1
      split at h1
      · cases h1
      · split at h1
        · split at h1
          · cases h1; rfl
          · cases h1
          · cases h1
        · cases h1
    · cases h
  all_goals first
    | cases h
    | (unfold sysexitPipe at h
       split at h
       · cases h; rfl
       · cases h)

theorem sysexit_fault (env : Env) (pid : Int) (p : ProcState) (sys : SysState) (f : Fault)
    (h : sysexit env pid p sys = .error f) : f = Fault.fatal := by
  unfold sysexit at h
  split at h
  · cases h
  · split at h
    · cases h
    · split at h
      · rename_i f1 h1
        cases h
        exact sysexitSwitch_fault _ _ _ _ _ _ _ h1
      · cases h

/-- The faults of the callbacks of `main` are nil dereferences. -/
theorem mainCallbacks_fault (needOutput : Bool) (execs : GoMap String Bool) (m : MainState)
    (p : ProcState) (sys : SysState) (f : Fault) :
    ((mainCallbacks needOutput execs).onExit m p sys = .error f → f = Fault.nilDeref) ∧
    ((mainCallbacks needOutput execs).onExec m p sys = .error f → f = Fault.nilDeref) := by
  constructor
  · intro h
    simp only [mainCallbacks, onExit] at h
    split at h
    · cases h
    · cases h; rfl
  · intro h
    simp only [mainCallbacks, onExec] at h
    split at h
    · cases h; rfl
    · cases h

theorem terminate_fuel {σ : Type} (cbs : Callbacks σ)
    (hcb : ∀ u p s, cbs.onExit u p s ≠ .error Fault.outOfFuel)
    (st : LoopState σ) (pid : Int) (ps : Option Nat) :
    terminate cbs st pid ps ≠ .error Fault.outOfFuel := by
  intro h
  unfold terminate at h
  split at h
  · cases h
  · split at h
    · split at h
      · rename_i f hf
        cases h
        exact hcb _ _ _ hf
      · cases h
    · cases h

theorem term_fuel {σ : Type} (cbs : Callbacks σ)
    (hcb : ∀ u p s, cbs.onExit u p s ≠ .error Fault.outOfFuel)
    (st : LoopState σ) (pid : Int) : term cbs st pid ≠ .error Fault.outOfFuel := by
  intro h
  unfold term at h
  split at h
  · cases h
  · split at h
    · rename_i f hf
      cases h
      exact terminate_fuel cbs hcb _ _ _ hf
    · cases h

theorem execEvent_fuel {σ : Type} (cbs : Callbacks σ)
    (hcb : ∀ u p s, cbs.onExit u p s ≠ .error Fault.outOfFuel)
    (hce : ∀ u p s, cbs.onExec u p s ≠ .error Fault.outOfFuel)
    (env : Env) (st : LoopState σ) (pid : Int) (ps : Nat) :
    execEvent cbs env st pid ps ≠ .error Fault.outOfFuel := by
  intro h
  unfold execEvent at h
  split at h
  · rename_i f hf
    cases h
    exact term_fuel cbs hcb _ _ hf
  · split at h
    · cases h
    · split at h
      · cases h
      · split at h
        · rename_i f hf
          cases h
          exact term_fuel cbs hcb _ _ hf
        · unfold execInstall at h
          split at h
          · cases h
          · split at h
            · rename_i f hf
              cases h
              exact hce _ _ _ hf
            · cases h

theorem vanished_fuel {σ : Type} (cbs : Callbacks σ)
    (hcb : ∀ u p s, cbs.onExit u p s ≠ .error Fault.outOfFuel)
    (st : LoopState σ) (pid : Int) : vanished cbs st pid ≠ .error Fault.outOfFuel := by
  intro h
  unfold vanished at h
  split at h
  · rename_i f hf
    cases h
    exact term_fuel cbs hcb _ _ hf
  · cases h

theorem syscallStop_fuel {σ : Type} (cbs : Callbacks σ)
    (hcb : ∀ u p s, cbs.onExit u p s ≠ .error Fault.outOfFuel)
    (env : Env) (st : LoopState σ) (pid : Int) (ps : Nat) :
    syscallStop cbs env st pid ps ≠ .error Fault.outOfFuel := by
  intro h
  unfold syscallStop entryStop exitStop at h
  split at h
  · split at h
    · rename_i f hf
      cases h
      exact absurd (sysenter_fault _ _ _ _ _ hf) (by decide)
    · split at h
      · cases h
      · exact vanished_fuel cbs hcb _ _ h
  · split at h
    · rename_i f hf
      cases h
      exact absurd (sysexit_fault _ _ _ _ _ hf) (by decide)
    · split at h
      · cases h
      · exact vanished_fuel cbs hcb _ _ h

/-- The bound on the jumps of `dispatch` is never used up when it exceeds the number
of suspended PIDs. -/
theorem dispatch_fuel {σ : Type} (cbs : Callbacks σ)
    (hcb : ∀ u p s, cbs.onExit u p s ≠ .error Fault.outOfFuel)
    (hce : ∀ u p s, cbs.onExec u p s ≠ .error Fault.outOfFuel)
    (env : Env) (fuel : Nat) (st : LoopState σ) (pid tc : Int) (ps : Nat)
    (hfuel : st.suspended.length < fuel) :
    dispatch cbs env fuel st pid tc ps ≠ .error Fault.outOfFuel := by
  induction fuel generalizing st pid tc ps with
  | zero => omega
  | succ fuel ih =>
    intro h
    rw [dispatch] at h
    split at h
    · split at h
      · cases h
      · split at h
        · cases h
        · rename_i unew hmsg _ ns hs
          refine ih _ _ _ _ ?_ h
          have hget : st.suspended.get? (toInt64 unew) = some ns := hs
          have := GoMap.length_del_lt st.suspended (toInt64 unew) ns hget
          show (GoMap.del st.suspended (toInt64 unew)).length < fuel
          omega
    · split at h
      · exact execEvent_fuel cbs hcb hce _ _ _ _ h
      · split at h
        · split at h
          · cases h
          · split at h
            · cases h
            · exact syscallStop_fuel cbs hcb _ _ _ _ h
        · split at h
          · exact syscallStop_fuel cbs hcb _ _ _ _ h
          · cases h

/-- The supervisor of `main` never ends a run on the recursion bound of the model. -/
theorem mainLoopFrom_fuel (needOutput : Bool) (execs : GoMap String Bool)
    (evs : List Event) (st : LoopState MainState) :
    mainLoopFrom (mainCallbacks needOutput execs) st evs ≠ Outcome.faulted Fault.outOfFuel := by
  have hcb : ∀ u p s, (mainCallbacks needOutput execs).onExit u p s ≠ .error Fault.outOfFuel :=
    fun u p s h => absurd ((mainCallbacks_fault needOutput execs u p s _).1 h) (by decide)
  have hce : ∀ u p s, (mainCallbacks needOutput execs).onExec u p s ≠ .error Fault.outOfFuel :=
    fun u p s h => absurd ((mainCallbacks_fault needOutput execs u p s _).2 h) (by decide)
  induction evs generalizing st with
  | nil => simp [mainLoopFrom]
  | cons ev evs ih =>
    intro h
    simp only [mainLoopFrom] at h
    split at h
    · rename_i f hf
      cases h
      unfold mainLoopStep at hf
      split at hf
      · split at hf
        · rename_i f1 h1
          cases hf
          exact term_fuel _ hcb _ _ h1
        · cases hf
      · split at hf
        · cases hf
        · split at hf
          · rename_i f1 h1
            cases hf
            exact dispatch_fuel _ hcb hce _ _ _ _ _ _ (Nat.lt_succ_self _) h1
          · cases hf
    · cases h
    · exact ih _ h

/-- What holds of `absAt` on the other `/proc/self/...` forms: when the resolved path
is `/proc/self/` followed by rest and the scan of `/proc/self/fd/%d` fails or
gives an fd that is not in the fd table, self is replaced by the decimal pid
and the rest is preserved. -/
theorem absAt_proc_self_other (env : Env) (pid : Int) (pstate : ProcState) (sys : SysState)
    (path rest : String) (habs : pstate.Abs env path = "/proc/self/" ++ rest)
    (hscan : ∀ fd, sscanfProcSelfFd ("/proc/self/" ++ rest) = some fd →
      pstate.FDs.get? fd = none) :
    absAt env AT_FDCWD path pid pstate sys = "/proc/" ++ itoa pid ++ "/" ++ rest := by
  have h1 : "/proc/self/".data =
      ['/', 'p', 'r', 'o', 'c', '/', 's', 'e', 'l', 'f', '/'] := by decide
  have h2 : "self".data = ['s', 'e', 'l', 'f'] := by decide
  have h3 : "/proc/".data = ['/', 'p', 'r', 'o', 'c', '/'] := by decide
  have h4 : "/dev/fd/".data = ['/', 'd', 'e', 'v', '/', 'f', 'd', '/'] := by decide
  have h5 : "/".data = ['/'] := by decide
  have hdev : startsWith ("/proc/self/" ++ rest) "/dev/fd/" = false := by
    unfold startsWith
    rw [String.data_append, h1, h4]
    simp [List.isPrefixOf]
  have hself : startsWith ("/proc/self/" ++ rest) "/proc/self/" = true := by
    unfold startsWith
    rw [String.data_append]
    simp
  have hrep : replaceFirst ("/proc/self/" ++ rest) "self" (itoa pid) =
      "/proc/" ++ itoa pid ++ "/" ++ rest := by
    unfold replaceFirst
    apply String.ext
    simp only [String.data_append, h1, h2, h3, h5]
    simp [replaceFirstChars, List.isPrefixOf]
  unfold absAt
  simp only [if_true, habs, hdev, hself, Bool.false_eq_true, if_false]
  cases hs : sscanfProcSelfFd ("/proc/self/" ++ rest) with
  | none => exact hrep
  | some fd =>
    simp only [hscan fd hs]
    exact hrep

/-- What holds of case `SYS_PIPE`: at the successful exit of `pipe`, both descriptors
read from the tracee are bound to the inode that `FS.Pipe` allocates, which
is `seq + 1`. -/
theorem sysexit_pipe_binds_both (env : Env) (pid : Int) (pstate : ProcState) (sys : SysState)
    (regs : Regs) (buf : List Nat) (hregs : env.getRegs pid = some regs)
    (hret : ¬ toInt64 regs.Rax < 0) (hsys : pstate.Syscall = SYS_PIPE)
    (hbuf : env.peekData pid regs.Rdi = some buf) :
    ∃ p s, sysexit env pid pstate sys = .ok (true, p, s) ∧
      p.FDs.get? (regInt32 (leUint32 buf 0)) = some (sys.FS.seq + 1) ∧
      p.FDs.get? (regInt32 (leUint32 buf 4)) = some (sys.FS.seq + 1) ∧
      s.FS.seq = sys.FS.seq + 1 := by
  have hf : sysexitFcntl pstate regs = (pstate, regs) := by
    unfold sysexitFcntl
    rw [if_neg (by rw [hsys]; decide)]
  have hc : exitCase pstate.Syscall = ExitCase.pipe := by rw [hsys]; decide
  unfold sysexit
  simp only [hregs, hret, if_false, hf]
  unfold sysexitSwitch
  simp only [hc, sysexitPipe, hbuf]
  refine ⟨_, _, rfl, ?_, ?_, ?_⟩
  · simp only [GoMap.get?_set, FS.Pipe]
    split <;> simp
  · simp only [GoMap.get?_set, FS.Pipe]
    simp
  · simp [FS.Pipe]

theorem sysexit_dup_eq (env : Env) (pid : Int) (pstate : ProcState) (sys : SysState)
    (regs : Regs) (nr : Int) (hregs : env.getRegs pid = some regs)
    (hret : ¬ toInt64 regs.Rax < 0) (hsys : pstate.Syscall = nr)
    (hnr : nr = SYS_DUP ∨ nr = SYS_DUP3) :
    sysexit env pid pstate sys =
      .ok (true, sysexitDup pstate regs (toInt32 (toInt64 regs.Rax)), sys) := by
  have hf : sysexitFcntl pstate regs = (pstate, regs) := by
    unfold sysexitFcntl
    rw [if_neg]
    rw [hsys]
    rcases hnr with h | h <;> rw [h] <;> decide
  have hc : exitCase pstate.Syscall = ExitCase.dup := by
    rw [hsys]
    rcases hnr with h | h <;> rw [h] <;> decide
  unfold sysexit
  simp only [hregs, hret, if_false, hf]
  unfold sysexitSwitch
  simp only [hc]

theorem sysexit_fcntl_dupfd_eq (env : Env) (pid : Int) (pstate : ProcState) (sys : SysState)
    (regs : Regs) (hregs : env.getRegs pid = some regs)
    (hret : ¬ toInt64 regs.Rax < 0) (hsys : pstate.Syscall = SYS_FCNTL)
    (hcmd : regs.Rsi = F_DUPFD) :
    sysexit env pid pstate sys =
      .ok (true, sysexitDup { pstate with Syscall := SYS_DUP } regs
        (toInt32 (toInt64 regs.Rax)), sys) := by
  have hf : sysexitFcntl pstate regs = ({ pstate with Syscall := SYS_DUP }, regs) := by
    unfold sysexitFcntl
    rw [if_pos hsys, if_pos hcmd]
  have hc : exitCase SYS_DUP = ExitCase.dup := by decide
  unfold sysexit
  simp only [hregs, hret, if_false, hf]
  unfold sysexitSwitch
  simp only [hc]

theorem sysexit_fcntl_dupfd_cloexec_eq (env : Env) (pid : Int) (pstate : ProcState)
    (sys : SysState) (regs : Regs) (hregs : env.getRegs pid = some regs)
    (hret : ¬ toInt64 regs.Rax < 0) (hsys : pstate.Syscall = SYS_FCNTL)
    (hcmd : regs.Rsi = F_DUPFD_CLOEXEC) :
    sysexit env pid pstate sys =
      .ok (true, sysexitDup { pstate with Syscall := SYS_DUP3 } { regs with Rdx := O_CLOEXEC }
        (toInt32 (toInt64 regs.Rax)), sys) := by
  have hf : sysexitFcntl pstate regs =
      ({ pstate with Syscall := SYS_DUP3 }, { regs with Rdx := O_CLOEXEC }) := by
    unfold sysexitFcntl
    rw [if_pos hsys, if_neg (by rw [hcmd]; decide), if_pos hcmd]
  have hc : exitCase SYS_DUP3 = ExitCase.dup := by decide
  unfold sysexit
  simp only [hregs, hret, if_false, hf]
  unfold sysexitSwitch
  simp only [hc]




/-- C11: for every process state, fd and non-negative return value r, `sysexit` of a
successful `fcntl(fd, F_DUPFD, _)` returning r gives exactly the result
(process state and registries) of `sysexit` of a successful `dup(fd)`
returning r from the same state, and `sysexit` of `fcntl(fd, F_DUPFD_CLOEXEC, _)`
returning r gives exactly the result of `dup3(fd, r, flags)` with `O_CLOEXEC` in
the flags; in both cases the resulting state has `fds[r] = fds[fd]`. -/
theorem fcntl_dupfd_equals_dup (envF envD : Env) (pid : Int) (pstate : ProcState)
    (sys : SysState) (rF rD : Regs)
    (hF : envF.getRegs pid = some rF) (hD : envD.getRegs pid = some rD)
    (hret : ¬ toInt64 rF.Rax < 0) (hrax : rD.Rax = rF.Rax) (hrdi : rD.Rdi = rF.Rdi) :
    (rF.Rsi = F_DUPFD →
      sysexit envF pid { pstate with Syscall := SYS_FCNTL } sys =
        sysexit envD pid { pstate with Syscall := SYS_DUP } sys) ∧
    (rF.Rsi = F_DUPFD_CLOEXEC → rD.Rdx &&& O_CLOEXEC ≠ 0 →
      sysexit envF pid { pstate with Syscall := SYS_FCNTL } sys =
        sysexit envD pid { pstate with Syscall := SYS_DUP3 } sys) ∧
    (rF.Rsi = F_DUPFD ∨ rF.Rsi = F_DUPFD_CLOEXEC →
      ∃ p, sysexit envF pid { pstate with Syscall := SYS_FCNTL } sys = .ok (true, p, sys) ∧
        p.FDs.get? (toInt32 (toInt64 rF.Rax)) = some (pstate.FDs.getD (regInt32 rF.Rdi) 0) ∧
        p.FDs.getD (toInt32 (toInt64 rF.Rax)) 0 = p.FDs.getD (regInt32 rF.Rdi) 0) := by
  have hretD : ¬ toInt64 rD.Rax < 0 := by rw [hrax]; exact hret
  have hfds : ∀ (q : ProcState) (regs : Regs), q.FDs = pstate.FDs →
      (sysexitDup q regs (toInt32 (toInt64 rF.Rax))).FDs.get? (toInt32 (toInt64 rF.Rax)) =
        some (pstate.FDs.getD (regInt32 regs.Rdi) 0) ∧
      (sysexitDup q regs (toInt32 (toInt64 rF.Rax))).FDs.getD (toInt32 (toInt64 rF.Rax)) 0 =
        (sysexitDup q regs (toInt32 (toInt64 rF.Rax))).FDs.getD (regInt32 regs.Rdi) 0 := by
    intro q regs hq
    simp only [sysexitDup, GoMap.getD, GoMap.get?_set, hq, if_true, Option.getD_some]
    refine ⟨trivial, ?_⟩
    split
    · rfl
    · rfl
  refine ⟨?_, ?_, ?_⟩
  · intro hcmd
    rw [sysexit_fcntl_dupfd_eq envF pid _ sys rF hF hret rfl hcmd,
      sysexit_dup_eq envD pid _ sys rD SYS_DUP hD hretD rfl (Or.inl rfl), hrax]
    simp only [sysexitDup, hrdi]
    have h1 : ¬ (SYS_DUP = SYS_DUP3 ∧ rF.Rdx &&& O_CLOEXEC ≠ 0) := fun h => absurd h.1 (by decide)
    have h2 : ¬ (SYS_DUP = SYS_DUP3 ∧ rD.Rdx &&& O_CLOEXEC ≠ 0) := fun h => absurd h.1 (by decide)
    simp only [h1, h2, if_false]
  · intro hcmd hcx
    rw [sysexit_fcntl_dupfd_cloexec_eq envF pid _ sys rF hF hret rfl hcmd,
      sysexit_dup_eq envD pid _ sys rD SYS_DUP3 hD hretD rfl (Or.inr rfl), hrax]
    simp only [sysexitDup, hrdi]
    have h3 : O_CLOEXEC &&& O_CLOEXEC ≠ 0 := by decide
    have h4 : O_CLOEXEC ≠ 0 := by decide
    simp [h3, h4, hcx]
  · rintro (hcmd | hcmd)
    · rw [sysexit_fcntl_dupfd_eq envF pid _ sys rF hF hret rfl hcmd]
      exact ⟨_, rfl, hfds _ rF rfl⟩
    · rw [sysexit_fcntl_dupfd_cloexec_eq envF pid _ sys rF hF hret rfl hcmd]
      exact ⟨_, rfl, hfds _ { rF with Rdx := O_CLOEXEC } rfl⟩

/-- Instance of C11 in the initial state: `fcntl(1, F_DUPFD, 0)` against `dup(1)` and
`fcntl(1, F_DUPFD_CLOEXEC, 0)` against `dup3(1, 5, O_CLOEXEC)`, all returning 5. -/
theorem fcntl_dupfd_equals_dup_witness :
    sysexit envFcntlDupfd 10 { state0.1 with Syscall := SYS_FCNTL } state0.2 =
      sysexit envDup 10 { state0.1 with Syscall := SYS_DUP } state0.2 ∧
    sysexit envFcntlDupfdCloexec 10 { state0.1 with Syscall := SYS_FCNTL } state0.2 =
      sysexit envDup3Cloexec 10 { state0.1 with Syscall := SYS_DUP3 } state0.2 ∧
    (sysexit envFcntlDupfdCloexec 10 { state0.1 with Syscall := SYS_FCNTL } state0.2).toOption.map
      (fun r => (r.2.1.FDs.get? 5, r.2.1.FDCX.get? 5, r.2.1.Syscall)) =
      some (some 2, some true, SYS_DUP3) :=
  ⟨(fcntl_dupfd_equals_dup envFcntlDupfd envDup 10 state0.1 state0.2 (exitRegs 5 1 F_DUPFD 0)
      (exitRegs 5 1 0 0) (by rfl) (by rfl) (by decide) (by rfl) (by rfl)).1 (by rfl),
   (fcntl_dupfd_equals_dup envFcntlDupfdCloexec envDup3Cloexec 10 state0.1 state0.2
      (exitRegs 5 1 F_DUPFD_CLOEXEC 0) (exitRegs 5 1 5 O_CLOEXEC) (by rfl) (by rfl) (by decide)
      (by rfl) (by rfl)).2.1 (by rfl) (by decide),
   by decide⟩

theorem sysenter_not_undelete (env : Env) (pid : Int) (pstate : ProcState) (sys : SysState)
    (hund : env.flUndelete = false) (b : Bool) (p : ProcState) (w : Option Regs)
    (h : sysenter env pid pstate sys = .ok (b, p, w)) : w = none := by
  unfold sysenter at h
  split at h
  · cases h; rfl
  · dsimp only at h
    split at h
    · cases h; rfl
    split at h
    · cases h; rfl
    split at h
    · rw [hund] at h
      simp only [Bool.false_eq_true, if_false] at h
      cases h; rfl
    split at h
    · rw [hund] at h
      simp only [Bool.false_eq_true, if_false] at h
      cases h; rfl
    · cases h; rfl

/-- C14: in undelete mode, for every register snapshot, `sysenter` on `unlink` or
`rmdir` writes back the fetched registers with only `Orig_rax` replaced by
`access` and Rsi by `F_OK` (Rdi, the path pointer, is kept), and `sysenter` on
`unlinkat` writes back the fetched registers with only `Orig_rax` replaced by
`faccessat`, Rdx by `F_OK` and R10 by the old Rdx (Rdi and Rsi are kept); the
supervisor exits when the write fails. Without undelete mode `sysenter` never
writes registers, whatever the syscall. -/
theorem sysenter_undelete_rewrites (env : Env) (pid : Int) (pstate : ProcState)
    (sys : SysState) (regs : Regs) (hregs : env.getRegs pid = some regs) :
    (env.flUndelete = true →
      toInt64 regs.Orig_rax = SYS_UNLINK ∨ toInt64 regs.Orig_rax = SYS_RMDIR →
      sysenter env pid pstate sys =
        if env.setRegs pid { regs with Orig_rax := SYS_ACCESS.toNat, Rsi := F_OK } then
          .ok (true, { pstate with Syscall := toInt64 regs.Orig_rax },
            some { regs with Orig_rax := SYS_ACCESS.toNat, Rsi := F_OK })
        else .error Fault.fatal) ∧
    (env.flUndelete = true → toInt64 regs.Orig_rax = SYS_UNLINKAT →
      sysenter env pid pstate sys =
        if env.setRegs pid
            { regs with Orig_rax := SYS_FACCESSAT.toNat, Rdx := F_OK, R10 := regs.Rdx } then
          .ok (true, { pstate with Syscall := toInt64 regs.Orig_rax },
            some { regs with Orig_rax := SYS_FACCESSAT.toNat, Rdx := F_OK, R10 := regs.Rdx })
        else .error Fault.fatal) ∧
    (env.flUndelete = false →
      ∀ b p w, sysenter env pid pstate sys = .ok (b, p, w) → w = none) := by
  refine ⟨?_, ?_, ?_⟩
  · intro hund hnr
    unfold sysenter
    rw [hregs]
    dsimp only
    rw [if_neg (by rcases hnr with h | h <;> rw [h] <;> decide),
      if_neg (by rcases hnr with h | h <;> rw [h] <;> decide), if_pos hnr, if_pos hund]
  · intro hund hnr
    unfold sysenter
    rw [hregs]
    dsimp only
    rw [if_neg (by rw [hnr]; decide), if_neg (by rw [hnr]; decide),
      if_neg (by rw [hnr]; decide), if_pos hnr, if_pos hund]
  · intro hund b p w h
    exact sysenter_not_undelete env pid pstate sys hund b p w h

/-- Instance of C14: `unlink` and `unlinkat` entries in undelete mode, and an `unlink`
entry without undelete mode. -/
theorem sysenter_undelete_rewrites_witness :
    sysenter (envUndelete 87 100 7 9) 10 state0.1 state0.2 =
      .ok (true, { state0.1 with Syscall := 87 },
        some { entryRegs 87 100 7 9 with Orig_rax := 21, Rsi := 0 }) ∧
    sysenter (envUndelete 263 5 100 512) 10 state0.1 state0.2 =
      .ok (true, { state0.1 with Syscall := 263 },
        some { entryRegs 263 5 100 512 with Orig_rax := 269, Rdx := 0, R10 := 512 }) ∧
    (∀ b p w, sysenter (sampleEnv (some (entryRegs 87 100 7 9)) [] []) 10 state0.1 state0.2 =
      .ok (b, p, w) → w = none) :=
  ⟨(sysenter_undelete_rewrites (envUndelete 87 100 7 9) 10 state0.1 state0.2
      (entryRegs 87 100 7 9) (by rfl)).1 (by rfl) (Or.inl (by decide)),
   (sysenter_undelete_rewrites (envUndelete 263 5 100 512) 10 state0.1 state0.2
      (entryRegs 263 5 100 512) (by rfl)).2.1 (by rfl) (by decide),
   (sysenter_undelete_rewrites (sampleEnv (some (entryRegs 87 100 7 9)) [] []) 10 state0.1
      state0.2 (entryRegs 87 100 7 9) (by rfl)).2.2 (by rfl)⟩

theorem sysexit_open_eq (env : Env) (pid : Int) (pstate : ProcState) (sys : SysState)
    (regs : Regs) (hregs : env.getRegs pid = some regs) (hret : ¬ toInt64 regs.Rax < 0)
    (hsys : pstate.Syscall = SYS_OPEN ∨ pstate.Syscall = SYS_OPENAT) :
    sysexit env pid pstate sys =
      match openRecordIO env
          (openInstall pstate (openFlags pstate regs) (toInt32 (toInt64 regs.Rax))
            (sys.FS.Inode (openPath env pid pstate sys regs (toInt32 (toInt64 regs.Rax)))).2)
          (openPath env pid pstate sys regs (toInt32 (toInt64 regs.Rax)))
          (openWrite (openFlags pstate regs))
          (sys.FS.Inode (openPath env pid pstate sys regs (toInt32 (toInt64 regs.Rax)))).2 with
      | .error f => .error f
      | .ok p =>
        .ok (true, p, { sys with
          FS := (sys.FS.Inode (openPath env pid pstate sys regs
            (toInt32 (toInt64 regs.Rax)))).1 }) := by
  have hf : sysexitFcntl pstate regs = (pstate, regs) := by
    unfold sysexitFcntl
    rw [if_neg]
    rcases hsys with h | h <;> rw [h] <;> decide
  have hc : exitCase pstate.Syscall = ExitCase.openCase := by
    rcases hsys with h | h <;> rw [h] <;> decide
  unfold sysexit
  simp only [hregs, hret, if_false, hf]
  unfold sysexitSwitch
  simp only [hc]
  unfold sysexitOpen
  cases openRecordIO env
      (openInstall pstate (openFlags pstate regs) (toInt32 (toInt64 regs.Rax))
        (sys.FS.Inode (openPath env pid pstate sys regs (toInt32 (toInt64 regs.Rax)))).2)
      (openPath env pid pstate sys regs (toInt32 (toInt64 regs.Rax)))
      (openWrite (openFlags pstate regs))
      (sys.FS.Inode (openPath env pid pstate sys regs (toInt32 (toInt64 regs.Rax)))).2 with
  | error f => rfl
  | ok q => rfl

theorem IOs.MapAdd_W (io : IOs) (i : Nat) :
    (io.MapAdd W i).MapR = io.MapR ∧ ∀ j, j ∈ (io.MapAdd W i).MapW ↔ j = i ∨ j ∈ io.MapW := by
  unfold IOs.MapAdd
  rw [if_pos rfl]
  exact ⟨rfl, fun j => IntSet.mem_Add _ _ _⟩

theorem IOs.MapAdd_R (io : IOs) (i : Nat) :
    (io.MapAdd R i).MapW = io.MapW ∧ ∀ j, j ∈ (io.MapAdd R i).MapR ↔ j = i ∨ j ∈ io.MapR := by
  unfold IOs.MapAdd
  rw [if_neg (by decide)]
  exact ⟨rfl, fun j => IntSet.mem_Add _ _ _⟩

/-- C16 (as stated, refuted): at the successful exit of a read-only open of
`/tmp/gone`, a path that is not under the pipe prefix, with an inode that is
not in W, the supervisor exits when `os.Lstat` fails: no state results in which
`fds[3]` is the inode and the inode is in R. -/
theorem open_exit_aborts_when_lstat_fails :
    sysexit envOpenLstatFails 10 { state0.1 with Syscall := SYS_OPEN } state0.2 =
      .error Fault.fatal ∧
    (sysexit (sampleEnv (some (exitRegs 3 100 0 0)) [(100, "/tmp/gone")] []) 10
      { state0.1 with Syscall := SYS_OPEN } state0.2).toOption.map
      (fun r => (r.2.1.FDs.get? 3, r.2.1.IOs.MapR, r.2.1.IOs.MapW)) = some (some 4, [4], []) := by
  refine ⟨by rfl, by decide⟩

/-- C16 (amended): for every successful open/openat exit with returned fd r, resolved
path p, flags f and i = `FS.Inode(p)`: if i is already in W, or p is not under
`/dev/fptrace/pipe/` and lstat reports a directory, `sysexit` sets `fds[r] = i`
(and the cloexec bit) and leaves R and W unchanged; if i is not in W, p is not
under the pipe prefix and lstat fails, the supervisor exits; otherwise
`sysexit` sets `fds[r] = i` and adds i to W (R unchanged) when f contains
`O_WRONLY` or `O_RDWR`, and to R (W unchanged) when it contains neither. -/
theorem sysexit_open_records (env : Env) (pid : Int) (pstate : ProcState) (sys : SysState)
    (regs : Regs) (r : Int) (f : Nat) (p : String) (i : Nat)
    (hregs : env.getRegs pid = some regs) (hret : ¬ toInt64 regs.Rax < 0)
    (hsys : pstate.Syscall = SYS_OPEN ∨ pstate.Syscall = SYS_OPENAT)
    (hr : r = toInt32 (toInt64 regs.Rax)) (hf : f = openFlags pstate regs)
    (hp : p = openPath env pid pstate sys regs r) (hi : i = (sys.FS.Inode p).2) :
    (i ∈ pstate.IOs.MapW ∨ (startsWith p "/dev/fptrace/pipe/" = false ∧ env.lstat p = some true) →
      sysexit env pid pstate sys =
        .ok (true, openInstall pstate f r i, { sys with FS := (sys.FS.Inode p).1 })) ∧
    (i ∉ pstate.IOs.MapW → startsWith p "/dev/fptrace/pipe/" = false → env.lstat p = none →
      sysexit env pid pstate sys = .error Fault.fatal) ∧
    (i ∉ pstate.IOs.MapW →
      startsWith p "/dev/fptrace/pipe/" = true ∨ env.lstat p = some false →
      sysexit env pid pstate sys =
        .ok (true, { openInstall pstate f r i with IOs := pstate.IOs.MapAdd (openWrite f) i },
          { sys with FS := (sys.FS.Inode p).1 })) ∧
    (openInstall pstate f r i).FDs.get? r = some i ∧
    (openInstall pstate f r i).IOs = pstate.IOs ∧
    (f &&& (O_WRONLY ||| O_RDWR) ≠ 0 →
      (pstate.IOs.MapAdd (openWrite f) i).MapR = pstate.IOs.MapR ∧
      ∀ j, j ∈ (pstate.IOs.MapAdd (openWrite f) i).MapW ↔ j = i ∨ j ∈ pstate.IOs.MapW) ∧
    (f &&& (O_WRONLY ||| O_RDWR) = 0 →
      (pstate.IOs.MapAdd (openWrite f) i).MapW = pstate.IOs.MapW ∧
      ∀ j, j ∈ (pstate.IOs.MapAdd (openWrite f) i).MapR ↔ j = i ∨ j ∈ pstate.IOs.MapR) := by
  have heq := sysexit_open_eq env pid pstate sys regs hregs hret hsys
  rw [← hr, ← hf, ← hp, ← hi] at heq
  have hio : (openInstall pstate f r i).IOs = pstate.IOs := rfl
  refine ⟨?_, ?_, ?_, ?_, hio, ?_, ?_⟩
  · intro h
    rw [heq]
    unfold openRecordIO
    rw [hio]
    by_cases hW : i ∈ pstate.IOs.MapW
    · simp [IntSet.Has, hW]
    · rcases h with h | ⟨h1, h2⟩
      · exact absurd h hW
      · simp [IntSet.Has, hW, h1, h2]
  · intro hW h1 h2
    rw [heq]
    unfold openRecordIO
    rw [hio]
    simp [IntSet.Has, hW, h1, h2]
  · intro hW h
    rw [heq]
    unfold openRecordIO
    rw [hio]
    rcases h with h | h
    · simp [IntSet.Has, hW, h]
    · by_cases h1 : startsWith p "/dev/fptrace/pipe/" = true
      · simp [IntSet.Has, hW, h1]
      · simp [IntSet.Has, hW, h1, h]
  · simp [openInstall, GoMap.get?_set]
  · intro h
    have : openWrite f = W := by unfold openWrite; rw [if_pos h]
    rw [this]
    exact IOs.MapAdd_W _ _
  · intro h
    have : openWrite f = R := by unfold openWrite; rw [if_neg (by simpa using h)]
    rw [this]
    exact IOs.MapAdd_R _ _

/-- Instance of C16 (amended): the exit of `open("/tmp/b", O_WRONLY)` returning 3 in the
initial state sets `fds[3]` to the new inode 4 and adds it to W. -/
theorem sysexit_open_records_witness :
    sysexit envOpenWrite 10 { state0.1 with Syscall := SYS_OPEN } state0.2 =
      .ok (true,
        { openInstall { state0.1 with Syscall := SYS_OPEN } 1 3 4 with
            IOs := state0.1.IOs.MapAdd (openWrite 1) 4 },
        { state0.2 with FS := (state0.2.FS.Inode "/tmp/b").1 }) ∧
    (state0.1.IOs.MapAdd (openWrite 1) 4).MapW = [4] :=
  ⟨(sysexit_open_records envOpenWrite 10 { state0.1 with Syscall := SYS_OPEN } state0.2
      (exitRegs 3 100 1 0) 3 1 "/tmp/b" 4 (by rfl) (by decide) (Or.inl rfl) (by decide)
      (by rfl) (by decide) (by decide)).2.2.1 (by decide) (Or.inr (by rfl)),
   by decide⟩

/-- What the creation case of `mainLoop` does: the new state is the clone of the state
of the stopped PID, installed under the new PID, which is marked running and
removed from the terminated set; the clone shares the fd table and the IOSet
exactly when the event is a clone event, the register fetch succeeds and the
bit `CLONE_FILES` is set in the register Rdx. -/
theorem createProc_installs {σ : Type} (env : Env) (st : LoopState σ) (pid trapCause : Int)
    (pstate : Nat) (newpid : Int) :
    (createProc env st pid trapCause pstate newpid).pstates.get? newpid =
      some (st.heap.Clone pstate (cloneFilesFlag env pid trapCause)).2 ∧
    (createProc env st pid trapCause pstate newpid).heap =
      (st.heap.Clone pstate (cloneFilesFlag env pid trapCause)).1 ∧
    (createProc env st pid trapCause pstate newpid).running.get? newpid = some true ∧
    (createProc env st pid trapCause pstate newpid).terminated.get? newpid = none ∧
    (cloneFilesFlag env pid trapCause = true ↔
      trapCause = PTRACE_EVENT_CLONE ∧
        ∃ regs, env.getRegs pid = some regs ∧ regs.Rdx &&& CLONE_FILES ≠ 0) := by
  refine ⟨?_, rfl, ?_, ?_, ?_⟩
  · simp [createProc, GoMap.get?_set]
  · simp [createProc, GoMap.get?_set]
  · simp [createProc, GoMap.get?_del]
  · unfold cloneFilesFlag
    by_cases h : trapCause = PTRACE_EVENT_CLONE
    · simp only [h, if_true, true_and]
      cases hr : env.getRegs pid with
      | none => simp
      | some regs => simp
    · simp [h]

/-- C12 (code evaluated at the failing inputs): at a clone event whose syscall has
`CLONE_FILES` in its flags argument (register Rdi) and a `parent_tid` pointer
without the bit 0x400 in Rdx, the child state is created with `share_fds`
false (own fd table 1 and IOSet 1); at a clone event whose flags lack
`CLONE_FILES` but whose Rdx has the bit 0x400, it is created with `share_fds`
true (fd table 0 and IOSet 0 of the parent, refcount 2). In both cases the new
PID 2 has the new state, is running and is not in the terminated set. -/
theorem clone_event_tests_rdx_for_CLONE_FILES :
    regsCloneThread.Rdi &&& CLONE_FILES ≠ 0 ∧
    cloneFilesFlag (cloneEvent 1 2 regsCloneThread).env 1 PTRACE_EVENT_CLONE = false ∧
    (sampleStateAfter [cloneEvent 1 2 regsCloneThread]).heap.procs.map
      (fun o => (o.FDs, o.IOs)) = [(0, 0), (1, 1)] ∧
    regsCloneProcess.Rdi &&& CLONE_FILES = 0 ∧
    cloneFilesFlag (cloneEvent 1 2 regsCloneProcess).env 1 PTRACE_EVENT_CLONE = true ∧
    (sampleStateAfter [cloneEvent 1 2 regsCloneProcess]).heap.procs.map
      (fun o => (o.FDs, o.IOs)) = [(0, 0), (0, 0)] ∧
    (sampleStateAfter [cloneEvent 1 2 regsCloneProcess]).heap.ios.map (fun io => io.Cnt) = [2] ∧
    (sampleStateAfter [cloneEvent 1 2 regsCloneThread]).pstates.get? 2 = some 1 ∧
    (sampleStateAfter [cloneEvent 1 2 regsCloneThread]).running.get? 2 = some true ∧
    (sampleStateAfter [cloneEvent 1 2 regsCloneThread]).terminated.get? 2 = none := by
  refine ⟨by decide, by decide, by decide, by decide, by decide, by decide, by decide,
    by decide, by decide, by decide⟩

/-- What `term` does for a PID that is neither terminated nor in the process-state
table: `terminate` is called with a nil state and dereferences it. -/
theorem term_without_state {σ : Type} (cbs : Callbacks σ) (st : LoopState σ) (pid : Int)
    (hnt : st.terminated.getD pid false = false) (hps : st.pstates.get? pid = none) :
    terminate cbs st pid (st.pstates.get? pid) = .error Fault.nilDeref ∧
    term cbs st pid = .error Fault.nilDeref := by
  constructor
  · rw [hps]; rfl
  · unfold term
    rw [hnt, hps]
    rfl

/-- C19 (code evaluated at the failing inputs): when PID 7, known only from a stop that
put it in the suspended set, is reported as exited, `mainLoop` calls
`terminate` with the nil state `pstates[7]` and the supervisor dies of the nil
dereference; the same happens at an exec event of the main PID 1 that names
the old PID 5, which has no process state. -/
theorem terminate_called_with_nil_state :
    (sampleStateAfter [stopEvent 7 0 envGone]).suspended.get? 7 = some 0 ∧
    (sampleStateAfter [stopEvent 7 0 envGone]).pstates.get? 7 = none ∧
    terminate (mainCallbacks false []) (sampleStateAfter [stopEvent 7 0 envGone]) 7
      ((sampleStateAfter [stopEvent 7 0 envGone]).pstates.get? 7) = .error Fault.nilDeref ∧
    (superviseSample [stopEvent 7 0 envGone, exitEvent 7 0 envGone]).fault =
      some Fault.nilDeref ∧
    (sampleStateAfter []).pstates.get? 5 = none ∧
    (superviseSample [execEventOf 1 5]).fault = some Fault.nilDeref := by
  refine ⟨by decide, by decide, by rfl, by decide, by decide, by decide⟩

theorem List.getD_set_self {α : Type} (l : List α) (i : Nat) (v d : α) (h : i < l.length) :
    (l.set i v).getD i d = v := by
  simp [List.getD_eq_getElem?_getD, List.getElem?_set, h]

theorem List.getD_set_ne {α : Type} (l : List α) (i j : Nat) (v d : α) (h : i ≠ j) :
    (l.set i v).getD j d = l.getD j d := by
  simp [List.getD_eq_getElem?_getD, List.getElem?_set, h]

theorem Heap.store_procs_length (h : Heap) (ref : Nat) (v : ProcState) :
    (h.store ref v).procs.length = h.procs.length := by
  simp [Heap.store]

theorem Heap.store_proc_SysEnter (h : Heap) (ref : Nat) (v : ProcState)
    (href : ref < h.procs.length) : ((h.store ref v).proc ref).SysEnter = v.SysEnter := by
  simp only [Heap.store, Heap.proc]
  rw [List.getD_set_self _ _ _ _ href]

theorem Heap.ResetIOs_procs_length (h : Heap) (ref : Nat) :
    (h.ResetIOs ref).procs.length = h.procs.length := by
  simp [Heap.ResetIOs]

theorem Heap.ResetIOs_proc_SysEnter (h : Heap) (ref r : Nat) :
    ((h.ResetIOs ref).proc r).SysEnter = (h.proc r).SysEnter := by
  simp only [Heap.ResetIOs, Heap.proc]
  by_cases hr : ref = r
  · subst hr
    by_cases hl : ref < h.procs.length
    · rw [List.getD_set_self _ _ _ _ hl]
    · have hl' : h.procs.length ≤ ref := Nat.le_of_not_lt hl
      simp [List.getD_eq_getElem?_getD, List.getElem?_set, hl, List.getElem?_eq_none hl']
  · rw [List.getD_set_ne _ _ _ _ _ hr]

theorem sysenter_SysEnter (env : Env) (pid : Int) (p : ProcState) (sys : SysState) (b : Bool)
    (p' : ProcState) (w : Option Regs) (h : sysenter env pid p sys = .ok (b, p', w)) :
    p'.SysEnter = p.SysEnter ∧ (env.getRegs pid ≠ none → b = true) := by
  unfold sysenter at h
  split at h
  · rename_i hr
    cases h
    exact ⟨rfl, fun hh => absurd hr hh⟩
  · dsimp only at h
    split at h
    · cases h; exact ⟨rfl, fun _ => rfl⟩
    split at h
    · cases h; exact ⟨rfl, fun _ => rfl⟩
    split at h
    · split at h
      · split at h
        · cases h; exact ⟨rfl, fun _ => rfl⟩
        · cases h
      · cases h; exact ⟨rfl, fun _ => rfl⟩
    split at h
    · split at h
      · split at h
        · cases h; exact ⟨rfl, fun _ => rfl⟩
        · cases h
      · cases h; exact ⟨rfl, fun _ => rfl⟩
    · cases h; exact ⟨rfl, fun _ => rfl⟩

theorem sysexitFcntl_SysEnter (p : ProcState) (regs : Regs) :
    (sysexitFcntl p regs).1.SysEnter = p.SysEnter := by
  unfold sysexitFcntl
  split_ifs <;> rfl

theorem sysexitSwitch_SysEnter (env : Env) (pid : Int) (p : ProcState) (sys : SysState)
    (regs : Regs) (ret32 : Int) (p' : ProcState) (s' : SysState)
    (h : sysexitSwitch env pid p sys regs ret32 = .ok (p', s')) : p'.SysEnter = p.SysEnter := by
  unfold sysexitSwitch at h
  split at h
  · unfold sysexitOpen at h
    split at h
    · cases h
    · rename_i q hq
      cases h
      unfold openRecordIO at hq
      split at hq
      · cases hq; rfl
      · split at hq
        · split at hq
          · cases hq
          · cases hq; rfl
          · cases hq; rfl
        · cases hq; rfl
  · cases h; rfl
  · cases h; rfl
  · cases h; rfl
  · cases h; rfl
  · cases h; rfl
  · cases h; rfl
  · cases h; rfl
  · cases h
    unfold sysexitRead
    dsimp only
    split <;> rfl
  · cases h
    unfold sysexitWrite
    dsimp only
    split <;> rfl
  · cases h; rfl
  · unfold sysexitPipe at h
    split at h
    · cases h
    · cases h; rfl
  · cases h; rfl

theorem sysexit_SysEnter (env : Env) (pid : Int) (p : ProcState) (sys : SysState) (b : Bool)
    (p' : ProcState) (s' : SysState) (h : sysexit env pid p sys = .ok (b, p', s')) :
    p'.SysEnter = p.SysEnter ∧ (env.getRegs pid ≠ none → b = true) := by
  unfold sysexit at h
  split at h
  · rename_i hr
    cases h
    exact ⟨rfl, fun hh => absurd hr hh⟩
  · split at h
    · cases h; exact ⟨rfl, fun _ => rfl⟩
    · split at h
      · cases h
      · rename_i q s hq
        cases h
        have := sysexitSwitch_SysEnter _ _ _ _ _ _ _ _ hq
        rw [sysexitFcntl_SysEnter] at this
        exact ⟨this, fun _ => rfl⟩

theorem terminate_frame {σ : Type} (cbs : Callbacks σ) (st st' : LoopState σ) (pid : Int)
    (ps : Option Nat) (h : terminate cbs st pid ps = .ok st') :
    (∀ r, (st'.heap.proc r).SysEnter = (st.heap.proc r).SysEnter) ∧
    st'.heap.procs.length = st.heap.procs.length ∧ st'.pstates = st.pstates ∧
    st'.resumed = st.resumed := by
  unfold terminate at h
  split at h
  · cases h
  · split at h
    · split at h
      · cases h
      · cases h
        exact ⟨fun r => Heap.ResetIOs_proc_SysEnter _ _ r, Heap.ResetIOs_procs_length _ _, rfl, rfl⟩
    · cases h
      exact ⟨fun r => Heap.ResetIOs_proc_SysEnter _ _ r, Heap.ResetIOs_procs_length _ _, rfl, rfl⟩

theorem term_frame {σ : Type} (cbs : Callbacks σ) (st st' : LoopState σ) (pid : Int)
    (h : term cbs st pid = .ok st') :
    (∀ r, (st'.heap.proc r).SysEnter = (st.heap.proc r).SysEnter) ∧
    st'.heap.procs.length = st.heap.procs.length ∧ st'.pstates = st.pstates ∧
    st'.resumed = st.resumed := by
  unfold term at h
  split at h
  · cases h; exact ⟨fun _ => rfl, rfl, rfl, rfl⟩
  · split at h
    · cases h
    · rename_i st1 h1
      cases h
      exact terminate_frame cbs st st1 pid _ h1

theorem vanished_frame {σ : Type} (cbs : Callbacks σ) (st st' : LoopState σ) (pid : Int)
    (h : vanished cbs st pid = .ok st') :
    (∀ r, (st'.heap.proc r).SysEnter = (st.heap.proc r).SysEnter) ∧
    st'.heap.procs.length = st.heap.procs.length ∧ st'.pstates = st.pstates ∧
    st'.resumed = st.resumed := by
  unfold vanished at h
  split at h
  · cases h
  · rename_i st1 h1
    cases h
    exact term_frame cbs st st1 pid h1

/-- An entry stop that the supervisor survives leaves `SysEnter` true. -/
theorem entryStop_SysEnter {σ : Type} (cbs : Callbacks σ) (env : Env) (st st' : LoopState σ)
    (pid : Int) (ref : Nat) (href : ref < st.heap.procs.length)
    (h : entryStop cbs env st pid ref = .ok st') :
    (st'.heap.proc ref).SysEnter = true ∧ st'.heap.procs.length = st.heap.procs.length ∧
    st'.pstates = st.pstates ∧
    (env.getRegs pid ≠ none → st'.resumed = st.resumed ++ [(pid, true)]) := by
  unfold entryStop at h
  split at h
  · cases h
  · rename_i r hr
    rcases r with ⟨b, p', w⟩
    have hs := sysenter_SysEnter _ _ _ _ _ _ _ hr
    have hst : ((st.heap.store ref p').proc ref).SysEnter = true := by
      rw [Heap.store_proc_SysEnter _ _ _ href, hs.1]
    split at h
    · cases h
      exact ⟨hst, Heap.store_procs_length _ _ _, rfl, fun _ => by
        simp only [resumeTracee, hst]⟩
    · rename_i hb
      have hv := vanished_frame _ _ _ _ h
      refine ⟨by rw [hv.1]; exact hst, by rw [hv.2.1]; exact Heap.store_procs_length _ _ _,
        hv.2.2.1, fun hg => ?_⟩
      exact absurd (hs.2 hg) hb

/-- An exit stop that the supervisor survives leaves `SysEnter` false. -/
theorem exitStop_SysEnter {σ : Type} (cbs : Callbacks σ) (env : Env) (st st' : LoopState σ)
    (pid : Int) (ref : Nat) (href : ref < st.heap.procs.length)
    (h : exitStop cbs env st pid ref = .ok st') :
    (st'.heap.proc ref).SysEnter = false ∧ st'.heap.procs.length = st.heap.procs.length ∧
    st'.pstates = st.pstates ∧
    (env.getRegs pid ≠ none → st'.resumed = st.resumed ++ [(pid, false)]) := by
  unfold exitStop at h
  split at h
  · cases h
  · rename_i r hr
    rcases r with ⟨b, p', s'⟩
    have hs := sysexit_SysEnter _ _ _ _ _ _ _ hr
    have hst : ((st.heap.store ref p').proc ref).SysEnter = false := by
      rw [Heap.store_proc_SysEnter _ _ _ href, hs.1]
    split at h
    · cases h
      exact ⟨hst, Heap.store_procs_length _ _ _, rfl, fun _ => by
        simp only [resumeTracee, hst]⟩
    · rename_i hb
      have hv := vanished_frame _ _ _ _ h
      refine ⟨by rw [hv.1]; exact hst, by rw [hv.2.1]; exact Heap.store_procs_length _ _ _,
        hv.2.2.1, fun hg => ?_⟩
      exact absurd (hs.2 hg) hb

/-- The iteration of the loop on a stop of a PID that has a process state is the
`switch trapCause` on this state. -/
theorem mainLoopStep_stop {σ : Type} (cbs : Callbacks σ) (st : LoopState σ) (ev : Event)
    (ref : Nat) (hok : ev.ok = true) (hps : st.pstates.get? ev.pid = some ref) :
    mainLoopStep cbs st ev =
      match dispatch cbs ev.env (st.suspended.length + 1) st ev.pid ev.trapCause ref with
      | .error f => .error f
      | .ok st1 => .ok (StepResult.next st1) := by
  unfold mainLoopStep
  simp only [hok, Bool.true_eq_false, if_false, hps]

theorem dispatch_seccomp {σ : Type} (cbs : Callbacks σ) (env : Env) (fuel : Nat)
    (st : LoopState σ) (pid : Int) (ref : Nat) :
    dispatch cbs env (fuel + 1) st pid PTRACE_EVENT_SECCOMP ref =
      if (st.heap.proc ref).SysEnter then .error Fault.panicked
      else if env.oldSeccomp then .ok { st with resumed := st.resumed ++ [(pid, true)] }
      else syscallStop cbs env st pid ref := by
  rw [dispatch]
  rw [if_neg (by decide), if_neg (by decide), if_pos rfl]

theorem dispatch_syscall {σ : Type} (cbs : Callbacks σ) (env : Env) (fuel : Nat)
    (st : LoopState σ) (pid : Int) (ref : Nat) :
    dispatch cbs env (fuel + 1) st pid 0 ref = syscallStop cbs env st pid ref := by
  rw [dispatch]
  rw [if_neg (by decide), if_neg (by decide), if_neg (by decide), if_pos rfl]

/-- C18: a filter-accelerated (seccomp) stop of a PID with a process state. If
`SysEnter` is true the supervisor panics (no state survives). If `SysEnter` is
false: on an old kernel (`oldSeccomp`) the iteration only issues
`resume(pid, 0, true)`, every other component of the state (the heap with the
process state included) is unchanged and neither `sysenter` nor `sysexit`
runs; on a newer kernel the iteration is the one of an ordinary stop (cause
0) of the same PID, which is the entry stop: `sysenter` runs on the state with
`SysEnter` set, and `SysEnter` is true in every state that the iteration
ends with. -/
theorem seccomp_stop_handling {σ : Type} (cbs : Callbacks σ) (st : LoopState σ) (ev : Event)
    (ref : Nat) (hok : ev.ok = true) (hcause : ev.trapCause = PTRACE_EVENT_SECCOMP)
    (hps : st.pstates.get? ev.pid = some ref) (href : ref < st.heap.procs.length) :
    ((st.heap.proc ref).SysEnter = true →
      mainLoopStep cbs st ev = .error Fault.panicked) ∧
    ((st.heap.proc ref).SysEnter = false → ev.env.oldSeccomp = true →
      mainLoopStep cbs st ev =
        .ok (StepResult.next { st with resumed := st.resumed ++ [(ev.pid, true)] })) ∧
    ((st.heap.proc ref).SysEnter = false → ev.env.oldSeccomp = false →
      mainLoopStep cbs st ev = mainLoopStep cbs st { ev with trapCause := 0 } ∧
      mainLoopStep cbs st ev =
        (match sysenter ev.env ev.pid { st.heap.load ref with SysEnter := true } st.sys with
         | .error f => .error f
         | .ok r =>
           if r.1 then
             .ok (StepResult.next (resumeTracee
               { st with heap := st.heap.store ref r.2.1,
                         regsSet := st.regsSet ++
                           (r.2.2.map (fun regs => (ev.pid, regs))).toList }
               ev.pid ref))
           else
             match vanished cbs
               { st with heap := st.heap.store ref r.2.1,
                         regsSet := st.regsSet ++
                           (r.2.2.map (fun regs => (ev.pid, regs))).toList }
               ev.pid with
             | .error f => .error f
             | .ok st1 => .ok (StepResult.next st1)) ∧
      ∀ res, mainLoopStep cbs st ev = .ok res →
        (res.state.heap.proc ref).SysEnter = true ∧
        (ev.env.getRegs ev.pid ≠ none → res.state.resumed = st.resumed ++ [(ev.pid, true)])) := by
  have hstep := mainLoopStep_stop cbs st ev ref hok hps
  rw [hcause, dispatch_seccomp] at hstep
  refine ⟨fun h => ?_, fun h ho => ?_, fun h ho => ?_⟩
  · rw [hstep, h]; rfl
  · rw [hstep, h, ho]; rfl
  · have h0 := mainLoopStep_stop cbs st { ev with trapCause := 0 } ref hok hps
    rw [show ({ ev with trapCause := 0 } : Event).trapCause = 0 from rfl, dispatch_syscall] at h0
    have hs : syscallStop cbs ev.env st ev.pid ref = entryStop cbs ev.env st ev.pid ref := by
      unfold syscallStop; rw [if_pos h]
    have hstep2 : mainLoopStep cbs st ev =
        match entryStop cbs ev.env st ev.pid ref with
        | .error f => .error f
        | .ok st1 => .ok (StepResult.next st1) := by
      rw [hstep, h, ho]; simp only [Bool.false_eq_true, if_false]; rw [hs]
    refine ⟨?_, ?_, ?_⟩
    · rw [hstep2, h0]
      show _ = match syscallStop cbs ev.env st ev.pid ref with
        | .error f => .error f
        | .ok st1 => .ok (StepResult.next st1)
      rw [hs]
    · rw [hstep2]
      unfold entryStop
      cases sysenter ev.env ev.pid { st.heap.load ref with SysEnter := true } st.sys with
      | error f => rfl
      | ok r =>
        by_cases hb : r.1 = true
        · simp only [hb, if_true]
        · simp only [hb, if_false]; rfl
    · intro res hres
      rw [hstep2] at hres
      cases he : entryStop cbs ev.env st ev.pid ref with
      | error f => rw [he] at hres; cases hres
      | ok st1 =>
        rw [he] at hres
        cases hres
        have := entryStop_SysEnter cbs ev.env st st1 ev.pid ref href he
        exact ⟨this.1, this.2.2.2⟩

/-- Instance of C18: on an old kernel the seccomp stop of the main process in the
initial state only issues `resume(1, 0, true)`. -/
theorem seccomp_stop_handling_witness :
    mainLoopStep (mainCallbacks false []) sampleState0
        (stopEvent 1 PTRACE_EVENT_SECCOMP (envOldKernel 2 100 0 0)) =
      .ok (StepResult.next { sampleState0 with resumed := [(1, true)] }) :=
  (seccomp_stop_handling (mainCallbacks false []) sampleState0
    (stopEvent 1 PTRACE_EVENT_SECCOMP (envOldKernel 2 100 0 0)) 0 rfl rfl (by decide)
    (by decide)).2.1 (by rfl) (by rfl)

theorem bumpExec_frame {σ : Type} (st : LoopState σ) (pid : Int) :
    (bumpExec st pid).pstates = st.pstates ∧
    (bumpExec st pid).heap.procs = st.heap.procs := by
  unfold bumpExec
  split
  · exact ⟨rfl, rfl⟩
  · exact ⟨rfl, rfl⟩

theorem execInstall_SysEnter {σ : Type} (cbs : Callbacks σ) (st st' : LoopState σ)
    (oldpid pid : Int) (ref : Nat) (href : ref < st.heap.procs.length)
    (h : execInstall cbs st oldpid pid (some ref) = .ok st') :
    st'.pstates.get? pid = some ref ∧ (st'.heap.proc ref).SysEnter = true := by
  unfold execInstall at h
  dsimp only at h
  split at h
  · cases h
  · cases h
    refine ⟨by simp [resumeTracee, GoMap.get?_set], ?_⟩
    simp only [resumeTracee, Heap.proc]
    rw [List.getD_set_self]
    simp only [execProc, List.length_set]
    exact href

theorem execEvent_SysEnter {σ : Type} (cbs : Callbacks σ) (env : Env) (st st' : LoopState σ)
    (pid : Int) (ps : Nat)
    (hvalid : ∀ p r, st.pstates.get? p = some r → r < st.heap.procs.length)
    (h : execEvent cbs env st pid ps = .ok st') :
    ∃ r, st'.pstates.get? pid = some r ∧ (st'.heap.proc r).SysEnter = true := by
  unfold execEvent at h
  split at h
  · cases h
  · rename_i st1 h1
    have e1 := term_frame _ _ _ _ h1
    have e0 := bumpExec_frame st pid
    split at h
    · cases h
    · rename_i uoldpid hmsg
      split at h
      · cases h
      · split at h
        · cases h
        · rename_i st2 h2
          have e2 := term_frame _ _ _ _ h2
          cases hp : st1.pstates.get? (toInt64 uoldpid) with
          | none => rw [hp] at h; simp [execInstall] at h
          | some r =>
            rw [hp] at h
            have hr : r < st.heap.procs.length := by
              apply hvalid (toInt64 uoldpid) r
              rw [← e0.1, ← e1.2.2.1]; exact hp
            refine ⟨r, execInstall_SysEnter cbs _ st' _ pid r ?_ h⟩
            show r < st2.heap.procs.length
            rw [e2.2.1, e1.2.1, e0.2]; exact hr

theorem dispatch_exec {σ : Type} (cbs : Callbacks σ) (env : Env) (fuel : Nat)
    (st : LoopState σ) (pid : Int) (ref : Nat) :
    dispatch cbs env (fuel + 1) st pid PTRACE_EVENT_EXEC ref = execEvent cbs env st pid ref := by
  rw [dispatch]
  rw [if_neg (by decide), if_pos rfl]

/-- The iteration of the loop on an ordinary stop (cause 0) of a PID with a process
state: the entry stop when `SysEnter` is false, the exit stop when it is true. -/
theorem mainLoopStep_ordinary {σ : Type} (cbs : Callbacks σ) (st : LoopState σ) (ev : Event)
    (ref : Nat) (hok : ev.ok = true) (hcause : ev.trapCause = 0)
    (hps : st.pstates.get? ev.pid = some ref) :
    ((st.heap.proc ref).SysEnter = false →
      mainLoopStep cbs st ev =
        match entryStop cbs ev.env st ev.pid ref with
        | .error f => .error f
        | .ok st1 => .ok (StepResult.next st1)) ∧
    ((st.heap.proc ref).SysEnter = true →
      mainLoopStep cbs st ev =
        match exitStop cbs ev.env st ev.pid ref with
        | .error f => .error f
        | .ok st1 => .ok (StepResult.next st1)) := by
  have hstep := mainLoopStep_stop cbs st ev ref hok hps
  rw [hcause, dispatch_syscall] at hstep
  constructor
  · intro h
    rw [hstep]; unfold syscallStop; rw [if_pos h]
  · intro h
    rw [hstep]; unfold syscallStop; rw [if_neg (by rw [h]; decide)]

/-- An ordinary stop with a successful register fetch that the supervisor survives
flips `SysEnter` and resumes the tracee with the new value. -/
theorem mainLoopStep_ordinary_flip {σ : Type} (cbs : Callbacks σ) (st : LoopState σ)
    (ev : Event) (ref : Nat) (res : StepResult σ) (hok : ev.ok = true)
    (hcause : ev.trapCause = 0) (hps : st.pstates.get? ev.pid = some ref)
    (href : ref < st.heap.procs.length) (hregs : ev.env.getRegs ev.pid ≠ none)
    (h : mainLoopStep cbs st ev = .ok res) :
    res = StepResult.next res.state ∧
    (res.state.heap.proc ref).SysEnter = !(st.heap.proc ref).SysEnter ∧
    res.state.heap.procs.length = st.heap.procs.length ∧
    res.state.pstates = st.pstates ∧
    res.state.resumed = st.resumed ++ [(ev.pid, !(st.heap.proc ref).SysEnter)] := by
  have ho := mainLoopStep_ordinary cbs st ev ref hok hcause hps
  cases hb : (st.heap.proc ref).SysEnter with
  | false =>
    rw [ho.1 hb] at h
    cases he : entryStop cbs ev.env st ev.pid ref with
    | error f => rw [he] at h; cases h
    | ok st1 =>
      rw [he] at h; cases h
      have := entryStop_SysEnter cbs ev.env st st1 ev.pid ref href he
      exact ⟨rfl, this.1, this.2.1, this.2.2.1, this.2.2.2 hregs⟩
  | true =>
    rw [ho.2 hb] at h
    cases he : exitStop cbs ev.env st ev.pid ref with
    | error f => rw [he] at h; cases h
    | ok st1 =>
      rw [he] at h; cases h
      have := exitStop_SysEnter cbs ev.env st st1 ev.pid ref href he
      exact ⟨rfl, this.1, this.2.1, this.2.2.1, this.2.2.2 hregs⟩

/-- After k ordinary stops of one PID with successful register fetches, `SysEnter` has
been flipped k times. -/
theorem mainLoopFrom_ordinary_stops {σ : Type} (cbs : Callbacks σ) (pid : Int) (ref : Nat)
    (evs : List Event)
    (hevs : ∀ ev ∈ evs, ev.pid = pid ∧ ev.ok = true ∧ ev.trapCause = 0 ∧
      ev.env.getRegs pid ≠ none) :
    ∀ (st stk : LoopState σ) (k : Nat), st.pstates.get? pid = some ref →
      ref < st.heap.procs.length →
      mainLoopFrom cbs st (evs.take k) = Outcome.waiting stk → k ≤ evs.length →
      (stk.heap.proc ref).SysEnter =
        (if k % 2 = 0 then (st.heap.proc ref).SysEnter else !(st.heap.proc ref).SysEnter) ∧
      stk.pstates = st.pstates ∧ stk.heap.procs.length = st.heap.procs.length := by
  induction evs with
  | nil =>
    intro st stk k _ _ h hk
    have hk0 : k = 0 := by simpa using hk
    subst hk0
    simp only [List.take_nil, mainLoopFrom] at h
    cases h
    exact ⟨by simp, rfl, rfl⟩
  | cons ev evs ih =>
    intro st stk k hps href h hk
    cases k with
    | zero =>
      simp only [List.take_zero, mainLoopFrom] at h
      cases h
      exact ⟨by simp, rfl, rfl⟩
    | succ k =>
      have hev := hevs ev (List.mem_cons_self _ _)
      simp only [List.take_succ_cons, mainLoopFrom] at h
      cases hs : mainLoopStep cbs st ev with
      | error f => rw [hs] at h; cases h
      | ok res =>
        have hf := mainLoopStep_ordinary_flip cbs st ev ref res hev.2.1 hev.2.2.1
          (by rw [hev.1]; exact hps) href (by rw [hev.1]; exact hev.2.2.2) hs
        rw [hs, hf.1] at h
        simp only at h
        have := ih (fun e he => hevs e (List.mem_cons_of_mem _ he)) res.state stk k
          (by rw [hf.2.2.2.1]; exact hps) (by rw [hf.2.2.1]; exact href) h
          (by simpa using hk)
        refine ⟨?_, by rw [this.2.1, hf.2.2.2.1], by rw [this.2.2, hf.2.2.1]⟩
        rw [this.1, hf.2.1]
        rcases Nat.mod_two_eq_zero_or_one k with hk2 | hk2
        · have : (k + 1) % 2 = 1 := by omega
          simp [hk2, this]
        · have : (k + 1) % 2 = 0 := by omega
          simp [hk2, this]

/-- C17: in a run of consecutive ordinary stops (cause 0) of one PID whose `SysEnter`
is false at the start and whose register fetches succeed, the state reached
after k stops has `SysEnter` true exactly when k is odd; the next stop is the
entry stop (`sysenter`) when k is even and the exit stop (`sysexit`) when k is
odd, it leaves `SysEnter` true after an entry and false after an exit, and
resumes the tracee accordingly. After an exec event that the supervisor
survives `SysEnter` of the state of the PID is true, so that the next ordinary
stop of the PID is the exit stop. -/
theorem syscall_stops_alternate {σ : Type} (cbs : Callbacks σ) (st : LoopState σ) (pid : Int)
    (ref : Nat) (evs : List Event) (hps : st.pstates.get? pid = some ref)
    (href : ref < st.heap.procs.length) (hse : (st.heap.proc ref).SysEnter = false)
    (hevs : ∀ ev ∈ evs, ev.pid = pid ∧ ev.ok = true ∧ ev.trapCause = 0 ∧
      ev.env.getRegs pid ≠ none) :
    (∀ (k : Nat) (stk : LoopState σ), k ≤ evs.length →
      mainLoopFrom cbs st (evs.take k) = Outcome.waiting stk →
      (stk.heap.proc ref).SysEnter = decide (k % 2 = 1) ∧
      stk.pstates.get? pid = some ref ∧
      ∀ ev, evs[k]? = some ev →
        (k % 2 = 0 →
          mainLoopStep cbs stk ev =
            match entryStop cbs ev.env stk pid ref with
            | .error f => .error f
            | .ok st1 => .ok (StepResult.next st1)) ∧
        (k % 2 = 1 →
          mainLoopStep cbs stk ev =
            match exitStop cbs ev.env stk pid ref with
            | .error f => .error f
            | .ok st1 => .ok (StepResult.next st1)) ∧
        ∀ res, mainLoopStep cbs stk ev = .ok res →
          (res.state.heap.proc ref).SysEnter = decide (k % 2 = 0) ∧
          res.state.resumed = stk.resumed ++ [(pid, decide (k % 2 = 0))]) ∧
    (∀ (st0 : LoopState σ) (ev : Event) (r0 : Nat) (res : StepResult σ),
      (∀ p r, st0.pstates.get? p = some r → r < st0.heap.procs.length) →
      ev.ok = true → ev.trapCause = PTRACE_EVENT_EXEC → st0.pstates.get? ev.pid = some r0 →
      mainLoopStep cbs st0 ev = .ok res →
      ∃ r, res.state.pstates.get? ev.pid = some r ∧ (res.state.heap.proc r).SysEnter = true ∧
        ∀ ev2 : Event, ev2.pid = ev.pid → ev2.ok = true → ev2.trapCause = 0 →
          mainLoopStep cbs res.state ev2 =
            match exitStop cbs ev2.env res.state ev2.pid r with
            | .error f => .error f
            | .ok st1 => .ok (StepResult.next st1)) := by
  constructor
  · intro k stk hk hrun
    have hinv := mainLoopFrom_ordinary_stops cbs pid ref evs hevs st stk k hps href hrun hk
    rw [hse] at hinv
    have hSE : (stk.heap.proc ref).SysEnter = decide (k % 2 = 1) := by
      rw [hinv.1]
      rcases Nat.mod_two_eq_zero_or_one k with h2 | h2 <;> simp [h2]
    have hpsk : stk.pstates.get? pid = some ref := by rw [hinv.2.1]; exact hps
    refine ⟨hSE, hpsk, ?_⟩
    intro ev hget
    have hmem : ev ∈ evs := List.getElem?_mem hget
    obtain ⟨hpid, hok, hcause, hregs⟩ := hevs ev hmem
    have hpse : stk.pstates.get? ev.pid = some ref := by rw [hpid]; exact hpsk
    have ho := mainLoopStep_ordinary cbs stk ev ref hok hcause hpse
    rw [hpid] at ho
    refine ⟨fun h2 => ho.1 (by rw [hSE]; simp [h2]), fun h2 => ho.2 (by rw [hSE]; simp [h2]), ?_⟩
    intro res hres
    have hf := mainLoopStep_ordinary_flip cbs stk ev ref res hok hcause hpse
      (by rw [hinv.2.2]; exact href) (by rw [hpid]; exact hregs) hres
    rw [hpid] at hf
    rw [hf.2.1, hf.2.2.2.2, hSE]
    rcases Nat.mod_two_eq_zero_or_one k with h2 | h2 <;> simp [h2]
  · intro st0 ev r0 res hvalid hok hcause hps0 hres
    have hstep := mainLoopStep_stop cbs st0 ev r0 hok hps0
    rw [hcause, dispatch_exec] at hstep
    rw [hstep] at hres
    cases he : execEvent cbs ev.env st0 ev.pid r0 with
    | error f => rw [he] at hres; cases hres
    | ok st1 =>
      rw [he] at hres; cases hres
      obtain ⟨r, hr1, hr2⟩ := execEvent_SysEnter cbs ev.env st0 st1 ev.pid r0 hvalid he
      refine ⟨r, hr1, hr2, ?_⟩
      intro ev2 hpid2 hok2 hcause2
      exact (mainLoopStep_ordinary cbs st1 ev2 r hok2 hcause2 (by rw [hpid2]; exact hr1)).2 hr2

/-- Instance of C17: of the two stops of `open("/tmp/b", O_WRONLY)` in the main
process, the first leaves `SysEnter` true and the second leaves it false; after
an exec event of the main process `SysEnter` is true. -/
theorem syscall_stops_alternate_witness :
    ((sampleStateAfter (openStops.take 1)).heap.proc 0).SysEnter = decide (1 % 2 = 1) ∧
    ((sampleStateAfter (openStops.take 2)).heap.proc 0).SysEnter = decide (2 % 2 = 1) ∧
    (sampleStateAfter openStops).resumed = [(1, true), (1, false)] ∧
    ((sampleStateAfter [execEventOf 1 1]).heap.proc 0).SysEnter = true :=
  ⟨((syscall_stops_alternate (mainCallbacks false []) sampleState0 1 0 openStops (by decide)
      (by decide) (by rfl) (by decide)).1 1 (sampleStateAfter (openStops.take 1)) (by decide)
      (by rfl)).1,
   ((syscall_stops_alternate (mainCallbacks false []) sampleState0 1 0 openStops (by decide)
      (by decide) (by rfl) (by decide)).1 2 (sampleStateAfter (openStops.take 2)) (by decide)
      (by rfl)).1,
   by decide, by decide⟩

theorem recordStep_foldl_none (p : Int) (log : List LogLine) :
    log.foldl (recordStep p) none = none := by
  induction log with
  | nil => rfl
  | cons l ls ih => simpa [List.foldl, recordStep] using ih

theorem recordState_snoc (p : Int) (log : List LogLine) (l : LogLine) :
    recordState p (log ++ [l]) = recordStep p (recordState p log) l := by
  simp [recordState, List.foldl_append]

theorem recordStep_record_self (p : Int) (s : Option Bool) :
    recordStep p s (LogLine.record p) = none ∨ recordStep p s (LogLine.record p) = some true := by
  cases s with
  | none => left; rfl
  | some seen => cases seen <;> simp [recordStep, LogLine.reactivates]

theorem recordStep_foldl_seen (p : Int) (mid : List LogLine)
    (hmid : ∀ l ∈ mid, l.reactivates p = false) (s : Option Bool)
    (hs : s = none ∨ s = some true) :
    mid.foldl (recordStep p) s = none ∨ mid.foldl (recordStep p) s = some true := by
  induction mid generalizing s with
  | nil => exact hs
  | cons l ls ih =>
    simp only [List.foldl]
    apply ih (fun x hx => hmid x (List.mem_cons_of_mem _ hx))
    rcases hs with hs | hs
    · left; rw [hs]; rfl
    · rw [hs]
      have hl := hmid l (List.mem_cons_self _ _)
      by_cases hr : l = LogLine.record p
      · left; subst hr; simp [recordStep, LogLine.reactivates]
      · right; simp [recordStep, hl, hr]

/-- A trace log whose scan for p does not fail has a line that re-activates p between
any two records of p. -/
theorem recordState_no_double (p : Int) (log : List LogLine) (h : recordState p log ≠ none)
    (pre mid post : List LogLine)
    (hlog : log = pre ++ LogLine.record p :: (mid ++ LogLine.record p :: post)) :
    ∃ l ∈ mid, l.reactivates p = true := by
  by_contra hno
  have hmid : ∀ l ∈ mid, l.reactivates p = false := by
    intro l hl
    cases hr : l.reactivates p with
    | false => rfl
    | true => exact absurd ⟨l, hl, hr⟩ hno
  apply h
  rw [hlog, recordState, List.foldl_append, List.foldl_cons, List.foldl_append, List.foldl_cons]
  have h1 := recordStep_record_self p (pre.foldl (recordStep p) (some false))
  have h2 := recordStep_foldl_seen p mid hmid _ h1
  rcases h2 with h2 | h2
  · rw [h2]
    exact recordStep_foldl_none p post
  · rw [h2]
    have h3 : recordStep p (some true) (LogLine.record p) = none := by
      simp [recordStep, LogLine.reactivates]
    rw [h3]
    exact recordStep_foldl_none p post

theorem GoMap.getD_set {κ ν : Type} [DecidableEq κ] (m : GoMap κ ν) (k k' : κ) (v d : ν) :
    (GoMap.set m k v).getD k' d = if k = k' then v else m.getD k' d := by
  simp only [GoMap.getD, GoMap.get?_set]
  by_cases h : k = k' <;> simp [h]

theorem GoMap.getD_del {κ ν : Type} [DecidableEq κ] (m : GoMap κ ν) (k k' : κ) (d : ν) :
    (GoMap.del m k).getD k' d = if k = k' then d else m.getD k' d := by
  simp only [GoMap.getD, GoMap.get?_del]
  by_cases h : k = k' <;> simp [h]

theorem LogInv_init : LogInv [] [] := by
  intro p
  exact ⟨false, rfl, fun h => by cases h⟩

/-- A line that neither re-activates a PID nor is a record keeps the invariant. -/
theorem LogInv_snoc_neutral (log : List LogLine) (t : GoMap Int Bool) (l : LogLine)
    (h1 : ∀ p, l.reactivates p = false) (h2 : ∀ p, l ≠ LogLine.record p)
    (h : LogInv log t) : LogInv (log ++ [l]) t := by
  intro p
  obtain ⟨b, hb, ht⟩ := h p
  refine ⟨b, ?_, ht⟩
  rw [recordState_snoc, hb]
  simp [recordStep, h1 p, h2 p]

/-- The record of a PID that is not in the terminated set, followed by its insertion
into the set, keeps the invariant. -/
theorem LogInv_record (log : List LogLine) (t : GoMap Int Bool) (pid : Int)
    (hpid : t.getD pid false = false) (h : LogInv log t) :
    LogInv (log ++ [LogLine.record pid]) (t.set pid true) := by
  intro p
  obtain ⟨b, hb, ht⟩ := h p
  by_cases hp : pid = p
  · subst hp
    have hbf : b = false := by
      cases b with
      | false => rfl
      | true => rw [ht rfl] at hpid; cases hpid
    subst hbf
    refine ⟨true, ?_, fun _ => by simp [GoMap.getD_set]⟩
    rw [recordState_snoc, hb]
    simp [recordStep, LogLine.reactivates]
  · refine ⟨b, ?_, fun hbt => by rw [GoMap.getD_set, if_neg hp]; exact ht hbt⟩
    rw [recordState_snoc, hb]
    have : LogLine.record pid ≠ LogLine.record p := by
      intro hc; cases hc; exact hp rfl
    simp [recordStep, LogLine.reactivates, this]

theorem LogInv_set_true (log : List LogLine) (t : GoMap Int Bool) (pid : Int)
    (h : LogInv log t) : LogInv log (t.set pid true) := by
  intro p
  obtain ⟨b, hb, ht⟩ := h p
  refine ⟨b, hb, fun hbt => ?_⟩
  rw [GoMap.getD_set]
  by_cases hp : pid = p
  · rw [if_pos hp]
  · rw [if_neg hp]; exact ht hbt

/-- A line that re-activates exactly the PID q, together with the removal of q from
the terminated set, keeps the invariant. -/
theorem LogInv_reactivate (log : List LogLine) (t : GoMap Int Bool) (l : LogLine) (q : Int)
    (h1 : ∀ p, l.reactivates p = decide (q = p)) (h2 : ∀ p, l ≠ LogLine.record p)
    (h : LogInv log t) : LogInv (log ++ [l]) (t.del q) := by
  intro p
  obtain ⟨b, hb, ht⟩ := h p
  by_cases hp : q = p
  · refine ⟨false, ?_, fun hc => by cases hc⟩
    rw [recordState_snoc, hb]
    simp [recordStep, h1 p, hp]
  · refine ⟨b, ?_, fun hbt => by rw [GoMap.getD_del, if_neg hp]; exact ht hbt⟩
    rw [recordState_snoc, hb]
    simp [recordStep, h1 p, hp, h2 p]

theorem terminate_log {σ : Type} (cbs : Callbacks σ) (st st' : LoopState σ) (pid : Int)
    (ps : Option Nat) (h : terminate cbs st pid ps = .ok st') :
    st'.terminated = st.terminated ∧ st'.running = st.running ∧
    (st'.log = st.log ∨ st'.log = st.log ++ [LogLine.record pid]) := by
  unfold terminate at h
  split at h
  · cases h
  · split at h
    · split at h
      · cases h
      · cases h; exact ⟨rfl, rfl, Or.inr rfl⟩
    · cases h; exact ⟨rfl, rfl, Or.inl rfl⟩

theorem term_LogInv {σ : Type} (cbs : Callbacks σ) (st st' : LoopState σ) (pid : Int)
    (hinv : LogInv st.log st.terminated) (h : term cbs st pid = .ok st') :
    LogInv st'.log st'.terminated := by
  unfold term at h
  split at h
  · cases h; exact hinv
  · rename_i hterm
    split at h
    · cases h
    · rename_i st1 h1
      cases h
      obtain ⟨ht, _, hl⟩ := terminate_log cbs st st1 pid _ h1
      show LogInv st1.log (st1.terminated.set pid true)
      rw [ht]
      rcases hl with hl | hl
      · rw [hl]; exact LogInv_set_true _ _ _ hinv
      · rw [hl]; exact LogInv_record _ _ _ (by simpa using hterm) hinv

theorem vanished_LogInv {σ : Type} (cbs : Callbacks σ) (st st' : LoopState σ) (pid : Int)
    (hinv : LogInv st.log st.terminated) (h : vanished cbs st pid = .ok st') :
    LogInv st'.log st'.terminated := by
  unfold vanished at h
  split at h
  · cases h
  · rename_i st1 h1
    cases h
    exact LogInv_snoc_neutral _ _ _ (fun _ => rfl) (fun _ hc => by cases hc)
      (term_LogInv cbs st st1 pid hinv h1)

theorem syscallStop_LogInv {σ : Type} (cbs : Callbacks σ) (env : Env) (st st' : LoopState σ)
    (pid : Int) (ps : Nat) (hinv : LogInv st.log st.terminated)
    (h : syscallStop cbs env st pid ps = .ok st') : LogInv st'.log st'.terminated := by
  unfold syscallStop entryStop exitStop at h
  split at h
  · split at h
    · cases h
    · split at h
      · cases h; exact hinv
      · refine vanished_LogInv cbs _ st' pid ?_ h
        exact hinv
  · split at h
    · cases h
    · split at h
      · cases h; exact hinv
      · refine vanished_LogInv cbs _ st' pid ?_ h
        exact hinv

theorem bumpExec_log {σ : Type} (st : LoopState σ) (pid : Int) :
    (bumpExec st pid).log = st.log ∧ (bumpExec st pid).terminated = st.terminated := by
  unfold bumpExec
  split
  · exact ⟨rfl, rfl⟩
  · exact ⟨rfl, rfl⟩

theorem execEvent_LogInv {σ : Type} (cbs : Callbacks σ) (env : Env) (st st' : LoopState σ)
    (pid : Int) (ps : Nat) (hinv : LogInv st.log st.terminated)
    (h : execEvent cbs env st pid ps = .ok st') : LogInv st'.log st'.terminated := by
  unfold execEvent at h
  split at h
  · cases h
  · rename_i st1 h1
    have e0 := bumpExec_log st pid
    have i1 := term_LogInv cbs (bumpExec st pid) st1 pid (by rw [e0.1, e0.2]; exact hinv) h1
    split at h
    · cases h
    · split at h
      · cases h
      · split at h
        · cases h
        · rename_i st2 h2
          have i2 := term_LogInv cbs st1 st2 _ i1 h2
          unfold execInstall at h
          split at h
          · cases h
          · split at h
            · cases h
            · cases h
              exact LogInv_reactivate _ _ _ pid (fun _ => rfl) (fun _ hc => by cases hc) i2

theorem createProc_LogInv {σ : Type} (st : LoopState σ) (pid trapCause : Int) (newpid : Int)
    (hinv : LogInv st.log st.terminated) :
    LogInv (st.log ++ [LogLine.created pid trapCause newpid]) (st.terminated.del newpid) :=
  LogInv_reactivate _ _ _ newpid (fun _ => rfl) (fun _ hc => by cases hc) hinv

theorem dispatch_LogInv {σ : Type} (cbs : Callbacks σ) (env : Env) (fuel : Nat) :
    ∀ (st st' : LoopState σ) (pid trapCause : Int) (ps : Nat),
      LogInv st.log st.terminated → dispatch cbs env fuel st pid trapCause ps = .ok st' →
      LogInv st'.log st'.terminated := by
  induction fuel with
  | zero => intro st st' pid trapCause ps _ h; simp [dispatch] at h
  | succ n ih =>
    intro st st' pid trapCause ps hinv h
    rw [dispatch] at h
    split at h
    · split at h
      · cases h
      · rename_i unewpid _
        have hc := createProc_LogInv st pid trapCause (toInt64 unewpid) hinv
        split at h
        · cases h; exact hc
        · refine ih _ st' _ _ _ ?_ h
          show LogInv (st.log ++ [LogLine.created pid trapCause (toInt64 unewpid),
            LogLine.resume (toInt64 unewpid)]) (st.terminated.del (toInt64 unewpid))
          have := LogInv_snoc_neutral _ _ (LogLine.resume (toInt64 unewpid)) (fun _ => rfl)
            (fun _ hc => by cases hc) hc
          simpa using this
    · split at h
      · exact execEvent_LogInv cbs env st st' pid ps hinv h
      · split at h
        · split at h
          · cases h
          · split at h
            · cases h; exact hinv
            · exact syscallStop_LogInv cbs env st st' pid ps hinv h
        · split at h
          · exact syscallStop_LogInv cbs env st st' pid ps hinv h
          · cases h

theorem setExit_log {σ : Type} (st : LoopState σ) (pid trapCause : Int) :
    (setExit st pid trapCause).log = st.log ∧
    (setExit st pid trapCause).terminated = st.terminated := by
  unfold setExit
  split
  · exact ⟨rfl, rfl⟩
  · exact ⟨rfl, rfl⟩

theorem afterExit_log {σ : Type} (st : LoopState σ) (pid trapCause : Int) :
    (afterExit st pid trapCause).state.log = st.log ∧
    (afterExit st pid trapCause).state.terminated = st.terminated := by
  unfold afterExit preserveStatus
  split <;> split <;> exact ⟨rfl, rfl⟩

theorem mainLoopStep_LogInv {σ : Type} (cbs : Callbacks σ) (st : LoopState σ) (ev : Event)
    (res : StepResult σ) (hinv : LogInv st.log st.terminated)
    (h : mainLoopStep cbs st ev = .ok res) : LogInv res.state.log res.state.terminated := by
  unfold mainLoopStep at h
  split at h
  · split at h
    · cases h
    · rename_i st1 h1
      cases h
      have e0 := setExit_log st ev.pid ev.trapCause
      have i1 := term_LogInv cbs _ st1 ev.pid (by rw [e0.1, e0.2]; exact hinv) h1
      have e1 := afterExit_log st1 ev.pid ev.trapCause
      rw [e1.1, e1.2]; exact i1
  · split at h
    · cases h
      exact LogInv_snoc_neutral _ _ _ (fun _ => rfl) (fun _ hc => by cases hc) hinv
    · split at h
      · cases h
      · rename_i st1 h1
        cases h
        exact dispatch_LogInv cbs ev.env _ st st1 _ _ _ hinv h1

theorem mainLoopFrom_LogInv {σ : Type} (cbs : Callbacks σ) (evs : List Event) :
    ∀ (st st' : LoopState σ), LogInv st.log st.terminated →
      (mainLoopFrom cbs st evs = Outcome.waiting st' ∨
        ∃ rc, mainLoopFrom cbs st evs = Outcome.returned rc st') →
      LogInv st'.log st'.terminated := by
  induction evs with
  | nil =>
    intro st st' hinv h
    simp only [mainLoopFrom] at h
    rcases h with h | ⟨rc, h⟩
    · cases h; exact hinv
    · cases h
  | cons ev evs ih =>
    intro st st' hinv h
    simp only [mainLoopFrom] at h
    cases hs : mainLoopStep cbs st ev with
    | error f =>
      rw [hs] at h
      rcases h with h | ⟨rc, h⟩ <;> cases h
    | ok res =>
      have hi := mainLoopStep_LogInv cbs st ev res hinv hs
      rw [hs] at h
      cases res with
      | next st1 => exact ih st1 st' hi h
      | done rc st1 =>
        rcases h with h | ⟨rc1, h⟩
        · cases h
        · cases h; exact hi

theorem term_terminated {σ : Type} (cbs : Callbacks σ) (st st' : LoopState σ) (pid : Int)
    (h : term cbs st pid = .ok st') :
    st'.terminated.getD pid false = true ∧
    (st.terminated.getD pid false = false → st'.running.get? pid = none) := by
  unfold term at h
  split at h
  · rename_i ht
    cases h
    exact ⟨ht, fun hc => by rw [ht] at hc; cases hc⟩
  · split at h
    · cases h
    · cases h
      exact ⟨by simp [GoMap.getD_set], fun _ => by simp [GoMap.get?_del]⟩

theorem LogInv_last_record (log : List LogLine) (t : GoMap Int Bool) (h : LogInv log t)
    (p : Int) (pre post : List LogLine) (hlog : log = pre ++ LogLine.record p :: post)
    (hpost : ∀ l ∈ post, l.reactivates p = false) : t.getD p false = true := by
  obtain ⟨b, hb, ht⟩ := h p
  apply ht
  rw [hlog, recordState, List.foldl_append, List.foldl_cons] at hb
  have h1 := recordStep_record_self p (pre.foldl (recordStep p) (some false))
  rcases recordStep_foldl_seen p post hpost _ h1 with h2 | h2
  · rw [h2] at hb; cases hb
  · rw [h2] at hb; cases hb; rfl

/-- C13: `term` invokes `terminate` for a PID only when the PID is not in the terminated
set; after the call the PID is in the terminated set and (when `terminate` was
invoked) not in the running set. In the trace log of every run of `mainLoop`
that is blocked or has returned, any two records of one PID have a line between
them that re-activates the PID (a creation line naming it or an exec line on
it), and a PID with a record after its last re-activation is in the terminated
set. A termination event of a PID that has vanished prints no record and calls
no callback. -/
theorem term_guards_records {σ : Type} (cbs : Callbacks σ) (sys : SysState) (mainPID : Int)
    (cwd : String) (user : σ) (events : List Event) (final : LoopState σ)
    (hrun : mainLoop cbs sys mainPID (some cwd) user events = Outcome.waiting final ∨
      ∃ rc, mainLoop cbs sys mainPID (some cwd) user events = Outcome.returned rc final) :
    (∀ (st : LoopState σ) (pid : Int), st.terminated.getD pid false = true →
      term cbs st pid = .ok st) ∧
    (∀ (st : LoopState σ) (pid : Int), st.terminated.getD pid false = false →
      term cbs st pid =
        match terminate cbs st pid (st.pstates.get? pid) with
        | .error f => .error f
        | .ok st1 =>
          .ok { st1 with terminated := st1.terminated.set pid true,
                         running := st1.running.del pid }) ∧
    (∀ (st st1 : LoopState σ) (pid : Int), term cbs st pid = .ok st1 →
      st1.terminated.getD pid false = true ∧
      (st.terminated.getD pid false = false → st1.running.get? pid = none)) ∧
    (∀ (p : Int) (pre mid post : List LogLine),
      final.log = pre ++ LogLine.record p :: (mid ++ LogLine.record p :: post) →
      ∃ l ∈ mid, l.reactivates p = true) ∧
    (∀ (p : Int) (pre post : List LogLine), final.log = pre ++ LogLine.record p :: post →
      (∀ l ∈ post, l.reactivates p = false) → final.terminated.getD p false = true) ∧
    (∀ (st st1 : LoopState σ) (ev : Event), vanished cbs st ev.pid = .ok st1 → ev.ok = false →
      mainLoopStep cbs st1 ev =
        .ok (afterExit (setExit st1 ev.pid ev.trapCause) ev.pid ev.trapCause) ∧
      (afterExit (setExit st1 ev.pid ev.trapCause) ev.pid ev.trapCause).state.log = st1.log ∧
      (afterExit (setExit st1 ev.pid ev.trapCause) ev.pid ev.trapCause).state.user =
        st1.user) := by
  have hinv : LogInv final.log final.terminated :=
    mainLoopFrom_LogInv cbs events _ final LogInv_init hrun
  have hguard : ∀ (st : LoopState σ) (pid : Int), st.terminated.getD pid false = true →
      term cbs st pid = .ok st := by
    intro st pid h
    unfold term
    rw [if_pos h]
  refine ⟨hguard, ?_, ?_, ?_, ?_, ?_⟩
  · intro st pid h
    unfold term
    rw [if_neg (by rw [h]; decide)]
  · intro st st1 pid h
    exact term_terminated cbs st st1 pid h
  · intro p pre mid post hlog
    obtain ⟨b, hb, _⟩ := hinv p
    exact recordState_no_double p final.log (by rw [hb]; exact fun hc => by cases hc)
      pre mid post hlog
  · intro p pre post hlog hpost
    exact LogInv_last_record _ _ hinv p pre post hlog hpost
  · intro st st1 ev hv hok
    have ht : st1.terminated.getD ev.pid false = true := by
      unfold vanished at hv
      split at hv
      · cases hv
      · rename_i st2 h2
        cases hv
        exact (term_terminated cbs st st2 ev.pid h2).1
    have hs := setExit_log st1 ev.pid ev.trapCause
    have hterm := hguard (setExit st1 ev.pid ev.trapCause) ev.pid (by rw [hs.2]; exact ht)
    refine ⟨?_, ?_, ?_⟩
    · unfold mainLoopStep
      rw [if_pos hok, hterm]
    · rw [(afterExit_log _ _ _).1, hs.1]
    · unfold afterExit preserveStatus setExit
      split <;> split <;> split <;> rfl

/-- Instance of C13: the main process executes a command, vanishes at its next stop and
is then reported as exited; the run returns 0 with a single record in the
trace log and a single emitted record, and PID 1 is in the terminated set. -/
theorem term_guards_records_witness :
    (superviseSample execVanishExit).status = some 0 ∧
    ((superviseSample execVanishExit).finalState sampleState0).log =
      [LogLine.exec 1 1, LogLine.record 1, LogLine.vanish 1] ∧
    ((superviseSample execVanishExit).finalState sampleState0).user.records.length = 1 ∧
    ((superviseSample execVanishExit).finalState sampleState0).terminated.getD 1 false = true :=
  ⟨by decide, by decide, by decide,
   (term_guards_records (mainCallbacks false []) NewSysState 1 "/w" mainState0 execVanishExit
      ((superviseSample execVanishExit).finalState sampleState0)
      (Or.inr ⟨0, by rfl⟩)).2.2.2.2.1 1 [LogLine.exec 1 1] [LogLine.vanish 1] (by decide)
      (by decide)⟩

theorem GoMap.get?_ne_none_iff {κ ν : Type} [DecidableEq κ] (m : GoMap κ ν) (k : κ) :
    m.get? k ≠ none ↔ k ∈ m.map Prod.fst := by
  induction m with
  | nil => simp [GoMap.get?]
  | cons a m ih =>
    rcases a with ⟨a, v⟩
    simp only [GoMap.get?, List.map_cons, List.mem_cons]
    by_cases h : a = k
    · simp [h]
    · rw [if_neg h, ih]
      constructor
      · intro hm; exact Or.inr hm
      · rintro (hm | hm)
        · exact absurd hm.symm h
        · exact hm

theorem LoopState.mem_sharers {σ : Type} (st : LoopState σ) (x : Nat) (p : Int) :
    p ∈ st.sharers x ↔ st.running.get? p ≠ none ∧ st.iosOf p = some x := by
  simp only [LoopState.sharers, Finset.mem_filter, List.mem_toFinset, GoMap.get?_ne_none_iff]

theorem List.getD_append_default {α : Type} (l : List α) (i : Nat) (d : α) :
    (l ++ [d]).getD i d = l.getD i d := by
  simp only [List.getD_eq_getElem?_getD, List.getElem?_append]
  by_cases h : i < l.length
  · simp [h]
  · have h' : l.length ≤ i := Nat.le_of_not_lt h
    simp only [h, if_false, List.getElem?_eq_none h', Option.getD_none]
    by_cases h2 : i - l.length = 0
    · simp [h2]
    · have : [d].length ≤ i - l.length := by simp; omega
      rw [List.getElem?_eq_none this]; rfl

theorem List.getD_append_new {α : Type} (l : List α) (v d : α) :
    (l ++ [v]).getD l.length d = v := by
  simp [List.getD_eq_getElem?_getD]

theorem List.getD_append_ne {α : Type} (l : List α) (i : Nat) (v d : α) (h : i ≠ l.length) :
    (l ++ [v]).getD i d = l.getD i d := by
  simp only [List.getD_eq_getElem?_getD, List.getElem?_append]
  by_cases h1 : i < l.length
  · simp [h1]
  · have h' : l.length ≤ i := Nat.le_of_not_lt h1
    simp only [h1, if_false, List.getElem?_eq_none h', Option.getD_none]
    have : [v].length ≤ i - l.length := by simp; omega
    rw [List.getElem?_eq_none this]; rfl

theorem Heap.ResetIOs_effect (h : Heap) (r : Nat) (hr : r < h.procs.length)
    (hx : (h.proc r).IOs < h.ios.length) :
    (h.ResetIOs r).ios.length = h.ios.length + 1 ∧
    (∀ r', ((h.ResetIOs r).proc r').IOs = if r' = r then h.ios.length else (h.proc r').IOs) ∧
    (∀ x, ((h.ResetIOs r).ios.getD x NewIOs).Cnt =
      if x = (h.proc r).IOs then (h.ios.getD x NewIOs).Cnt - 1 else (h.ios.getD x NewIOs).Cnt) := by
  refine ⟨by simp [Heap.ResetIOs], ?_, ?_⟩
  · intro r'
    by_cases h1 : r' = r
    · subst h1
      rw [if_pos rfl]
      simp only [Heap.ResetIOs, Heap.proc]
      rw [List.getD_set_self _ _ _ _ hr]
    · rw [if_neg h1]
      simp only [Heap.ResetIOs, Heap.proc]
      rw [List.getD_set_ne _ _ _ _ _ (fun hc => h1 hc.symm)]
  · intro x
    simp only [Heap.ResetIOs, Heap.procIOs]
    rw [List.getD_append_default]
    by_cases h1 : x = (h.proc r).IOs
    · subst h1
      rw [if_pos rfl, List.getD_set_self _ _ _ _ hx]
    · rw [if_neg h1, List.getD_set_ne _ _ _ _ _ (fun hc => h1 hc.symm)]

theorem Heap.Clone_effect (h : Heap) (r : Nat) (share : Bool)
    (hx : (h.proc r).IOs < h.ios.length) :
    (h.Clone r share).2 = h.procs.length ∧
    (h.Clone r share).1.procs.length = h.procs.length + 1 ∧
    (h.Clone r share).1.ios.length = (if share then h.ios.length else h.ios.length + 1) ∧
    (∀ r', ((h.Clone r share).1.proc r').IOs =
      if r' = h.procs.length then (if share then (h.proc r).IOs else h.ios.length)
      else (h.proc r').IOs) ∧
    (∀ x, ((h.Clone r share).1.ios.getD x NewIOs).Cnt =
      if share = true ∧ x = (h.proc r).IOs then (h.ios.getD x NewIOs).Cnt + 1
      else (h.ios.getD x NewIOs).Cnt) := by
  cases share with
  | true =>
    refine ⟨rfl, by simp [Heap.Clone], by simp [Heap.Clone], ?_, ?_⟩
    · intro r'
      simp only [Heap.Clone, if_true, Heap.proc]
      by_cases h1 : r' = h.procs.length
      · subst h1
        rw [if_pos rfl, List.getD_append_new]
      · rw [if_neg h1, List.getD_append_ne _ _ _ _ h1]
    · intro x
      simp only [Heap.Clone, if_true, Heap.procIOs, true_and]
      by_cases h1 : x = (h.proc r).IOs
      · subst h1
        rw [if_pos rfl, List.getD_set_self _ _ _ _ hx]
      · rw [if_neg h1, List.getD_set_ne _ _ _ _ _ (fun hc => h1 hc.symm)]
  | false =>
    refine ⟨rfl, by simp [Heap.Clone], by simp [Heap.Clone], ?_, ?_⟩
    · intro r'
      simp only [Heap.Clone, Bool.false_eq_true, if_false, Heap.proc]
      by_cases h1 : r' = h.procs.length
      · subst h1
        rw [if_pos rfl, List.getD_append_new]
      · rw [if_neg h1, List.getD_append_ne _ _ _ _ h1]
    · intro x
      simp only [Heap.Clone, Bool.false_eq_true, if_false, false_and]
      rw [List.getD_append_default]

theorem Heap.store_effect (h : Heap) (r : Nat) (v : ProcState)
    (hv : v.IOs.Cnt = (h.procIOs r).Cnt) :
    (h.store r v).ios.length = h.ios.length ∧
    (∀ r', ((h.store r v).proc r').IOs = (h.proc r').IOs) ∧
    (∀ x, ((h.store r v).ios.getD x NewIOs).Cnt = (h.ios.getD x NewIOs).Cnt) := by
  refine ⟨by simp [Heap.store], ?_, ?_⟩
  · intro r'
    simp only [Heap.store, Heap.proc]
    by_cases h1 : r' = r
    · subst h1
      by_cases h2 : r' < h.procs.length
      · rw [List.getD_set_self _ _ _ _ h2]
      · have h3 : h.procs.length ≤ r' := Nat.le_of_not_lt h2
        rw [List.getD_eq_default _ _ (by simpa using h3)]
        rw [List.getD_eq_default _ _ h3]
    · rw [List.getD_set_ne _ _ _ _ _ (fun hc => h1 hc.symm)]
  · intro x
    simp only [Heap.store]
    by_cases h1 : x = (h.proc r).IOs
    · subst h1
      by_cases h2 : (h.proc r).IOs < h.ios.length
      · rw [List.getD_set_self _ _ _ _ h2, hv]; rfl
      · have h3 : h.ios.length ≤ (h.proc r).IOs := Nat.le_of_not_lt h2
        rw [List.getD_eq_default _ _ (by simpa using h3)]
        rw [List.getD_eq_default _ _ h3]
    · rw [List.getD_set_ne _ _ _ _ _ (fun hc => h1 hc.symm)]

theorem LoopState.iosOf_eq {σ : Type} (st : LoopState σ) (p : Int) (r : Nat)
    (h : st.pstates.get? p = some r) : st.iosOf p = some (st.heap.proc r).IOs := by
  simp [LoopState.iosOf, h]

theorem LoopState.iosOf_some {σ : Type} (st : LoopState σ) (p : Int) (x : Nat)
    (h : st.iosOf p = some x) : ∃ r, st.pstates.get? p = some r ∧ (st.heap.proc r).IOs = x := by
  unfold LoopState.iosOf at h
  cases hp : st.pstates.get? p with
  | none => rw [hp] at h; cases h
  | some r => rw [hp] at h; exact ⟨r, rfl, by simpa using h⟩

/-- The discipline only looks at the sizes of the heap, the IOSet references of the
states, the refcounts and the four maps of PIDs. -/
theorem RefInv.congr {σ : Type} (st st' : LoopState σ) (h : RefInv st)
    (hp : st'.heap.procs.length = st.heap.procs.length)
    (hi : st'.heap.ios.length = st.heap.ios.length)
    (hio : ∀ r, (st'.heap.proc r).IOs = (st.heap.proc r).IOs)
    (hc : ∀ x, st'.cntOf x = st.cntOf x)
    (hpst : st'.pstates = st.pstates) (hr : st'.running = st.running)
    (ht : st'.terminated = st.terminated)
    (hs : ∀ q c, st'.suspended.get? q = some c →
      isCreation c = false ∧ c ≠ PTRACE_EVENT_EXEC) : RefInv st' := by
  have hios : ∀ p, st'.iosOf p = st.iosOf p := by
    intro p
    simp only [LoopState.iosOf, hpst, hio]
  have hsh : ∀ x, st'.sharers x = st.sharers x := by
    intro x
    ext p
    rw [LoopState.mem_sharers, LoopState.mem_sharers, hr, hios]
  refine ⟨?_, ?_, ?_, ?_, ?_, ?_, hs, ?_⟩
  · intro p r h1; rw [hp]; exact h.valid p r (by rw [← hpst]; exact h1)
  · intro r h1; rw [hio, hi]; exact h.inRange r (by rw [← hp]; exact h1)
  · intro p h1; rw [hpst]; exact h.hasState p (by rw [← hr]; exact h1)
  · intro p h1; rw [ht]; exact h.notTerm p (by rw [← hr]; exact h1)
  · intro p h1 h2; rw [hr]; exact h.alive p (by rw [← hpst]; exact h1) (by rw [← ht]; exact h2)
  · intro p q r h1 h2 h3 h4
    rw [hr] at h1 h2; rw [hpst] at h3 h4
    exact h.noAlias p q r h1 h2 h3 h4
  · intro p x h1 h2
    rw [hc, hsh]
    exact h.count p x (by rw [← hr]; exact h1) (by rw [← hios]; exact h2)

/-- The effect of `term` on a running PID keeps the discipline; the state of the PID is
left with a fresh IOSet of refcount 1 that no running PID holds. -/
theorem RefInv.term_step {σ : Type} (st st' : LoopState σ) (h : RefInv st) (pid : Int)
    (r : Nat) (hps : st.pstates.get? pid = some r) (hrun : st.running.get? pid ≠ none)
    (hp : st'.heap.procs.length = st.heap.procs.length)
    (hi : st'.heap.ios.length = st.heap.ios.length + 1)
    (hio : ∀ r', (st'.heap.proc r').IOs =
      if r' = r then st.heap.ios.length else (st.heap.proc r').IOs)
    (hc : ∀ x, st'.cntOf x = if x = (st.heap.proc r).IOs then st.cntOf x - 1 else st.cntOf x)
    (hpst : st'.pstates = st.pstates) (hr : st'.running = st.running.del pid)
    (ht : st'.terminated = st.terminated.set pid true)
    (hs : st'.suspended = st.suspended) :
    RefInv st' ∧ st'.cntOf (st'.heap.proc r).IOs = 1 ∧
    (∀ p, st'.running.get? p ≠ none → st'.pstates.get? p ≠ some r) ∧
    (∀ p, st'.running.get? p ≠ none → st'.iosOf p ≠ some (st'.heap.proc r).IOs) := by
  have hrv : r < st.heap.procs.length := h.valid pid r hps
  have hxr : (st.heap.proc r).IOs < st.heap.ios.length := h.inRange r hrv
  have hrun' : ∀ p, st'.running.get? p ≠ none ↔ p ≠ pid ∧ st.running.get? p ≠ none := by
    intro p
    rw [hr, GoMap.get?_del]
    by_cases hpp : pid = p
    · simp [hpp]
    · have hpp' : p ≠ pid := fun hc => hpp hc.symm
      simp [hpp, hpp']
  have hne : ∀ p rp, p ≠ pid → st.running.get? p ≠ none → st.pstates.get? p = some rp →
      rp ≠ r := by
    intro p rp h1 h2 h3 h4
    exact h1 (h.noAlias p pid r h2 hrun (by rw [h3, h4]) hps)
  have hios : ∀ p, p ≠ pid → st.running.get? p ≠ none → st'.iosOf p = st.iosOf p := by
    intro p h1 h2
    obtain ⟨rp, hrp⟩ := Option.ne_none_iff_exists'.1 (h.hasState p h2)
    rw [LoopState.iosOf_eq st' p rp (by rw [hpst]; exact hrp), LoopState.iosOf_eq st p rp hrp,
      hio, if_neg (hne p rp h1 h2 hrp)]
  have hfreshRef : (st'.heap.proc r).IOs = st.heap.ios.length := by rw [hio, if_pos rfl]
  have hsh : ∀ x, st'.sharers x = (st.sharers x).erase pid := by
    intro x
    ext p
    rw [LoopState.mem_sharers, Finset.mem_erase, LoopState.mem_sharers, hrun']
    constructor
    · rintro ⟨⟨h1, h2⟩, h3⟩
      exact ⟨h1, h2, by rw [← hios p h1 h2]; exact h3⟩
    · rintro ⟨h1, h2, h3⟩
      exact ⟨⟨h1, h2⟩, by rw [hios p h1 h2]; exact h3⟩
  have hpidmem : pid ∈ st.sharers (st.heap.proc r).IOs := by
    rw [LoopState.mem_sharers]
    exact ⟨hrun, LoopState.iosOf_eq st pid r hps⟩
  refine ⟨⟨?_, ?_, ?_, ?_, ?_, ?_, ?_, ?_⟩, ?_, ?_, ?_⟩
  · intro p r0 h1; rw [hp]; exact h.valid p r0 (by rw [← hpst]; exact h1)
  · intro r0 h1
    rw [hio, hi]
    by_cases h2 : r0 = r
    · rw [if_pos h2]; omega
    · rw [if_neg h2]
      have := h.inRange r0 (by rw [← hp]; exact h1)
      omega
  · intro p h1; rw [hpst]; exact h.hasState p ((hrun' p).1 h1).2
  · intro p h1
    have h2 := (hrun' p).1 h1
    rw [ht, GoMap.getD_set, if_neg (fun hc => h2.1 hc.symm)]
    exact h.notTerm p h2.2
  · intro p h1 h2
    rw [ht, GoMap.getD_set] at h2
    by_cases hpp : pid = p
    · rw [if_pos hpp] at h2; cases h2
    · rw [if_neg hpp] at h2
      exact (hrun' p).2 ⟨fun hc => hpp hc.symm, h.alive p (by rw [← hpst]; exact h1) h2⟩
  · intro p q r0 h1 h2 h3 h4
    rw [hpst] at h3 h4
    exact h.noAlias p q r0 ((hrun' p).1 h1).2 ((hrun' q).1 h2).2 h3 h4
  · intro q c h1; rw [hs] at h1; exact h.susp q c h1
  · intro p x h1 h2
    have h3 := (hrun' p).1 h1
    rw [hios p h3.1 h3.2] at h2
    have hcnt := h.count p x h3.2 h2
    rw [hc, hsh]
    by_cases hx : x = (st.heap.proc r).IOs
    · subst hx
      rw [if_pos rfl, hcnt, Finset.card_erase_of_mem hpidmem]
      have : 0 < (st.sharers (st.heap.proc r).IOs).card := Finset.card_pos.2 ⟨pid, hpidmem⟩
      omega
    · rw [if_neg hx, hcnt, Finset.erase_eq_of_not_mem]
      intro hm
      rw [LoopState.mem_sharers, LoopState.iosOf_eq st pid r hps] at hm
      exact hx (by simpa using hm.2.symm)
  · rw [hfreshRef, hc, if_neg (by omega)]
    simp only [LoopState.cntOf]
    rw [List.getD_eq_default _ _ (Nat.le_refl _)]
    rfl
  · intro p h1 h2
    have h3 := (hrun' p).1 h1
    rw [hpst] at h2
    exact hne p r h3.1 h3.2 h2 rfl
  · intro p h1 h2
    have h3 := (hrun' p).1 h1
    rw [hios p h3.1 h3.2, hfreshRef] at h2
    obtain ⟨rp, hrp, hrx⟩ := LoopState.iosOf_some st p _ h2
    have := h.inRange rp (h.valid p rp hrp)
    omega

/-- The effect of a creation event keeps the discipline when the stopped PID is
running and the new PID is not running or is another PID whose IOSet has
refcount 1. -/
theorem RefInv.create_step {σ : Type} (st st' : LoopState σ) (h : RefInv st)
    (pid newpid : Int) (r : Nat) (share : Bool)
    (hps : st.pstates.get? pid = some r) (hrun : st.running.get? pid ≠ none)
    (hnew : st.running.get? newpid = none ∨
      (newpid ≠ pid ∧ ∃ x, st.iosOf newpid = some x ∧ st.cntOf x = 1))
    (hp : st'.heap.procs.length = st.heap.procs.length + 1)
    (hi : st'.heap.ios.length =
      if share then st.heap.ios.length else st.heap.ios.length + 1)
    (hio : ∀ r', (st'.heap.proc r').IOs =
      if r' = st.heap.procs.length then
        (if share then (st.heap.proc r).IOs else st.heap.ios.length)
      else (st.heap.proc r').IOs)
    (hc : ∀ x, st'.cntOf x =
      if share = true ∧ x = (st.heap.proc r).IOs then st.cntOf x + 1 else st.cntOf x)
    (hpst : st'.pstates = st.pstates.set newpid st.heap.procs.length)
    (hr : st'.running = st.running.set newpid true)
    (ht : st'.terminated = st.terminated.del newpid)
    (hs : ∀ q c, st'.suspended.get? q = some c → st.suspended.get? q = some c) :
    RefInv st' := by
  have hrv : r < st.heap.procs.length := h.valid pid r hps
  have hxr : (st.heap.proc r).IOs < st.heap.ios.length := h.inRange r hrv
  have hrun' : ∀ p, st'.running.get? p ≠ none ↔ p = newpid ∨ st.running.get? p ≠ none := by
    intro p
    rw [hr, GoMap.get?_set]
    by_cases hpp : newpid = p
    · simp [hpp]
    · have hpp' : p ≠ newpid := fun hc => hpp hc.symm
      simp [hpp, hpp']
  have hpst' : ∀ p, st'.pstates.get? p =
      if newpid = p then some st.heap.procs.length else st.pstates.get? p := by
    intro p; rw [hpst, GoMap.get?_set]
  have hiosNew : st'.iosOf newpid =
      some (if share then (st.heap.proc r).IOs else st.heap.ios.length) := by
    rw [LoopState.iosOf_eq st' newpid st.heap.procs.length (by rw [hpst', if_pos rfl]), hio,
      if_pos rfl]
  have hios : ∀ p, p ≠ newpid → st'.iosOf p = st.iosOf p := by
    intro p h1
    have h2 : st'.pstates.get? p = st.pstates.get? p := by
      rw [hpst', if_neg (fun hc => h1 hc.symm)]
    cases hq : st.pstates.get? p with
    | none => simp [LoopState.iosOf, h2, hq]
    | some rp =>
      have h3 := h.valid p rp hq
      rw [LoopState.iosOf_eq st' p rp (by rw [h2]; exact hq), LoopState.iosOf_eq st p rp hq, hio,
        if_neg (by omega)]
  have hother : ∀ x p, p ≠ newpid → p ∈ st.sharers x → newpid ∉ st.sharers x := by
    intro x p hp hm hn
    rw [LoopState.mem_sharers] at hn
    rcases hnew with hnew | ⟨_, x0, hx0, hc0⟩
    · exact hn.1 hnew
    · have hxx : x0 = x := by rw [hx0] at hn; simpa using hn.2
      subst hxx
      have hcard : (st.sharers x0).card = 1 := by
        have := h.count newpid x0 hn.1 hx0
        rw [hc0] at this
        exact_mod_cast this.symm
      obtain ⟨a, ha⟩ := Finset.card_eq_one.1 hcard
      have h1 : newpid ∈ st.sharers x0 := (LoopState.mem_sharers st x0 newpid).2 hn
      rw [ha, Finset.mem_singleton] at h1 hm
      exact hp (hm.trans h1.symm)
  have hpn : pid ≠ newpid := by
    rcases hnew with hnew | ⟨hne, _⟩
    · intro hc; rw [hc] at hrun; exact hrun hnew
    · exact fun hc => hne hc.symm
  have hpar : newpid ∉ st.sharers (st.heap.proc r).IOs :=
    hother _ pid hpn ((LoopState.mem_sharers st _ pid).2 ⟨hrun, LoopState.iosOf_eq st pid r hps⟩)
  have hsh : ∀ x, st'.sharers x =
      if x = (if share then (st.heap.proc r).IOs else st.heap.ios.length) then
        insert newpid ((st.sharers x).erase newpid)
      else (st.sharers x).erase newpid := by
    intro x
    ext p
    rw [LoopState.mem_sharers, hrun']
    by_cases hpp : p = newpid
    · subst hpp
      rw [hiosNew]
      by_cases hx : x = (if share then (st.heap.proc r).IOs else st.heap.ios.length)
      · rw [if_pos hx, Finset.mem_insert]
        simp [hx]
      · rw [if_neg hx]
        constructor
        · rintro ⟨_, h2⟩; exact absurd (by simpa using h2.symm) hx
        · intro hm; exact absurd hm (Finset.not_mem_erase _ _)
    · rw [hios p hpp]
      by_cases hx : x = (if share then (st.heap.proc r).IOs else st.heap.ios.length)
      · rw [if_pos hx, Finset.mem_insert, Finset.mem_erase, LoopState.mem_sharers]
        simp [hpp]
      · rw [if_neg hx, Finset.mem_erase, LoopState.mem_sharers]
        simp [hpp]
  have hempty : st.sharers st.heap.ios.length = ∅ := by
    ext p
    rw [LoopState.mem_sharers]
    simp only [Finset.not_mem_empty, iff_false, not_and]
    intro _ h2
    obtain ⟨rp, hrp, hrx⟩ := LoopState.iosOf_some st p _ h2
    have := h.inRange rp (h.valid p rp hrp)
    omega
  have hdef : st.cntOf st.heap.ios.length = 1 := by
    simp only [LoopState.cntOf]
    rw [List.getD_eq_default _ _ (Nat.le_refl _)]
    rfl
  refine ⟨?_, ?_, ?_, ?_, ?_, ?_, ?_, ?_⟩
  · intro p r0 h1
    rw [hpst'] at h1
    rw [hp]
    by_cases hpp : newpid = p
    · rw [if_pos hpp] at h1
      have : st.heap.procs.length = r0 := by simpa using h1
      omega
    · rw [if_neg hpp] at h1
      have := h.valid p r0 h1
      omega
  · intro r0 h1
    rw [hio, hi]
    by_cases h2 : r0 = st.heap.procs.length
    · rw [if_pos h2]
      cases share with
      | true => simp; omega
      | false => simp
    · rw [if_neg h2]
      have := h.inRange r0 (by omega)
      cases share <;> simp <;> omega
  · intro p h1
    rw [hpst']
    by_cases hpp : newpid = p
    · rw [if_pos hpp]; simp
    · rw [if_neg hpp]
      rcases (hrun' p).1 h1 with h2 | h2
      · exact absurd h2.symm hpp
      · exact h.hasState p h2
  · intro p h1
    rw [ht, GoMap.getD_del]
    by_cases hpp : newpid = p
    · rw [if_pos hpp]
    · rw [if_neg hpp]
      rcases (hrun' p).1 h1 with h2 | h2
      · exact absurd h2.symm hpp
      · exact h.notTerm p h2
  · intro p h1 h2
    rw [hrun']
    by_cases hpp : newpid = p
    · exact Or.inl hpp.symm
    · rw [hpst', if_neg hpp] at h1
      rw [ht, GoMap.getD_del, if_neg hpp] at h2
      exact Or.inr (h.alive p h1 h2)
  · intro p q r0 h1 h2 h3 h4
    rw [hpst'] at h3 h4
    by_cases hpp : newpid = p
    · by_cases hqq : newpid = q
      · rw [← hpp, ← hqq]
      · rw [if_pos hpp] at h3
        rw [if_neg hqq] at h4
        have h5 : st.heap.procs.length = r0 := by simpa using h3
        have := h.valid q r0 h4
        omega
    · by_cases hqq : newpid = q
      · rw [if_pos hqq] at h4
        rw [if_neg hpp] at h3
        have h5 : st.heap.procs.length = r0 := by simpa using h4
        have := h.valid p r0 h3
        omega
      · rw [if_neg hpp] at h3
        rw [if_neg hqq] at h4
        rcases (hrun' p).1 h1 with h5 | h5
        · exact absurd h5.symm hpp
        · rcases (hrun' q).1 h2 with h6 | h6
          · exact absurd h6.symm hqq
          · exact h.noAlias p q r0 h5 h6 h3 h4
  · intro q c h1
    exact h.susp q c (hs q c h1)
  · intro p x h1 h2
    rw [hc, hsh]
    by_cases hpp : p = newpid
    · subst hpp
      rw [hiosNew] at h2
      have hx : x = (if share then (st.heap.proc r).IOs else st.heap.ios.length) := by
        simpa using h2.symm
      rw [if_pos hx, Finset.card_insert_of_not_mem (Finset.not_mem_erase _ _)]
      cases share with
      | true =>
        simp only [if_true] at hx
        rw [if_pos ⟨rfl, hx⟩]
        have := h.count pid x hrun (by rw [LoopState.iosOf_eq st pid r hps, hx])
        rw [this, hx, Finset.erase_eq_of_not_mem hpar]; push_cast; ring
      | false =>
        simp only [Bool.false_eq_true, if_false] at hx
        rw [if_neg (by simp), hx, hdef, hempty]
        simp
    · rw [hios p hpp] at h2
      have hrunp : st.running.get? p ≠ none := by
        rcases (hrun' p).1 h1 with h5 | h5
        · exact absurd h5 hpp
        · exact h5
      have hcnt := h.count p x hrunp h2
      have hnm : newpid ∉ st.sharers x :=
        hother x p hpp ((LoopState.mem_sharers st x p).2 ⟨hrunp, h2⟩)
      rw [Finset.erase_eq_of_not_mem hnm]
      obtain ⟨rp, hrp, hrx⟩ := LoopState.iosOf_some st p _ h2
      have hxlt : x < st.heap.ios.length := by
        rw [← hrx]; exact h.inRange rp (h.valid p rp hrp)
      cases share with
      | true =>
        simp only [if_true, true_and]
        by_cases hx : x = (st.heap.proc r).IOs
        · rw [if_pos hx, if_pos hx, Finset.card_insert_of_not_mem hnm, hcnt]
          push_cast; ring
        · rw [if_neg hx, if_neg hx, hcnt]
      | false =>
        simp only [Bool.false_eq_true, if_false, false_and]
        rw [if_neg (by omega), hcnt]

/-- The end of the exec case keeps the discipline: a state that no running PID holds,
with an IOSet of refcount 1 that no running PID holds, is installed under a
PID that is not running. -/
theorem RefInv.install_step {σ : Type} (st st' : LoopState σ) (h : RefInv st) (pid : Int)
    (r : Nat) (hrv : r < st.heap.procs.length) (hnot : st.running.get? pid = none)
    (hf1 : st.cntOf (st.heap.proc r).IOs = 1)
    (hf2 : ∀ p, st.running.get? p ≠ none → st.pstates.get? p ≠ some r)
    (hf3 : ∀ p, st.running.get? p ≠ none → st.iosOf p ≠ some (st.heap.proc r).IOs)
    (hp : st'.heap.procs.length = st.heap.procs.length)
    (hi : st'.heap.ios.length = st.heap.ios.length)
    (hio : ∀ r', (st'.heap.proc r').IOs = (st.heap.proc r').IOs)
    (hc : ∀ x, st'.cntOf x = st.cntOf x)
    (hpst : st'.pstates = st.pstates.set pid r)
    (hr : st'.running = st.running.set pid true)
    (ht : st'.terminated = st.terminated.del pid)
    (hs : st'.suspended = st.suspended) : RefInv st' := by
  have hrun' : ∀ p, st'.running.get? p ≠ none ↔ p = pid ∨ st.running.get? p ≠ none := by
    intro p
    rw [hr, GoMap.get?_set]
    by_cases hpp : pid = p
    · simp [hpp]
    · have hpp' : p ≠ pid := fun hc => hpp hc.symm
      simp [hpp, hpp']
  have hpst' : ∀ p, st'.pstates.get? p = if pid = p then some r else st.pstates.get? p := by
    intro p; rw [hpst, GoMap.get?_set]
  have hiosNew : st'.iosOf pid = some (st.heap.proc r).IOs := by
    rw [LoopState.iosOf_eq st' pid r (by rw [hpst', if_pos rfl]), hio]
  have hios : ∀ p, p ≠ pid → st'.iosOf p = st.iosOf p := by
    intro p h1
    simp only [LoopState.iosOf, hpst', if_neg (fun hc : pid = p => h1 hc.symm), hio]
  have hsh : ∀ x, st'.sharers x =
      if x = (st.heap.proc r).IOs then {pid} else st.sharers x := by
    intro x
    ext p
    rw [LoopState.mem_sharers, hrun']
    by_cases hpp : p = pid
    · subst hpp
      rw [hiosNew]
      by_cases hx : x = (st.heap.proc r).IOs
      · rw [if_pos hx]; simp [hx]
      · rw [if_neg hx, LoopState.mem_sharers]
        constructor
        · rintro ⟨_, h2⟩; exact absurd (by simpa using h2.symm) hx
        · rintro ⟨h2, _⟩; exact absurd hnot h2
    · rw [hios p hpp]
      by_cases hx : x = (st.heap.proc r).IOs
      · rw [if_pos hx, Finset.mem_singleton]
        constructor
        · rintro ⟨h1 | h1, h2⟩
          · exact h1
          · rw [hx] at h2; exact absurd h2 (hf3 p h1)
        · intro h1; exact absurd h1 hpp
      · rw [if_neg hx, LoopState.mem_sharers]
        simp [hpp]
  refine ⟨?_, ?_, ?_, ?_, ?_, ?_, ?_, ?_⟩
  · intro p r0 h1
    rw [hpst'] at h1
    rw [hp]
    by_cases hpp : pid = p
    · rw [if_pos hpp] at h1
      have : r = r0 := by simpa using h1
      omega
    · rw [if_neg hpp] at h1
      exact h.valid p r0 h1
  · intro r0 h1
    rw [hio, hi]; exact h.inRange r0 (by rw [← hp]; exact h1)
  · intro p h1
    rw [hpst']
    by_cases hpp : pid = p
    · rw [if_pos hpp]; simp
    · rw [if_neg hpp]
      rcases (hrun' p).1 h1 with h2 | h2
      · exact absurd h2.symm hpp
      · exact h.hasState p h2
  · intro p h1
    rw [ht, GoMap.getD_del]
    by_cases hpp : pid = p
    · rw [if_pos hpp]
    · rw [if_neg hpp]
      rcases (hrun' p).1 h1 with h2 | h2
      · exact absurd h2.symm hpp
      · exact h.notTerm p h2
  · intro p h1 h2
    rw [hrun']
    by_cases hpp : pid = p
    · exact Or.inl hpp.symm
    · rw [hpst', if_neg hpp] at h1
      rw [ht, GoMap.getD_del, if_neg hpp] at h2
      exact Or.inr (h.alive p h1 h2)
  · intro p q r0 h1 h2 h3 h4
    rw [hpst'] at h3 h4
    by_cases hpp : pid = p
    · by_cases hqq : pid = q
      · rw [← hpp, ← hqq]
      · rw [if_pos hpp] at h3
        rw [if_neg hqq] at h4
        have h5 : r = r0 := by simpa using h3
        rcases (hrun' q).1 h2 with h6 | h6
        · exact absurd h6.symm hqq
        · rw [← h5] at h4; exact absurd h4 (hf2 q h6)
    · by_cases hqq : pid = q
      · rw [if_pos hqq] at h4
        rw [if_neg hpp] at h3
        have h5 : r = r0 := by simpa using h4
        rcases (hrun' p).1 h1 with h6 | h6
        · exact absurd h6.symm hpp
        · rw [← h5] at h3; exact absurd h3 (hf2 p h6)
      · rw [if_neg hpp] at h3
        rw [if_neg hqq] at h4
        rcases (hrun' p).1 h1 with h5 | h5
        · exact absurd h5.symm hpp
        · rcases (hrun' q).1 h2 with h6 | h6
          · exact absurd h6.symm hqq
          · exact h.noAlias p q r0 h5 h6 h3 h4
  · intro q c h1
    rw [hs] at h1; exact h.susp q c h1
  · intro p x h1 h2
    rw [hc, hsh]
    by_cases hpp : p = pid
    · subst hpp
      rw [hiosNew] at h2
      have hx : x = (st.heap.proc r).IOs := by simpa using h2.symm
      rw [if_pos hx, hx, hf1]
      simp
    · rw [hios p hpp] at h2
      have hrunp : st.running.get? p ≠ none := by
        rcases (hrun' p).1 h1 with h5 | h5
        · exact absurd h5 hpp
        · exact h5
      have hx : x ≠ (st.heap.proc r).IOs := by
        intro hx; rw [hx] at h2; exact hf3 p hrunp h2
      rw [if_neg hx]
      exact h.count p x hrunp h2

theorem IOs.MapAdd_Cnt (io : IOs) (k i : Nat) : (io.MapAdd k i).Cnt = io.Cnt := by
  unfold IOs.MapAdd
  split <;> rfl

theorem sysexitSwitch_Cnt (env : Env) (pid : Int) (p : ProcState) (sys : SysState)
    (regs : Regs) (ret32 : Int) (p' : ProcState) (s' : SysState)
    (h : sysexitSwitch env pid p sys regs ret32 = .ok (p', s')) : p'.IOs.Cnt = p.IOs.Cnt := by
  unfold sysexitSwitch at h
  split at h
  · unfold sysexitOpen at h
    split at h
    · cases h
    · rename_i q hq
      cases h
      unfold openRecordIO at hq
      split at hq
      · cases hq; rfl
      · split at hq
        · split at hq
          · cases hq
          · cases hq; rfl
          · cases hq; exact IOs.MapAdd_Cnt _ _ _
        · cases hq; exact IOs.MapAdd_Cnt _ _ _
  · cases h; rfl
  · cases h; rfl
  · cases h
    simp only [sysexitLinkPaths, IOs.MapAdd_Cnt]
    split
    · exact IOs.MapAdd_Cnt _ _ _
    · rfl
  · cases h
    simp only [sysexitLinkPaths, IOs.MapAdd_Cnt]
    split
    · exact IOs.MapAdd_Cnt _ _ _
    · rfl
  · cases h; rfl
  · cases h; rfl
  · cases h; rfl
  · cases h
    unfold sysexitRead
    dsimp only
    split
    · exact IOs.MapAdd_Cnt _ _ _
    · rfl
  · cases h
    unfold sysexitWrite
    dsimp only
    split
    · exact IOs.MapAdd_Cnt _ _ _
    · rfl
  · cases h; rfl
  · unfold sysexitPipe at h
    split at h
    · cases h
    · cases h; rfl
  · cases h; rfl

theorem sysexit_Cnt (env : Env) (pid : Int) (p : ProcState) (sys : SysState) (b : Bool)
    (p' : ProcState) (s' : SysState) (h : sysexit env pid p sys = .ok (b, p', s')) :
    p'.IOs.Cnt = p.IOs.Cnt := by
  unfold sysexit at h
  split at h
  · cases h; rfl
  · split at h
    · cases h; rfl
    · split at h
      · cases h
      · rename_i q s hq
        cases h
        have := sysexitSwitch_Cnt _ _ _ _ _ _ _ _ hq
        rw [sysexitFcntl_IOs] at this
        exact this

theorem terminate_effect {σ : Type} (cbs : Callbacks σ) (st st' : LoopState σ) (pid : Int)
    (r : Nat) (h : terminate cbs st pid (some r) = .ok st') :
    st'.heap = st.heap.ResetIOs r ∧ st'.pstates = st.pstates ∧ st'.running = st.running ∧
    st'.terminated = st.terminated ∧ st'.suspended = st.suspended := by
  unfold terminate at h
  dsimp only at h
  split at h
  · split at h
    · cases h
    · cases h; exact ⟨rfl, rfl, rfl, rfl, rfl⟩
  · cases h; exact ⟨rfl, rfl, rfl, rfl, rfl⟩

/-- The closure `term` keeps the discipline. When it terminates a running PID, the state
of the PID is left with a fresh IOSet of refcount 1 that no running PID holds. -/
theorem term_RefInv {σ : Type} (cbs : Callbacks σ) (st st' : LoopState σ) (pid : Int)
    (h : RefInv st) (ht : term cbs st pid = .ok st') :
    RefInv st' ∧ st'.pstates = st.pstates ∧
    st'.heap.procs.length = st.heap.procs.length ∧
    st'.running.get? pid = none ∧
    (∀ p, p ≠ pid → (st'.running.get? p ≠ none ↔ st.running.get? p ≠ none)) ∧
    (∀ r, st.pstates.get? pid = some r → st.running.get? pid ≠ none →
      st'.cntOf (st'.heap.proc r).IOs = 1 ∧
      (∀ p, st'.running.get? p ≠ none → st'.pstates.get? p ≠ some r) ∧
      (∀ p, st'.running.get? p ≠ none → st'.iosOf p ≠ some (st'.heap.proc r).IOs)) := by
  unfold term at ht
  split at ht
  · rename_i hterm
    cases ht
    have hnr : st.running.get? pid = none := by
      by_contra hc
      have := h.notTerm pid hc
      rw [this] at hterm; cases hterm
    exact ⟨h, rfl, rfl, hnr, fun _ _ => Iff.rfl, fun r _ hrun => absurd hnr hrun⟩
  · rename_i hterm
    have hterm' : st.terminated.getD pid false = false := by simpa using hterm
    split at ht
    · cases ht
    · rename_i st1 h1
      cases ht
      cases hps : st.pstates.get? pid with
      | none => rw [hps] at h1; simp [terminate] at h1
      | some r =>
        rw [hps] at h1
        obtain ⟨e1, e2, e3, e4, e5⟩ := terminate_effect cbs st st1 pid r h1
        have hrun : st.running.get? pid ≠ none :=
          h.alive pid (by rw [hps]; simp) hterm'
        have hrv := h.valid pid r hps
        have hxr := h.inRange r hrv
        obtain ⟨f1, f2, f3⟩ := Heap.ResetIOs_effect st.heap r hrv hxr
        have step := RefInv.term_step st
          { st1 with terminated := st1.terminated.set pid true,
                     running := st1.running.del pid }
          h pid r hps hrun
          (by show st1.heap.procs.length = _; rw [e1]; exact Heap.ResetIOs_procs_length _ _)
          (by show st1.heap.ios.length = _; rw [e1]; exact f1)
          (by intro r'; show (st1.heap.proc r').IOs = _; rw [e1]; exact f2 r')
          (by intro x; show (st1.heap.ios.getD x NewIOs).Cnt = _; rw [e1]; exact f3 x)
          e2 (by show st1.running.del pid = _; rw [e3])
          (by show st1.terminated.set pid true = _; rw [e4]) e5
        refine ⟨step.1, e2, ?_, ?_, ?_, ?_⟩
        · show st1.heap.procs.length = _; rw [e1]; exact Heap.ResetIOs_procs_length _ _
        · show (st1.running.del pid).get? pid = none
          rw [GoMap.get?_del, if_pos rfl]
        · intro p hp
          show (st1.running.del pid).get? p ≠ none ↔ _
          rw [GoMap.get?_del, if_neg (fun hc => hp hc.symm), e3]
        · intro r0 hr0 _
          have : r0 = r := by simpa using hr0.symm
          subst this
          exact step.2

theorem vanished_RefInv {σ : Type} (cbs : Callbacks σ) (st st' : LoopState σ) (pid : Int)
    (h : RefInv st) (hv : vanished cbs st pid = .ok st') : RefInv st' := by
  unfold vanished at hv
  split at hv
  · cases hv
  · rename_i st1 h1
    cases hv
    have := (term_RefInv cbs st st1 pid h h1).1
    exact RefInv.congr st1 _ this rfl rfl (fun _ => rfl) (fun _ => rfl) rfl rfl rfl this.susp

theorem syscallStop_RefInv {σ : Type} (cbs : Callbacks σ) (env : Env) (st st' : LoopState σ)
    (pid : Int) (ps : Nat) (h : RefInv st) (hs : syscallStop cbs env st pid ps = .ok st') :
    RefInv st' := by
  unfold syscallStop entryStop exitStop at hs
  split at hs
  · split at hs
    · cases hs
    · rename_i r hr
      rcases r with ⟨b, p', w⟩
      have hio : p'.IOs = st.heap.procIOs ps := sysenter_IOs _ _ _ _ _ _ _ hr
      obtain ⟨f1, f2, f3⟩ := Heap.store_effect st.heap ps p' (by rw [hio])
      have hst : ∀ rs,
          RefInv ({ st with heap := st.heap.store ps p', regsSet := rs } : LoopState σ) :=
        fun rs =>
          RefInv.congr st _ h (Heap.store_procs_length _ _ _) f1 f2 f3 rfl rfl rfl h.susp
      split at hs
      · cases hs
        exact RefInv.congr _ _ (hst (st.regsSet ++ (w.map (fun regs => (pid, regs))).toList))
          rfl rfl (fun _ => rfl) (fun _ => rfl) rfl rfl rfl (hst []).susp
      · exact vanished_RefInv cbs _ st' pid
          (hst (st.regsSet ++ (w.map (fun regs => (pid, regs))).toList)) hs
  · split at hs
    · cases hs
    · rename_i r hr
      rcases r with ⟨b, p', s'⟩
      have hio : p'.IOs.Cnt = (st.heap.procIOs ps).Cnt := sysexit_Cnt _ _ _ _ _ _ _ hr
      obtain ⟨f1, f2, f3⟩ := Heap.store_effect st.heap ps p' hio
      have hst : RefInv ({ st with heap := st.heap.store ps p', sys := s' } : LoopState σ) :=
        RefInv.congr st _ h (Heap.store_procs_length _ _ _) f1 f2 f3 rfl rfl rfl h.susp
      split at hs
      · cases hs
        exact RefInv.congr _ _ hst rfl rfl (fun _ => rfl) (fun _ => rfl) rfl rfl rfl hst.susp
      · exact vanished_RefInv cbs _ st' pid hst hs

theorem isCreation_iff (c : Int) :
    isCreation c = true ↔ (c = PTRACE_EVENT_FORK ∨ c = PTRACE_EVENT_VFORK ∨
      c = PTRACE_EVENT_VFORK_DONE ∨ c = PTRACE_EVENT_CLONE) := by
  simp [isCreation]

/-- A stop whose cause is neither a creation nor an exec event keeps the discipline. -/
theorem dispatch_ordinary_RefInv {σ : Type} (cbs : Callbacks σ) (env : Env) (fuel : Nat)
    (st st' : LoopState σ) (pid c : Int) (ps : Nat) (h : RefInv st)
    (hc1 : isCreation c = false) (hc2 : c ≠ PTRACE_EVENT_EXEC)
    (hd : dispatch cbs env fuel st pid c ps = .ok st') : RefInv st' := by
  cases fuel with
  | zero => simp [dispatch] at hd
  | succ n =>
    rw [dispatch] at hd
    have hnc : ¬ (c = PTRACE_EVENT_FORK ∨ c = PTRACE_EVENT_VFORK ∨
        c = PTRACE_EVENT_VFORK_DONE ∨ c = PTRACE_EVENT_CLONE) := by
      intro hc
      rw [(isCreation_iff c).2 hc] at hc1; cases hc1
    rw [if_neg hnc, if_neg hc2] at hd
    split at hd
    · split at hd
      · cases hd
      · split at hd
        · cases hd
          exact RefInv.congr st _ h rfl rfl (fun _ => rfl) (fun _ => rfl) rfl rfl rfl h.susp
        · exact syscallStop_RefInv cbs env st st' pid ps h hd
    · split at hd
      · exact syscallStop_RefInv cbs env st st' pid ps h hd
      · cases hd

/-- A creation event from a running PID keeps the discipline when the PID that it names
is not running or is another PID whose IOSet has refcount 1, also when the saved
stop of the new PID is handled at once. -/
theorem dispatch_creation_RefInv {σ : Type} (cbs : Callbacks σ) (env : Env) (fuel : Nat)
    (st st' : LoopState σ) (pid c : Int) (ps : Nat) (h : RefInv st)
    (hc : isCreation c = true) (hps : st.pstates.get? pid = some ps)
    (hrun : st.running.get? pid ≠ none)
    (hnew : ∀ n, env.eventMsg pid = some n →
      st.running.get? (toInt64 n) = none ∨
        (toInt64 n ≠ pid ∧ ∃ x, st.iosOf (toInt64 n) = some x ∧ st.cntOf x = 1))
    (hd : dispatch cbs env fuel st pid c ps = .ok st') : RefInv st' := by
  cases fuel with
  | zero => simp [dispatch] at hd
  | succ n =>
    rw [dispatch] at hd
    rw [if_pos ((isCreation_iff c).1 hc)] at hd
    split at hd
    · cases hd
    · rename_i unewpid hmsg
      have hrv := h.valid pid ps hps
      have hxr := h.inRange ps hrv
      obtain ⟨g0, g1, g2, g3, g4⟩ :=
        Heap.Clone_effect st.heap ps (cloneFilesFlag env pid c) hxr
      have hcre : ∀ (susp : GoMap Int Int) (resumed : List (Int × Bool)) (log : List LogLine),
          (∀ q c, susp.get? q = some c → st.suspended.get? q = some c) →
          RefInv ({ createProc env st pid c ps (toInt64 unewpid) with
            suspended := susp, resumed := resumed, log := log } : LoopState σ) := by
        intro susp resumed log hs
        exact RefInv.create_step st _ h pid (toInt64 unewpid) ps (cloneFilesFlag env pid c)
          hps hrun (hnew unewpid hmsg) g1 g2 g3 g4
          (by show st.pstates.set _ _ = _; rw [g0]) rfl rfl hs
      split at hd
      · cases hd
        exact hcre _ _ _ (fun _ _ hq => hq)
      · rename_i newstatus hsus
        have hsus' : st.suspended.get? (toInt64 unewpid) = some newstatus := hsus
        have hord := h.susp _ _ hsus'
        refine dispatch_ordinary_RefInv cbs env n _ st' _ newstatus _ ?_ hord.1 hord.2 hd
        refine hcre _ _ _ ?_
        intro q c0 hq
        rw [GoMap.get?_del] at hq
        split at hq
        · cases hq
        · exact hq

theorem List.getD_set_IOs (l : List ProcObj) (ref r : Nat) (v : ProcObj)
    (hv : v.IOs = (l.getD ref ProcObj.zero).IOs) :
    ((l.set ref v).getD r ProcObj.zero).IOs = (l.getD r ProcObj.zero).IOs := by
  by_cases h1 : r = ref
  · subst h1
    by_cases h2 : r < l.length
    · rw [List.getD_set_self _ _ _ _ h2, hv]
    · have h3 : l.length ≤ r := Nat.le_of_not_lt h2
      rw [List.getD_eq_default _ _ (by simpa using h3), List.getD_eq_default _ _ h3]
  · rw [List.getD_set_ne _ _ _ _ _ (fun hc => h1 hc.symm)]

theorem bumpExec_RefInv {σ : Type} (st : LoopState σ) (pid : Int) (h : RefInv st) :
    RefInv (bumpExec st pid) ∧ (bumpExec st pid).pstates = st.pstates ∧
    (bumpExec st pid).running = st.running := by
  unfold bumpExec
  split
  · exact ⟨h, rfl, rfl⟩
  · exact ⟨RefInv.congr st _ h rfl rfl (fun _ => rfl) (fun _ => rfl) rfl rfl rfl h.susp,
      rfl, rfl⟩

theorem execInstall_RefInv {σ : Type} (cbs : Callbacks σ) (st st' : LoopState σ)
    (oldpid pid : Int) (r : Nat) (h : RefInv st) (hrv : r < st.heap.procs.length)
    (hnot : st.running.get? pid = none)
    (hf1 : st.cntOf (st.heap.proc r).IOs = 1)
    (hf2 : ∀ p, st.running.get? p ≠ none → st.pstates.get? p ≠ some r)
    (hf3 : ∀ p, st.running.get? p ≠ none → st.iosOf p ≠ some (st.heap.proc r).IOs)
    (hi : execInstall cbs { st with terminated := st.terminated.del pid } oldpid pid (some r) =
      .ok st') : RefInv st' := by
  unfold execInstall at hi
  dsimp only at hi
  split at hi
  · cases hi
  · cases hi
    refine RefInv.install_step st _ h pid r hrv hnot hf1 hf2 hf3 ?_ rfl ?_ (fun _ => rfl)
      rfl rfl rfl rfl
    · simp [resumeTracee, execProc]
    · intro r'
      simp only [resumeTracee, execProc, Heap.proc]
      refine Eq.trans (List.getD_set_IOs _ _ _ _ ?_) (List.getD_set_IOs _ _ _ _ ?_)
      · rfl
      · rfl

/-- An exec event whose old PID is running keeps the discipline. -/
theorem execEvent_RefInv {σ : Type} (cbs : Callbacks σ) (env : Env) (st st' : LoopState σ)
    (pid : Int) (ps : Nat) (h : RefInv st) (hps : st.pstates.get? pid = some ps)
    (hold : ∀ n, env.eventMsg pid = some n → st.running.get? (toInt64 n) ≠ none)
    (he : execEvent cbs env st pid ps = .ok st') : RefInv st' := by
  unfold execEvent at he
  obtain ⟨b0, b1, b2⟩ := bumpExec_RefInv st pid h
  split at he
  · cases he
  · rename_i st1 h1
    obtain ⟨t1, t2, t3, t4, t5, t6⟩ := term_RefInv cbs _ st1 pid b0 h1
    have hterm1 : st1.terminated.getD pid false = true := (term_terminated cbs _ st1 pid h1).1
    split at he
    · cases he
    · rename_i uoldpid hmsg
      split at he
      · cases he
      · split at he
        · cases he
        · rename_i st2 h2
          by_cases hsame : toInt64 uoldpid = pid
          · have hrun : st.running.get? pid ≠ none := by
              rw [← hsame]; exact hold uoldpid hmsg
            have hfresh := t6 ps (by rw [b1]; exact hps) (by rw [b2]; exact hrun)
            rw [hsame] at h2 he
            have h2' : term cbs st1 pid = .ok st1 := by
              unfold term; rw [if_pos hterm1]
            rw [h2'] at h2
            cases h2
            have hp1 : st1.pstates.get? pid = some ps := by rw [t2, b1]; exact hps
            rw [hp1] at he
            exact execInstall_RefInv cbs st1 st' pid pid ps t1
              (by rw [t3]; exact (bumpExec_frame st pid).2 ▸ h.valid pid ps hps) t4 hfresh.1
              hfresh.2.1 hfresh.2.2 he
          · have hrunOld : st1.running.get? (toInt64 uoldpid) ≠ none := by
              rw [t5 _ hsame, b2]
              exact hold uoldpid hmsg
            obtain ⟨r, hr⟩ := Option.ne_none_iff_exists'.1 (t1.hasState _ hrunOld)
            obtain ⟨u1, u2, u3, u4, u5, u6⟩ := term_RefInv cbs st1 st2 (toInt64 uoldpid) t1 h2
            have hfresh2 := u6 r hr hrunOld
            rw [hr] at he
            refine execInstall_RefInv cbs st2 st' (toInt64 uoldpid) pid r u1 ?_ ?_ hfresh2.1
              hfresh2.2.1 hfresh2.2.2 he
            · rw [u3]; exact t1.valid _ r hr
            · by_contra hc
              have := (u5 pid (fun hc2 => hsame hc2.symm)).1 hc
              exact this t4

theorem setExit_RefInv {σ : Type} (st : LoopState σ) (pid c : Int) (h : RefInv st) :
    RefInv (setExit st pid c) := by
  unfold setExit
  split
  · exact h
  · exact RefInv.congr st _ h rfl rfl (fun _ => rfl) (fun _ => rfl) rfl rfl rfl h.susp

theorem afterExit_RefInv {σ : Type} (st : LoopState σ) (pid c : Int) (h : RefInv st) :
    RefInv (afterExit st pid c).state := by
  unfold afterExit preserveStatus
  split <;> split <;>
    exact RefInv.congr st _ h rfl rfl (fun _ => rfl) (fun _ => rfl) rfl rfl rfl h.susp

/-- One iteration of the loop on an event that is as `wellFormed` expects keeps the
discipline. -/
theorem mainLoopStep_RefInv {σ : Type} (cbs : Callbacks σ) (st : LoopState σ) (ev : Event)
    (res : StepResult σ) (h : RefInv st) (hwf : wellFormed st ev = true)
    (hs : mainLoopStep cbs st ev = .ok res) : RefInv res.state := by
  unfold mainLoopStep at hs
  by_cases hok : ev.ok = false
  · rw [if_pos hok] at hs
    split at hs
    · cases hs
    · rename_i st1 h1
      cases hs
      exact afterExit_RefInv st1 _ _ (term_RefInv cbs _ st1 ev.pid (setExit_RefInv st _ _ h) h1).1
  · rw [if_neg hok] at hs
    unfold wellFormed at hwf
    rw [if_neg hok] at hwf
    cases hps : st.pstates.get? ev.pid with
    | none =>
      rw [hps] at hs hwf
      cases hs
      simp only [Bool.and_eq_true, Bool.not_eq_true', decide_eq_true_eq] at hwf
      refine RefInv.congr st _ h rfl rfl (fun _ => rfl) (fun _ => rfl) rfl rfl rfl ?_
      intro q c hq
      simp only [StepResult.state] at hq
      rw [GoMap.get?_set] at hq
      split at hq
      · have : ev.trapCause = c := by simpa using hq
        rw [← this]; exact hwf
      · exact h.susp q c hq
    | some ps =>
      rw [hps] at hs hwf
      simp only at hs hwf
      split at hs
      · cases hs
      · rename_i st1 h1
        cases hs
        show RefInv st1
        by_cases hcr : isCreation ev.trapCause = true
        · rw [if_pos hcr] at hwf
          simp only [Bool.and_eq_true, Option.isSome_iff_exists] at hwf
          obtain ⟨⟨v, hv⟩, hmsg⟩ := hwf
          refine dispatch_creation_RefInv cbs ev.env _ st st1 ev.pid ev.trapCause ps h hcr hps
            (by rw [hv]; simp) ?_ h1
          intro n hn
          rw [hn] at hmsg
          simp only [Bool.or_eq_true, Bool.and_eq_true, decide_eq_true_eq,
            Option.isNone_iff_eq_none] at hmsg
          rcases hmsg with h2 | ⟨h2, h3⟩
          · exact Or.inl h2
          · refine Or.inr ⟨h2, ?_⟩
            unfold LoopState.unshared at h3
            cases hx : st.iosOf (toInt64 n) with
            | none => rw [hx] at h3; cases h3
            | some x => rw [hx] at h3; exact ⟨x, rfl, by simpa using h3⟩
        · rw [if_neg hcr] at hwf
          by_cases hex : ev.trapCause = PTRACE_EVENT_EXEC
          · rw [if_pos hex] at hwf
            rw [hex, dispatch_exec] at h1
            refine execEvent_RefInv cbs ev.env st st1 ev.pid ps h hps ?_ h1
            intro n hn
            rw [hn] at hwf
            simp only [Option.isSome_iff_exists] at hwf
            obtain ⟨w, hw⟩ := hwf
            rw [hw]; simp
          · exact dispatch_ordinary_RefInv cbs ev.env _ st st1 ev.pid ev.trapCause ps h
              (by simpa using hcr) hex h1

theorem RefInv_init {σ : Type} (sys : SysState) (mainPID : Int) (cwd : String) (user : σ) :
    RefInv (initLoopState sys mainPID cwd user) := by
  have hrun : ∀ p, (initLoopState sys mainPID cwd user).running.get? p ≠ none → p = mainPID := by
    intro p hp
    simp only [initLoopState, GoMap.get?] at hp
    by_contra hc
    exact hp (by rw [if_neg (fun h => hc h.symm)])
  have hps : ∀ p r, (initLoopState sys mainPID cwd user).pstates.get? p = some r →
      p = mainPID ∧ r = 0 := by
    intro p r hp
    simp only [initLoopState, GoMap.get?] at hp
    split at hp
    · rename_i heq
      exact ⟨heq.symm, by simpa using hp.symm⟩
    · cases hp
  refine ⟨?_, ?_, ?_, ?_, ?_, ?_, ?_, ?_⟩
  · intro p r hp
    rw [(hps p r hp).2]
    simp [initLoopState]
  · intro r hr
    have : r = 0 := by simp [initLoopState] at hr; exact hr
    subst this
    simp [initLoopState, Heap.proc, ProcObj.zero]
  · intro p hp
    rw [hrun p hp]
    simp [initLoopState, GoMap.get?]
  · intro p _
    simp [initLoopState, GoMap.getD, GoMap.get?]
  · intro p hp _
    cases hq : (initLoopState sys mainPID cwd user).pstates.get? p with
    | none => exact absurd hq hp
    | some r =>
      rw [(hps p r hq).1]
      simp [initLoopState, GoMap.get?]
  · intro p q r hp hq _ _
    rw [hrun p hp, hrun q hq]
  · intro q c hq
    simp [initLoopState, GoMap.get?] at hq
  · intro p x hp hx
    obtain ⟨r, hr, hrx⟩ := LoopState.iosOf_some _ p x hx
    have hr0 := (hps p r hr).2
    subst hr0
    have hx0 : x = 0 := by
      rw [← hrx]; simp [initLoopState, Heap.proc, ProcObj.zero]
    subst hx0
    have hpm : p = mainPID := hrun p hp
    rw [hpm] at hp hx
    have hsh : (initLoopState sys mainPID cwd user).sharers 0 = {mainPID} := by
      ext q
      rw [LoopState.mem_sharers, Finset.mem_singleton]
      constructor
      · intro hq; exact hrun q hq.1
      · intro hq
        rw [hq]
        exact ⟨hp, hx⟩
    rw [hsh]
    simp [LoopState.cntOf, initLoopState, NewIOs]

theorem wellFormedRun_take {σ : Type} (cbs : Callbacks σ) (evs : List Event) :
    ∀ (st : LoopState σ) (k : Nat), wellFormedRun cbs st evs = true →
      wellFormedRun cbs st (evs.take k) = true := by
  induction evs with
  | nil => intro st k h; simpa using h
  | cons ev evs ih =>
    intro st k h
    cases k with
    | zero => rfl
    | succ k =>
      simp only [List.take_succ_cons, wellFormedRun, Bool.and_eq_true] at h ⊢
      refine ⟨h.1, ?_⟩
      have h2 := h.2
      split
      · rename_i st1 hst1
        rw [hst1] at h2
        exact ih st1 k h2
      · rfl

theorem mainLoopFrom_RefInv {σ : Type} (cbs : Callbacks σ) (evs : List Event) :
    ∀ (st st' : LoopState σ), RefInv st → wellFormedRun cbs st evs = true →
      (mainLoopFrom cbs st evs = Outcome.waiting st' ∨
        ∃ rc, mainLoopFrom cbs st evs = Outcome.returned rc st') →
      RefInv st' := by
  induction evs with
  | nil =>
    intro st st' hinv _ h
    simp only [mainLoopFrom] at h
    rcases h with h | ⟨rc, h⟩
    · cases h; exact hinv
    · cases h
  | cons ev evs ih =>
    intro st st' hinv hwf h
    simp only [wellFormedRun, Bool.and_eq_true] at hwf
    simp only [mainLoopFrom] at h
    cases hs : mainLoopStep cbs st ev with
    | error f =>
      rw [hs] at h
      rcases h with h | ⟨rc, h⟩ <;> cases h
    | ok res =>
      have hi := mainLoopStep_RefInv cbs st ev res hinv hwf.1 hs
      rw [hs] at h
      have hwf2 := hwf.2
      rw [hs] at hwf2
      cases res with
      | next st1 => exact ih st1 st' hi hwf2 h
      | done rc st1 =>
        rcases h with h | ⟨rc1, h⟩
        · cases h
        · cases h; exact hi

/-- C15 (code evaluated at the failing input): the main process vforks PID 2, PID 2
creates PID 3 with `CLONE_FILES`, and the vfork-done event of the main process,
which names PID 2 again, is handled before the exec or exit of PID 2. The
creation case replaces the state of PID 2 by a new clone of the state of PID 1
without releasing the replaced state, so that the IOSet 1 is left with
refcount 2 while PID 3 is the only running PID whose state holds it: the test
`Cnt == 1` of `terminate` fails for PID 3 although it is the last running
sharer. Up to the vfork-done event the run is as `wellFormed` expects. When
the processes run a command and PID 2 and PID 3 then terminate, the only
record is printed for PID 2, from its replaced state, and none for PID 3, the
last sharer of the IOSet; without the vfork-done event the only record is the
one of PID 3. -/
theorem vfork_done_breaks_refcount :
    (superviseSample vforkSharing).fault = none ∧
    (sampleStateAfter vforkSharing).running = [(2, true), (3, true), (1, true)] ∧
    (sampleStateAfter vforkSharing).pstates = [(2, 3), (3, 2), (1, 0)] ∧
    (sampleStateAfter vforkSharing).iosOf 1 = some 0 ∧
    (sampleStateAfter vforkSharing).iosOf 2 = some 2 ∧
    (sampleStateAfter vforkSharing).iosOf 3 = some 1 ∧
    (sampleStateAfter vforkSharing).sharers 1 = {3} ∧
    ((sampleStateAfter vforkSharing).sharers 1).card = 1 ∧
    (sampleStateAfter vforkSharing).cntOf 1 = 2 ∧
    ((sampleStateAfter vforkSharing).heap.procIOs 2).Cnt = 2 ∧
    wellFormedRun (mainCallbacks false []) sampleState0 (vforkSharing.take 2) = true ∧
    wellFormedRun (mainCallbacks false []) sampleState0 vforkSharing = false ∧
    ((superviseSample vforkSharingExits).finalState sampleState0).log =
      [LogLine.exec 1 1, LogLine.created 1 PTRACE_EVENT_VFORK 2,
        LogLine.created 2 PTRACE_EVENT_CLONE 3, LogLine.created 1 PTRACE_EVENT_VFORK_DONE 2,
        LogLine.record 2] ∧
    ((superviseSample sharingExits).finalState sampleState0).log =
      [LogLine.exec 1 1, LogLine.created 1 PTRACE_EVENT_VFORK 2,
        LogLine.created 2 PTRACE_EVENT_CLONE 3, LogLine.record 3] := by
  decide

/-- The refcount discipline on the other runs: in a run of `mainLoop` from the initial
state in which every event is as `wellFormed` expects, after each handled event
the discipline holds: for every running PID the refcount of the IOSet of its state is the
number of running PIDs whose state holds this IOSet, and different running
PIDs have different states. In every state with the discipline the test
`Cnt == 1` of `terminate` on the state of a running PID holds exactly when this
PID is the only running PID whose state holds the IOSet; a running PID is not
in the terminated set, so that `term` does call `terminate` for it. -/
theorem refcount_discipline {σ : Type} (cbs : Callbacks σ) (sys : SysState) (mainPID : Int)
    (cwd : String) (user : σ) (events : List Event)
    (hwf : wellFormedRun cbs (initLoopState sys mainPID cwd user) events = true) :
    (∀ (k : Nat) (st : LoopState σ),
      (mainLoop cbs sys mainPID (some cwd) user (events.take k) = Outcome.waiting st ∨
        ∃ rc, mainLoop cbs sys mainPID (some cwd) user (events.take k) =
          Outcome.returned rc st) →
      RefInv st ∧
      (∀ p x, st.running.get? p ≠ none → st.iosOf p = some x →
        st.cntOf x = ((st.sharers x).card : Int)) ∧
      (∀ p q r, st.running.get? p ≠ none → st.running.get? q ≠ none →
        st.pstates.get? p = some r → st.pstates.get? q = some r → p = q)) ∧
    (∀ (st : LoopState σ) (pid : Int) (r : Nat), RefInv st → st.running.get? pid ≠ none →
      st.pstates.get? pid = some r →
      ((st.heap.procIOs r).Cnt = 1 ↔ st.sharers (st.heap.proc r).IOs = {pid}) ∧
      st.terminated.getD pid false = false) := by
  constructor
  · intro k st hrun
    have hinv : RefInv st :=
      mainLoopFrom_RefInv cbs (events.take k) _ st (RefInv_init sys mainPID cwd user)
        (wellFormedRun_take cbs events _ k hwf) hrun
    exact ⟨hinv, hinv.count, hinv.noAlias⟩
  · intro st pid r hinv hrun hps
    have hmem : pid ∈ st.sharers (st.heap.proc r).IOs := by
      rw [LoopState.mem_sharers]
      exact ⟨hrun, LoopState.iosOf_eq st pid r hps⟩
    have hcnt : (st.heap.procIOs r).Cnt = ((st.sharers (st.heap.proc r).IOs).card : Int) :=
      hinv.count pid _ hrun (LoopState.iosOf_eq st pid r hps)
    refine ⟨?_, hinv.notTerm pid hrun⟩
    rw [hcnt]
    constructor
    · intro h1
      have h2 : (st.sharers (st.heap.proc r).IOs).card = 1 := by exact_mod_cast h1
      obtain ⟨a, ha⟩ := Finset.card_eq_one.1 h2
      rw [ha] at hmem ⊢
      rw [Finset.mem_singleton.1 hmem]
    · intro h1
      rw [h1]; simp

/-- Instances of the refcount discipline. On the run `sharingRun`: after the fork of PID 2 and the
creation of its thread 3 with `CLONE_FILES`, the IOSet 1 of PID 2 has refcount 2
and the sharers 2 and 3; after the exit of the thread PID 2 is its only sharer
and the test `Cnt == 1` holds. On the run `vforkPair`, in which the vfork-done
event names the running PID 2 again, PID 2 holds the IOSet 2 of refcount 1 as
its only sharer. -/
theorem refcount_discipline_witness :
    (sampleStateAfter (sharingRun.take 2)).cntOf 1 =
      (((sampleStateAfter (sharingRun.take 2)).sharers 1).card : Int) ∧
    (sampleStateAfter (sharingRun.take 2)).sharers 1 = {2, 3} ∧
    (((sampleStateAfter (sharingRun.take 3)).heap.procIOs 1).Cnt = 1 ↔
      (sampleStateAfter (sharingRun.take 3)).sharers
        ((sampleStateAfter (sharingRun.take 3)).heap.proc 1).IOs = {2}) ∧
    (sampleStateAfter (sharingRun.take 3)).sharers 1 = {2} ∧
    (sampleStateAfter (vforkPair.take 2)).cntOf 2 =
      (((sampleStateAfter (vforkPair.take 2)).sharers 2).card : Int) ∧
    (sampleStateAfter (vforkPair.take 2)).sharers 2 = {2} :=
  ⟨((refcount_discipline (mainCallbacks false []) NewSysState 1 "/w" mainState0 sharingRun
      (by decide)).1 2 (sampleStateAfter (sharingRun.take 2)) (Or.inl (by rfl))).2.1 2 1
      (by decide) (by decide),
   by decide,
   ((refcount_discipline (mainCallbacks false []) NewSysState 1 "/w" mainState0 sharingRun
      (by decide)).2 (sampleStateAfter (sharingRun.take 3)) 2 1
      ((refcount_discipline (mainCallbacks false []) NewSysState 1 "/w" mainState0 sharingRun
        (by decide)).1 3 (sampleStateAfter (sharingRun.take 3)) (Or.inl (by rfl))).1
      (by decide) (by decide)).1,
   by decide,
   ((refcount_discipline (mainCallbacks false []) NewSysState 1 "/w" mainState0 vforkPair
      (by decide)).1 2 (sampleStateAfter (vforkPair.take 2)) (Or.inl (by rfl))).2.1 2 2
      (by decide) (by decide),
   by decide⟩

end Fptrace
